import Mathlib

/-!
# Document store and authorization options

A shallow embedding of `document.go` (package `influxdb`: the option family that
talks to a `DocumentIndex`) and of `kv/document.go` (package `kv`: the store, the
index and the decorator), followed by theorems about them.

Conventions of the embedding.

* A Go `error` result is an `Option Error` (`none` is `nil`); a Go pair
  `(value, error)` is a Lean pair, so that "returns no IDs and an error" can be
  stated about the value component too.
* An interface becomes a record of operations over an explicit state: every
  operation takes the state and returns the state, also when it fails, so an
  implementation may count its calls.
* A closure that captures a mutable variable takes that variable as an argument
  and returns its new value.
-/

set_option autoImplicit false

namespace influxdb

/-- Identifier of a document, organisation, user or label. -/
abbrev ID := Nat

/-- Error codes used by the options and the store. -/
inductive ErrCode where
  | EUnauthorized
  | EInternal
  | ENotFound
  | EInvalid
deriving DecidableEq, Repr

/-- The `Error` value: a code and a message. -/
structure Error where
  Code : ErrCode
  Msg : String
deriving DecidableEq, Repr

/-- Permission actions `ReadAction` and `WriteAction`. -/
inductive Action where
  | ReadAction
  | WriteAction
deriving DecidableEq, Repr

/-- Resource types; only `DocumentsResourceType` and `OrgsResourceType` are named
in the source, every other type is `Other`. -/
inductive ResourceType where
  | DocumentsResourceType
  | OrgsResourceType
  | Other (name : String)
deriving DecidableEq, Repr

/-- The `Resource` of a permission: `ID` and `OrgID` are pointers in the source,
`none` is the nil pointer. Field `Typ` is the source's `Type`. -/
structure Resource where
  Typ : ResourceType
  ID : Option influxdb.ID
  OrgID : Option influxdb.ID
deriving DecidableEq, Repr

/-- A `Permission`: an action on a resource. -/
structure Permission where
  Action : Action
  Resource : Resource
deriving DecidableEq, Repr

/-- Modelled from the spec: the `Authorization` token, whose declaration is not in
the two source files. The spec gives it an ordered permission list and an active
flag; `UserID` is what `GetUserID` returns. -/
structure Authorization where
  Active : Bool
  UserID : ID
  Permissions : List Permission
deriving DecidableEq, Repr

/-- Modelled from the spec: `Authorization.IsActive`, "a token is either active or
not". -/
def Authorization.IsActive (a : Authorization) : Bool :=
  a.Active

/-- The `Authorizer` interface as the options see it: the type switch
`case *Authorization` separates a token from any other identity, of which only
`GetUserID` is used. -/
inductive Authorizer where
  | token (t : Authorization)
  | ambient (userID : ID)
deriving DecidableEq, Repr

/-- Method `GetUserID` of an authorizer. -/
def Authorizer.GetUserID : Authorizer → ID
  | .token t => t.UserID
  | .ambient u => u

/-- The `DocumentIndex` interface over a state `σ`. Each method returns its Go
result together with the state after the call. -/
structure DocumentIndex (σ : Type) where
  AddDocumentOwner : ID → String → ID → σ → Option Error × σ
  RemoveDocumentOwner : ID → String → ID → σ → Option Error × σ
  GetAccessorsDocuments : String → ID → σ → (List ID × Option Error) × σ
  GetDocumentsAccessors : ID → σ → (List ID × Option Error) × σ
  UsersOrgs : ID → σ → (List ID × Option Error) × σ
  IsOrgAccessor : ID → ID → σ → Option Error × σ
  FindOrganizationByName : String → σ → (ID × Option Error) × σ
  FindLabelByName : String → σ → (ID × Option Error) × σ
  AddDocumentLabel : ID → ID → σ → Option Error × σ
  RemoveDocumentLabel : ID → ID → σ → Option Error × σ

/-- The `DocumentDecorator` interface over a state `δ`. -/
structure DocumentDecorator (δ : Type) where
  IncludeContent : δ → Option Error × δ
  IncludeLabels : δ → Option Error × δ

/-- Type `DocumentCreateOptions`: `func(ID, DocumentIndex) error`. -/
abbrev DocumentCreateOptions (σ : Type) :=
  ID → DocumentIndex σ → σ → Option Error × σ

/-- Type `DocumentFindOptions`: `func(DocumentIndex, DocumentDecorator) ([]ID, error)`;
the states of the index and of the decorator are threaded through. -/
abbrev DocumentFindOptions (σ δ : Type) :=
  DocumentIndex σ → DocumentDecorator δ → σ → δ → (List ID × Option Error) × σ × δ

/-- Option `IncludeContent`: no IDs, the decorator's answer. -/
def IncludeContent {σ δ : Type} : DocumentFindOptions σ δ :=
  fun _ dd s d =>
    match dd.IncludeContent d with
    | (err, d1) => (([], err), s, d1)

/-- Option `IncludeLabels`: no IDs, the decorator's answer. -/
def IncludeLabels {σ δ : Type} : DocumentFindOptions σ δ :=
  fun _ dd s d =>
    match dd.IncludeLabels d with
    | (err, d1) => (([], err), s, d1)

/-- Option `WithOrg`. -/
def WithOrg {σ : Type} (org : String) : DocumentCreateOptions σ :=
  fun id idx s =>
    match idx.FindOrganizationByName org s with
    | ((_, some err), s1) => (some err, s1)
    | ((oid, none), s1) => idx.AddDocumentOwner id "org" oid s1

/-- Option `WithLabel`. -/
def WithLabel {σ : Type} (label : String) : DocumentCreateOptions σ :=
  fun id idx s =>
    match idx.FindLabelByName label s with
    | ((_, some err), s1) => (some err, s1)
    | ((lid, none), s1) => idx.AddDocumentLabel id lid s1

/-- Option `WithoutLabel`. -/
def WithoutLabel {σ : Type} (label : String) : DocumentCreateOptions σ :=
  fun id idx s =>
    match idx.FindLabelByName label s with
    | ((_, some err), s1) => (some err, s1)
    | ((lid, none), s1) => idx.RemoveDocumentLabel id lid s1

/-- The loop `for _, oid := range oids` of `Authorized` and `AuthorizedWhereID`:
`true` as soon as one `IsOrgAccessor` call returns no error; an error of any code
moves on to the next org. -/
def isAccessorOfSome {σ : Type} (idx : DocumentIndex σ) (userID : ID) :
    List ID → σ → Bool × σ
  | [], s => (false, s)
  | oid :: rest, s =>
    match idx.IsOrgAccessor userID oid s with
    | (none, s1) => (true, s1)
    | (some _, s1) => isAccessorOfSome idx userID rest s1

/-- The test `p.Resource.OrgID != nil && orgs[*p.Resource.OrgID]`, where the map
`orgs` holds `true` exactly at the members of `oids`. -/
def orgGranted (oids : List ID) : Option ID → Bool
  | some o => oids.contains o
  | none => false

/-- The three grants tested on one permission by `TokenAuthorized` and
`TokenAuthorizedWhereID`, in the order of the source; `oids` are the document's
accessors, from which the map `orgs` is built. -/
def permissionGrants (id : ID) (oids : List ID) (p : Permission) : Bool :=
  if p.Resource.Typ = ResourceType.DocumentsResourceType ∧ p.Resource.ID = some id then
    true
  else if p.Resource.Typ = ResourceType.DocumentsResourceType ∧ p.Resource.ID = none
      ∧ p.Resource.OrgID = none then
    true
  else if p.Resource.Typ = ResourceType.DocumentsResourceType
      ∧ orgGranted oids p.Resource.OrgID = true then
    true
  else
    false

/-- The loop over `a.Permissions` in `TokenAuthorized`: permissions whose action
is `ReadAction` are skipped. -/
def tokenAuthorizedScan (id : ID) (oids : List ID) : List Permission → Bool
  | [] => false
  | p :: ps =>
    if p.Action = Action.ReadAction then
      tokenAuthorizedScan id oids ps
    else if permissionGrants id oids p then
      true
    else
      tokenAuthorizedScan id oids ps

/-- Option `TokenAuthorized`. -/
def TokenAuthorized {σ : Type} (a : Authorization) : DocumentCreateOptions σ :=
  fun id idx s =>
    if !a.IsActive then
      (some { Code := ErrCode.EUnauthorized, Msg := "authorizer cannot access document" }, s)
    else
      match idx.GetDocumentsAccessors id s with
      | ((_, some err), s1) => (some err, s1)
      | ((oids, none), s1) =>
        if tokenAuthorizedScan id oids a.Permissions then
          (none, s1)
        else
          (some { Code := ErrCode.EUnauthorized,
                  Msg := "authorization cannot access document" }, s1)

/-- Option `Authorized`. -/
def Authorized {σ : Type} (a : Authorizer) : DocumentCreateOptions σ :=
  match a with
  | .token t => TokenAuthorized t
  | .ambient userID =>
    fun docID idx s =>
      match idx.GetDocumentsAccessors docID s with
      | ((_, some err), s1) => (some err, s1)
      | ((oids, none), s1) =>
        match isAccessorOfSome idx (Authorizer.ambient userID).GetUserID oids s1 with
        | (true, s2) => (none, s2)
        | (false, s2) =>
          (some { Code := ErrCode.EUnauthorized, Msg := "authorizer cannot access document" }, s2)

/-- Option `TokenAuthorizedWithOrg`. `Allowed` is the method
`Authorization.Allowed`, whose body is not in the two source files and is taken as
a parameter. -/
def TokenAuthorizedWithOrg {σ : Type} (Allowed : Authorization → Permission → Bool)
    (a : Authorization) (org : String) : DocumentCreateOptions σ :=
  fun id idx s =>
    if !a.IsActive then
      (some { Code := ErrCode.EUnauthorized,
              Msg := "authorization cannot add org as document owner" }, s)
    else
      match idx.FindOrganizationByName org s with
      | ((_, some err), s1) => (some err, s1)
      | ((oid, none), s1) =>
        if !Allowed a { Action := Action.WriteAction,
                        Resource := { Typ := ResourceType.DocumentsResourceType,
                                      ID := none, OrgID := some oid } } then
          (some { Code := ErrCode.EUnauthorized,
                  Msg := "authorization cannot add org as document owner" }, s1)
        else
          idx.AddDocumentOwner id "org" oid s1

/-- Option `AuthorizedWithOrg`. -/
def AuthorizedWithOrg {σ : Type} (Allowed : Authorization → Permission → Bool)
    (a : Authorizer) (org : String) : DocumentCreateOptions σ :=
  match a with
  | .token t => TokenAuthorizedWithOrg Allowed t org
  | .ambient userID =>
    fun id idx s =>
      match idx.FindOrganizationByName org s with
      | ((_, some err), s1) => (some err, s1)
      | ((oid, none), s1) =>
        match idx.IsOrgAccessor (Authorizer.ambient userID).GetUserID oid s1 with
        | (some err, s2) => (some err, s2)
        | (none, s2) => idx.AddDocumentOwner id "org" oid s2

/-- Option `WhereOrg`. -/
def WhereOrg {σ δ : Type} (org : String) : DocumentFindOptions σ δ :=
  fun idx _ s d =>
    match idx.FindOrganizationByName org s with
    | ((_, some err), s1) => (([], some err), s1, d)
    | ((oid, none), s1) =>
      match idx.GetAccessorsDocuments "org" oid s1 with
      | (r, s2) => (r, s2, d)

/-- Option `TokenAuthorizedWhereOrg`; the permission it asks `Allowed` about has
action `ReadAction` and type `OrgsResourceType`. -/
def TokenAuthorizedWhereOrg {σ δ : Type} (Allowed : Authorization → Permission → Bool)
    (a : Authorization) (org : String) : DocumentFindOptions σ δ :=
  fun idx _ s d =>
    match idx.FindOrganizationByName org s with
    | ((_, some err), s1) => (([], some err), s1, d)
    | ((oid, none), s1) =>
      if !Allowed a { Action := Action.ReadAction,
                      Resource := { Typ := ResourceType.OrgsResourceType,
                                    ID := none, OrgID := some oid } } then
        (([], some { Code := ErrCode.EUnauthorized,
                     Msg := "authorizer cannot access documents" }), s1, d)
      else
        match idx.GetAccessorsDocuments "org" oid s1 with
        | (r, s2) => (r, s2, d)

/-- Option `AuthorizedWhereOrg`. -/
def AuthorizedWhereOrg {σ δ : Type} (Allowed : Authorization → Permission → Bool)
    (a : Authorizer) (org : String) : DocumentFindOptions σ δ :=
  match a with
  | .token t => TokenAuthorizedWhereOrg Allowed t org
  | .ambient userID =>
    fun idx _ s d =>
      match idx.FindOrganizationByName org s with
      | ((_, some err), s1) => (([], some err), s1, d)
      | ((oid, none), s1) =>
        match idx.IsOrgAccessor (Authorizer.ambient userID).GetUserID oid s1 with
        | (some err, s2) => (([], some err), s2, d)
        | (none, s2) =>
          match idx.GetAccessorsDocuments "org" oid s2 with
          | (r, s3) => (r, s3, d)

/-- The loop `for _, orgID := range orgIDs` of `AuthorizedWhere`: the error, if
any, the captured slice `ids` after the loop, and the index state. -/
def collectOrgDocuments {σ : Type} (idx : DocumentIndex σ) :
    List ID → List ID → σ → Option Error × List ID × σ
  | [], ids, s => (none, ids, s)
  | orgID :: rest, ids, s =>
    match idx.GetAccessorsDocuments "org" orgID s with
    | ((_, some err), s1) => (some err, ids, s1)
    | ((dids, none), s1) => collectOrgDocuments idx rest (ids ++ dids) s1

/-- The loop `for _, p := range a.Permissions` of `TokenAuthorizedWhere`: the
error, if any, the captured slice `ids` after the loop, and the index state. -/
def tokenAuthorizedWhereScan {σ : Type} (idx : DocumentIndex σ) :
    List Permission → List ID → σ → Option Error × List ID × σ
  | [], ids, s => (none, ids, s)
  | p :: ps, ids, s =>
    let first : Option Error × List ID × σ :=
      match p.Resource.Typ, p.Resource.OrgID with
      | ResourceType.DocumentsResourceType, some o =>
        match idx.GetAccessorsDocuments "org" o s with
        | ((_, some err), s1) => (some err, ids, s1)
        | ((oids, none), s1) => (none, ids ++ oids, s1)
      | _, _ => (none, ids, s)
    match first with
    | (some err, ids1, s1) => (some err, ids1, s1)
    | (none, ids1, s1) =>
      let ids2 : List ID :=
        match p.Resource.Typ, p.Resource.ID with
        | ResourceType.DocumentsResourceType, some i => ids1 ++ [i]
        | _, _ => ids1
      tokenAuthorizedWhereScan idx ps ids2 s1

/-- One call of the closure returned by `TokenAuthorizedWhere(a)`. The variable
`ids` declared outside the closure is an argument; the result is the Go result,
the value of `ids` after the call, and the index state. -/
def TokenAuthorizedWhereCall {σ : Type} (a : Authorization) (ids : List ID)
    (idx : DocumentIndex σ) (s : σ) : (List ID × Option Error) × List ID × σ :=
  if !a.IsActive then
    (([], some { Code := ErrCode.EUnauthorized,
                 Msg := "authorizer cannot access documents" }), ids, s)
  else
    match tokenAuthorizedWhereScan idx a.Permissions ids s with
    | (some err, ids1, s1) => (([], some err), ids1, s1)
    | (none, ids1, s1) => ((ids1, none), ids1, s1)

/-- One call of the closure returned by `AuthorizedWhere(a)` for an identity that
is not a token, with the captured `ids` as an argument. -/
def AmbientAuthorizedWhereCall {σ : Type} (a : Authorizer) (ids : List ID)
    (idx : DocumentIndex σ) (s : σ) : (List ID × Option Error) × List ID × σ :=
  match idx.GetAccessorsDocuments "user" a.GetUserID s with
  | ((_, some err), s1) => (([], some err), ids, s1)
  | ((dids, none), s1) =>
    match idx.UsersOrgs a.GetUserID s1 with
    | ((_, some err), s2) => (([], some err), ids ++ dids, s2)
    | ((orgIDs, none), s2) =>
      match collectOrgDocuments idx orgIDs (ids ++ dids) s2 with
      | (some err, ids1, s3) => (([], some err), ids1, s3)
      | (none, ids1, s3) => ((ids1, none), ids1, s3)

/-- One call of the closure returned by `AuthorizedWhere(a)`. -/
def AuthorizedWhereCall {σ : Type} (a : Authorizer) (ids : List ID)
    (idx : DocumentIndex σ) (s : σ) : (List ID × Option Error) × List ID × σ :=
  match a with
  | .token t => TokenAuthorizedWhereCall t ids idx s
  | .ambient userID => AmbientAuthorizedWhereCall (Authorizer.ambient userID) ids idx s

/-- Option `TokenAuthorizedWhere`: the first evaluation of a fresh option value,
whose captured `ids` is still nil. -/
def TokenAuthorizedWhere {σ δ : Type} (a : Authorization) : DocumentFindOptions σ δ :=
  fun idx _ s d =>
    match TokenAuthorizedWhereCall a [] idx s with
    | (r, _, s1) => (r, s1, d)

/-- Option `AuthorizedWhere`: the first evaluation of a fresh option value. -/
def AuthorizedWhere {σ δ : Type} (a : Authorizer) : DocumentFindOptions σ δ :=
  fun idx _ s d =>
    match AuthorizedWhereCall a [] idx s with
    | (r, _, s1) => (r, s1, d)

/-- Option `WhereID`. -/
def WhereID {σ δ : Type} (docID : ID) : DocumentFindOptions σ δ :=
  fun _ _ s d => (([docID], none), s, d)

/-- The loop over `a.Permissions` in `TokenAuthorizedWhereID`: every permission
is tested, whatever its action. -/
def tokenAuthorizedWhereIDScan (docID : ID) (oids : List ID) : List Permission → Bool
  | [] => false
  | p :: ps =>
    if permissionGrants docID oids p then
      true
    else
      tokenAuthorizedWhereIDScan docID oids ps

/-- Option `TokenAuthorizedWhereID`. -/
def TokenAuthorizedWhereID {σ δ : Type} (a : Authorization) (docID : ID) :
    DocumentFindOptions σ δ :=
  fun idx _ s d =>
    if !a.IsActive then
      (([], some { Code := ErrCode.EUnauthorized,
                   Msg := "authorizer cannot access documents" }), s, d)
    else
      match idx.GetDocumentsAccessors docID s with
      | ((_, some err), s1) => (([], some err), s1, d)
      | ((oids, none), s1) =>
        if tokenAuthorizedWhereIDScan docID oids a.Permissions then
          (([docID], none), s1, d)
        else
          (([], some { Code := ErrCode.EUnauthorized,
                       Msg := "authorization cannot access document" }), s1, d)

/-- Option `AuthorizedWhereID`. -/
def AuthorizedWhereID {σ δ : Type} (a : Authorizer) (docID : ID) : DocumentFindOptions σ δ :=
  match a with
  | .token t => TokenAuthorizedWhereID t docID
  | .ambient userID =>
    fun idx _ s d =>
      match idx.GetDocumentsAccessors docID s with
      | ((_, some err), s1) => (([], some err), s1, d)
      | ((oids, none), s1) =>
        match isAccessorOfSome idx (Authorizer.ambient userID).GetUserID oids s1 with
        | (true, s2) => (([docID], none), s2, d)
        | (false, s2) =>
          (([], some { Code := ErrCode.EUnauthorized,
                       Msg := "authorizer cannot access document" }), s2, d)

/-- The token `a` with the action of every permission replaced by `WriteAction`;
used to state what `TokenAuthorizedWhereID` tests. -/
def withWriteActions (a : Authorization) : Authorization :=
  { a with Permissions := a.Permissions.map (fun p => { p with Action := Action.WriteAction }) }

/-- The wildcard permission on documents with the given action: type Documents,
no ID, no OrgID. -/
def documentsWildcard (x : Action) : Permission :=
  { Action := x,
    Resource := { Typ := ResourceType.DocumentsResourceType, ID := none, OrgID := none } }

/-- A permission of wildcard shape: type Documents, neither ID nor OrgID set. -/
def isWildcard (p : Permission) : Bool :=
  decide (p.Resource.Typ = ResourceType.DocumentsResourceType) &&
    decide (p.Resource.ID = none) && decide (p.Resource.OrgID = none)

/-- The token `a` without its permissions of wildcard shape; used to state what
they contribute to `TokenAuthorizedWhere`. -/
def withoutWildcards (a : Authorization) : Authorization :=
  { a with Permissions := a.Permissions.filter (fun p => !isWildcard p) }

/-- Struct `DocumentMeta`. -/
structure DocumentMeta where
  Name : String
  Version : String
deriving DecidableEq, Repr

/-- Modelled from the spec: a `Label`, declared outside the two source files; only
its `ID` and its name are used. -/
structure Label where
  ID : influxdb.ID
  Name : String
deriving DecidableEq, Repr

/-- A document payload, the Go `interface{}`: `none` is the nil interface, and a
structured value is represented by its text. -/
abbrev Payload := Option String

/-- Struct `Document`. The payload field is called `Data`, as `kv/document.go`
calls it (`d.Data`, `doc.Data`); the declaration in `document.go` names it
`Content`. -/
structure Document where
  ID : influxdb.ID
  Meta : DocumentMeta
  Data : Payload
  Labels : List Label
deriving DecidableEq, Repr

/-- Modelled from the spec: the role of an ownership edge, `Owner` or `Member`. -/
inductive UserType where
  | Owner
  | Member
deriving DecidableEq, Repr

/-- Modelled from the spec: the subject kind of an ownership edge,
`UserMappingType` or `OrgMappingType`. -/
inductive MappingType where
  | UserMappingType
  | OrgMappingType
deriving DecidableEq, Repr

/-- Modelled from the spec: the ownership edge `UserResourceMapping`, with the
fields the source assigns in `AddDocumentOwner`. -/
structure UserResourceMapping where
  UserID : ID
  UserType : UserType
  MappingType : MappingType
  ResourceType : ResourceType
  ResourceID : ID
deriving DecidableEq, Repr

/-- Modelled from the spec: `UserResourceMappingFilter`. A field the source
assigns is set (`some`), a field it leaves out is unset (`none`). -/
structure UserResourceMappingFilter where
  UserID : Option ID
  ResourceType : Option ResourceType
  ResourceID : Option ID
  UserType : Option UserType
deriving DecidableEq, Repr

/-- Modelled from the spec: the label edge `LabelMapping`. -/
structure LabelMapping where
  LabelID : ID
  ResourceType : ResourceType
  ResourceID : ID
deriving DecidableEq, Repr

/-- Modelled from the spec: `LabelMappingFilter`, both fields assigned by the
source. -/
structure LabelMappingFilter where
  ResourceID : ID
  ResourceType : ResourceType
deriving DecidableEq, Repr

/-- Modelled from the spec: `LabelFilter`, a label name. -/
structure LabelFilter where
  Name : String
deriving DecidableEq, Repr

/-- Modelled from the spec: an organisation record, found by ID or by name. -/
structure Organization where
  ID : influxdb.ID
  Name : String
deriving DecidableEq, Repr

/-- Modelled from the spec: a user record, found by ID. -/
structure User where
  ID : influxdb.ID
  Name : String
deriving DecidableEq, Repr

/-- Modelled from the spec: `InvalidID()`, the ID returned next to an error. -/
def InvalidID : ID := 0

end influxdb

namespace kv

open influxdb

/-- Byte strings: keys and values of the store. -/
abbrev Bytes := List Nat

/-- Constant `documentDataBucket`. -/
def documentDataBucket : String := "/documents/data"

/-- Constant `documentMetaBucket`. -/
def documentMetaBucket : String := "/documents/meta"

/-- Modelled from the spec: `path.Join(ns, bucket)` for a namespace written
without a trailing slash: "a namespace maps to two bucket names
(`<ns>/documents/data`, `<ns>/documents/meta`)". -/
def pathJoin (ns bucket : String) : String :=
  ns ++ bucket

/-- The library functions the store calls on keys and values: `ID.Encode`,
`ID.Decode`, and `json.Marshal` / `json.Unmarshal` at the two types they are used
at. They are parameters of the embedding. -/
structure Codec where
  encodeID : ID → Except Error Bytes
  decodeID : Bytes → Except Error ID
  marshalMeta : DocumentMeta → Except Error Bytes
  unmarshalMeta : Bytes → Except Error DocumentMeta
  marshalData : Payload → Except Error Bytes
  unmarshalData : Bytes → Except Error Payload

/-- Modelled from the spec: the state seen through one transaction of the
external store. `buckets` are the byte-keyed buckets by name, each in key order;
the other fields are the records of the collaborator services that "participate
in the same transaction": ownership edges, label edges, organisations, users and
labels. -/
structure Tx where
  buckets : List (String × List (Bytes × Bytes))
  urms : List UserResourceMapping
  labelMappings : List LabelMapping
  orgs : List Organization
  users : List User
  labels : List Label
deriving DecidableEq, Repr

/-- Modelled from the spec: the error of the store for a missing bucket. -/
def ErrBucketNotFound : Error :=
  { Code := ErrCode.ENotFound, Msg := "bucket not found" }

/-- Modelled from the spec: the error of the store for a missing key
(`Bucket.get(key)→bytes|NotFound`). -/
def ErrKeyNotFound : Error :=
  { Code := ErrCode.ENotFound, Msg := "key not found" }

/-- Lexicographic order on byte strings, the key order of a bucket. -/
def bytesLe : Bytes → Bytes → Bool
  | [], _ => true
  | _ :: _, [] => false
  | a :: as, b :: bs => decide (a < b) || (decide (a = b) && bytesLe as bs)

/-- Lookup of a key among the entries of a bucket. -/
def entriesGet : List (Bytes × Bytes) → Bytes → Option Bytes
  | [], _ => none
  | (k1, v1) :: rest, k => if k1 = k then some v1 else entriesGet rest k

/-- Writing a key among the entries of a bucket: the value is replaced when the
key is there, and inserted at its place in key order otherwise. -/
def entriesPut : List (Bytes × Bytes) → Bytes → Bytes → List (Bytes × Bytes)
  | [], k, v => [(k, v)]
  | (k1, v1) :: rest, k, v =>
    if k1 = k then (k, v) :: rest
    else if bytesLe k k1 then (k, v) :: (k1, v1) :: rest
    else (k1, v1) :: entriesPut rest k v

/-- Removing a key from the entries of a bucket. -/
def entriesDelete : List (Bytes × Bytes) → Bytes → List (Bytes × Bytes)
  | [], _ => []
  | (k1, v1) :: rest, k =>
    if k1 = k then entriesDelete rest k else (k1, v1) :: entriesDelete rest k

/-- The entries of the bucket called `name`, if the transaction has it. -/
def lookupBucket : List (String × List (Bytes × Bytes)) → String → Option (List (Bytes × Bytes))
  | [], _ => none
  | (n, es) :: rest, name => if n = name then some es else lookupBucket rest name

/-- Replaces the entries of the bucket called `name`. -/
def replaceBucket : List (String × List (Bytes × Bytes)) → String → List (Bytes × Bytes) →
    List (String × List (Bytes × Bytes))
  | [], _, _ => []
  | (n, es) :: rest, name, es1 =>
    if n = name then (n, es1) :: rest else (n, es) :: replaceBucket rest name es1

/-- Modelled from the spec: `tx.Bucket(name)`, `open-bucket(name)→Bucket|NotFound`.
A bucket handle is the name of a bucket of the transaction. -/
def Tx.Bucket (tx : Tx) (name : String) : Except Error String :=
  match lookupBucket tx.buckets name with
  | some _ => .ok name
  | none => .error ErrBucketNotFound

/-- Modelled from the spec: `b.Get(k)` on the bucket handle `b`,
`Bucket.get(key)→bytes|NotFound`. -/
def Tx.Get (tx : Tx) (b : String) (k : Bytes) : Except Error Bytes :=
  match lookupBucket tx.buckets b with
  | none => .error ErrBucketNotFound
  | some es =>
    match entriesGet es k with
    | some v => .ok v
    | none => .error ErrKeyNotFound

/-- Modelled from the spec: `b.Put(k, v)` on the bucket handle `b`. -/
def Tx.Put (tx : Tx) (b : String) (k v : Bytes) : Option Error × Tx :=
  match lookupBucket tx.buckets b with
  | none => (some ErrBucketNotFound, tx)
  | some es => (none, { tx with buckets := replaceBucket tx.buckets b (entriesPut es k v) })

/-- Modelled from the spec: `b.Delete(k)` on the bucket handle `b`; deleting a key
that is not there is not an error. -/
def Tx.Delete (tx : Tx) (b : String) (k : Bytes) : Option Error × Tx :=
  match lookupBucket tx.buckets b with
  | none => (some ErrBucketNotFound, tx)
  | some es => (none, { tx with buckets := replaceBucket tx.buckets b (entriesDelete es k) })

/-- Modelled from the spec: `b.Cursor()` on the bucket handle `b`, the "ordered
iterator over (key,bytes) pairs", given as the list it runs through. -/
def Tx.Cursor (tx : Tx) (b : String) : Except Error (List (Bytes × Bytes)) :=
  match lookupBucket tx.buckets b with
  | none => .error ErrBucketNotFound
  | some es => .ok es

/-- Modelled from the spec: `kv.Update`, `withWriteTransaction(fn)`, "where a
non-nil error from fn aborts/rolls back". The component of type `α` stands for
the variables outside the store that `fn` assigns; they keep their values. -/
def Update {α : Type} (fn : Tx → (α × Option Error) × Tx) (tx : Tx) :
    (α × Option Error) × Tx :=
  match fn tx with
  | ((a, none), tx1) => ((a, none), tx1)
  | ((a, some err), _) => ((a, some err), tx)

/-- Modelled from the spec: `kv.View`, `withReadTransaction(fn)`: the store is the
same afterwards. -/
def View {α : Type} (fn : Tx → (α × Option Error) × Tx) (tx : Tx) : α × Option Error :=
  (fn tx).1

/-- Modelled from the spec: whether an ownership edge matches every set field of
a filter. -/
def filterMatches (f : UserResourceMappingFilter) (m : UserResourceMapping) : Bool :=
  (match f.UserID with
   | some u => decide (m.UserID = u)
   | none => true) &&
  (match f.ResourceType with
   | some t => decide (m.ResourceType = t)
   | none => true) &&
  (match f.ResourceID with
   | some r => decide (m.ResourceID = r)
   | none => true) &&
  (match f.UserType with
   | some t => decide (m.UserType = t)
   | none => true)

/-- Modelled from the spec: `Service.findUserResourceMappings`, not in the two
source files: exactly the edges that match every set field of the filter, in
stored order. -/
def findUserResourceMappings (tx : Tx) (f : UserResourceMappingFilter) :
    List UserResourceMapping × Option Error :=
  (tx.urms.filter (filterMatches f), none)

/-- Modelled from the spec: `Service.createUserResourceMapping`, not in the two
source files: the edge is inserted. -/
def createUserResourceMapping (tx : Tx) (m : UserResourceMapping) : Option Error × Tx :=
  (none, { tx with urms := tx.urms ++ [m] })

/-- Modelled from the spec: `Service.deleteUserResourceMapping`, not in the two
source files: the edges that match every set field of the filter are deleted. -/
def deleteUserResourceMapping (tx : Tx) (f : UserResourceMappingFilter) : Option Error × Tx :=
  (none, { tx with urms := tx.urms.filter (fun m => !filterMatches f m) })

/-- Modelled from the spec: `Service.findOrganizationByID`, not in the two source
files. -/
def findOrganizationByID (tx : Tx) (id : ID) : Except Error Organization :=
  match tx.orgs.find? (fun o => decide (o.ID = id)) with
  | some o => .ok o
  | none => .error { Code := ErrCode.ENotFound, Msg := "organization not found" }

/-- Modelled from the spec: `Service.findUserByID`, not in the two source files. -/
def findUserByID (tx : Tx) (id : ID) : Except Error User :=
  match tx.users.find? (fun u => decide (u.ID = id)) with
  | some u => .ok u
  | none => .error { Code := ErrCode.ENotFound, Msg := "user not found" }

/-- Modelled from the spec: `Service.findOrganizationByName`, not in the two source
files: it "fails internal-error if the name resolves to zero or more-than-one
record". -/
def findOrganizationByName (tx : Tx) (n : String) : Except Error Organization :=
  match tx.orgs.filter (fun o => decide (o.Name = n)) with
  | [o] => .ok o
  | _ => .error { Code := ErrCode.EInternal, Msg := "organization name not found or ambiguous" }

/-- Modelled from the spec: `Service.findLabels`, not in the two source files: the
labels with the name of the filter. -/
def findLabels (tx : Tx) (f : LabelFilter) : List Label × Option Error :=
  (tx.labels.filter (fun l => decide (l.Name = f.Name)), none)

/-- Modelled from the spec: `Service.createLabelMapping`, not in the two source
files: the label edge is inserted. -/
def createLabelMapping (tx : Tx) (m : LabelMapping) : Option Error × Tx :=
  (none, { tx with labelMappings := tx.labelMappings ++ [m] })

/-- Modelled from the spec: `Service.deleteLabelMapping`, not in the two source
files: the label edge is deleted. -/
def deleteLabelMapping (tx : Tx) (m : LabelMapping) : Option Error × Tx :=
  (none, { tx with labelMappings := tx.labelMappings.filter (fun x => !decide (x = m)) })

/-- Modelled from the spec: `Service.findResourceLabels`, not in the two source
files: the label edges of the resource, in stored order. -/
def resourceLabelMappings (tx : Tx) (f : LabelMappingFilter) : List LabelMapping :=
  tx.labelMappings.filter
    (fun x => decide (x.ResourceID = f.ResourceID) && decide (x.ResourceType = f.ResourceType))

/-- Modelled from the spec: `Service.findResourceLabels`, not in the two source
files: the labels reached by the label edges of the resource. -/
def findResourceLabels (tx : Tx) (f : LabelMappingFilter) : List Label × Option Error :=
  ((resourceLabelMappings tx f).filterMap
    (fun x => tx.labels.find? (fun l => decide (l.ID = x.LabelID))), none)

/-- Struct `DocumentIndex` of package `kv`: the fields `service`, `ctx` and `tx`
are the transaction state passed to every method; `writable` remains. -/
structure DocumentIndex where
  writable : Bool
deriving DecidableEq, Repr

/-- Method `DocumentIndex.AddDocumentLabel`. -/
def DocumentIndex.AddDocumentLabel (_i : DocumentIndex) (docID labelID : ID) (tx : Tx) :
    Option Error × Tx :=
  let m : LabelMapping :=
    { LabelID := labelID, ResourceType := ResourceType.DocumentsResourceType,
      ResourceID := docID }
  match createLabelMapping tx m with
  | (some err, tx1) => (some err, tx1)
  | (none, tx1) => (none, tx1)

/-- Method `DocumentIndex.RemoveDocumentLabel`. -/
def DocumentIndex.RemoveDocumentLabel (_i : DocumentIndex) (docID labelID : ID) (tx : Tx) :
    Option Error × Tx :=
  let m : LabelMapping :=
    { LabelID := labelID, ResourceType := ResourceType.DocumentsResourceType,
      ResourceID := docID }
  match deleteLabelMapping tx m with
  | (some err, tx1) => (some err, tx1)
  | (none, tx1) => (none, tx1)

/-- Method `DocumentIndex.FindLabelByName`. -/
def DocumentIndex.FindLabelByName (_i : DocumentIndex) (name : String) (tx : Tx) :
    (ID × Option Error) × Tx :=
  match findLabels tx { Name := name } with
  | (_, some err) => ((InvalidID, some err), tx)
  | (ls, none) =>
    match ls with
    | [l] => ((l.ID, none), tx)
    | _ => ((InvalidID, some { Code := ErrCode.EInternal,
                               Msg := "found multiple labels matching the name provided" }), tx)

/-- Method `DocumentIndex.ownerExists`. -/
def DocumentIndex.ownerExists (_i : DocumentIndex) (ownerType : String) (ownerID : ID)
    (tx : Tx) : Option Error :=
  if ownerType = "org" then
    match findOrganizationByID tx ownerID with
    | .error err => some err
    | .ok _ => none
  else if ownerType = "user" then
    match findUserByID tx ownerID with
    | .error err => some err
    | .ok _ => none
  else
    some { Code := ErrCode.EInternal, Msg := "unknown owner type " ++ ownerType.quote }

/-- Method `DocumentIndex.AddDocumentOwner`. -/
def DocumentIndex.AddDocumentOwner (i : DocumentIndex) (id : ID) (ownerType : String)
    (ownerID : ID) (tx : Tx) : Option Error × Tx :=
  match i.ownerExists ownerType ownerID tx with
  | some err => (some err, tx)
  | none =>
    createUserResourceMapping tx
      { UserID := ownerID,
        UserType := UserType.Owner,
        MappingType := MappingType.OrgMappingType,
        ResourceType := ResourceType.DocumentsResourceType,
        ResourceID := id }

/-- Function `Service.removeDocumentOwner`: the filter sets `ResourceID` and
`UserID` only. -/
def removeDocumentOwner (tx : Tx) (ownerID resourceID : ID) : Option Error × Tx :=
  match deleteUserResourceMapping tx
      { UserID := some ownerID, ResourceType := none, ResourceID := some resourceID,
        UserType := none } with
  | (some err, tx1) => (some err, tx1)
  | (none, tx1) => (none, tx1)

/-- Method `DocumentIndex.RemoveDocumentOwner`. -/
def DocumentIndex.RemoveDocumentOwner (_i : DocumentIndex) (id : ID) (_ownerType : String)
    (ownerID : ID) (tx : Tx) : Option Error × Tx :=
  removeDocumentOwner tx ownerID id

/-- Method `DocumentIndex.UsersOrgs`. -/
def DocumentIndex.UsersOrgs (_i : DocumentIndex) (userID : ID) (tx : Tx) :
    (List ID × Option Error) × Tx :=
  match findUserResourceMappings tx
      { UserID := some userID, ResourceType := some ResourceType.OrgsResourceType,
        ResourceID := none, UserType := none } with
  | (_, some err) => (([], some err), tx)
  | (ms, none) => ((ms.map (fun m => m.ResourceID), none), tx)

/-- The loop `for _, m := range ms` of `IsOrgAccessor`: an edge of role `Owner`
or `Member` returns nil; the two roles are all the roles of the model, so the
`default` branch has no case. -/
def anyOwnerOrMember : List UserResourceMapping → Bool
  | [] => false
  | m :: _ =>
    match m.UserType with
    | UserType.Owner => true
    | UserType.Member => true

/-- Method `DocumentIndex.IsOrgAccessor`. -/
def DocumentIndex.IsOrgAccessor (i : DocumentIndex) (userID orgID : ID) (tx : Tx) :
    Option Error × Tx :=
  match findUserResourceMappings tx
      { UserID := some userID, ResourceType := some ResourceType.OrgsResourceType,
        ResourceID := some orgID,
        UserType := if i.writable then some UserType.Owner else none } with
  | (_, some err) => (some err, tx)
  | (ms, none) =>
    if anyOwnerOrMember ms then
      (none, tx)
    else
      (some { Code := ErrCode.EUnauthorized, Msg := "user is not org member" }, tx)

/-- Method `DocumentIndex.FindOrganizationByName`. -/
def DocumentIndex.FindOrganizationByName (_i : DocumentIndex) (org : String) (tx : Tx) :
    (ID × Option Error) × Tx :=
  match findOrganizationByName tx org with
  | .error err => ((InvalidID, some err), tx)
  | .ok o => ((o.ID, none), tx)

/-- The loop `for _, m := range ms` of `GetDocumentsAccessors`: edges whose subject
is a user are skipped. -/
def accessorIDs : List UserResourceMapping → List ID
  | [] => []
  | m :: rest =>
    if m.MappingType = MappingType.UserMappingType then
      accessorIDs rest
    else
      m.UserID :: accessorIDs rest

/-- Method `DocumentIndex.GetDocumentsAccessors`. -/
def DocumentIndex.GetDocumentsAccessors (i : DocumentIndex) (docID : ID) (tx : Tx) :
    (List ID × Option Error) × Tx :=
  match findUserResourceMappings tx
      { UserID := none, ResourceType := some ResourceType.DocumentsResourceType,
        ResourceID := some docID,
        UserType := if i.writable then some UserType.Owner else none } with
  | (_, some err) => (([], some err), tx)
  | (ms, none) => ((accessorIDs ms, none), tx)

/-- Method `DocumentIndex.GetAccessorsDocuments`. -/
def DocumentIndex.GetAccessorsDocuments (i : DocumentIndex) (ownerType : String)
    (ownerID : ID) (tx : Tx) : (List ID × Option Error) × Tx :=
  match i.ownerExists ownerType ownerID tx with
  | some err => (([], some err), tx)
  | none =>
    match findUserResourceMappings tx
        { UserID := some ownerID, ResourceType := some ResourceType.DocumentsResourceType,
          ResourceID := none,
          UserType := if i.writable then some UserType.Owner else none } with
    | (_, some err) => (([], some err), tx)
    | (ms, none) => ((ms.map (fun m => m.ResourceID), none), tx)

/-- The value of package `kv` that stands behind the interface
`influxdb.DocumentIndex`, over the transaction state. -/
def DocumentIndex.asIndex (i : DocumentIndex) : influxdb.DocumentIndex Tx where
  AddDocumentOwner := i.AddDocumentOwner
  RemoveDocumentOwner := i.RemoveDocumentOwner
  GetAccessorsDocuments := i.GetAccessorsDocuments
  GetDocumentsAccessors := i.GetDocumentsAccessors
  UsersOrgs := i.UsersOrgs
  IsOrgAccessor := i.IsOrgAccessor
  FindOrganizationByName := i.FindOrganizationByName
  FindLabelByName := i.FindLabelByName
  AddDocumentLabel := i.AddDocumentLabel
  RemoveDocumentLabel := i.RemoveDocumentLabel

/-- Function `WithoutOwners`, the loop over the owner IDs. -/
def removeOwners {σ : Type} (idx : influxdb.DocumentIndex σ) (id : ID) :
    List ID → σ → Option Error × σ
  | [], s => (none, s)
  | ownerID :: rest, s =>
    match idx.RemoveDocumentOwner id "org" ownerID s with
    | (some err, s1) => (some err, s1)
    | (none, s1) => removeOwners idx id rest s1

/-- Function `WithoutOwners`. -/
def WithoutOwners {σ : Type} : influxdb.DocumentCreateOptions σ :=
  fun id idx s =>
    match idx.GetDocumentsAccessors id s with
    | ((_, some err), s1) => (some err, s1)
    | ((ownerIDs, none), s1) => removeOwners idx id ownerIDs s1

/-- Function `Service.putAtID`; `marshal` is `json.Marshal` at the type of the
value. -/
def putAtID {α : Type} (c : Codec) (marshal : α → Except Error Bytes) (tx : Tx)
    (bucket : String) (id : ID) (i : α) : Option Error × Tx :=
  match marshal i with
  | .error err => (some err, tx)
  | .ok v =>
    match c.encodeID id with
    | .error err => (some err, tx)
    | .ok k =>
      match tx.Bucket bucket with
      | .error err => (some err, tx)
      | .ok b =>
        match tx.Put b k v with
        | (some err, tx1) => (some err, tx1)
        | (none, tx1) => (none, tx1)

/-- Function `Service.putDocumentData`. -/
def putDocumentData (c : Codec) (tx : Tx) (ns : String) (id : ID) (data : Payload) :
    Option Error × Tx :=
  putAtID c c.marshalData tx (pathJoin ns documentDataBucket) id data

/-- Function `Service.putDocumentMeta`. -/
def putDocumentMeta (c : Codec) (tx : Tx) (ns : String) (id : ID) (m : DocumentMeta) :
    Option Error × Tx :=
  putAtID c c.marshalMeta tx (pathJoin ns documentMetaBucket) id m

/-- Function `Service.putDocument`. -/
def putDocument (c : Codec) (tx : Tx) (ns : String) (d : Document) : Option Error × Tx :=
  match putDocumentMeta c tx ns d.ID d.Meta with
  | (some err, tx1) => (some err, tx1)
  | (none, tx1) =>
    match putDocumentData c tx1 ns d.ID d.Data with
    | (some err, tx2) => (some err, tx2)
    | (none, tx2) => (none, tx2)

/-- Function `Service.createDocument`; `newID` is what `s.IDGenerator.ID()`
returns. The document with its ID assigned is returned next to the error. -/
def createDocument (c : Codec) (newID : ID) (tx : Tx) (ns : String) (d : Document) :
    (Document × Option Error) × Tx :=
  let d1 : Document := { d with ID := newID }
  match putDocument c tx ns d1 with
  | (some err, tx1) => ((d1, some err), tx1)
  | (none, tx1) => ((d1, none), tx1)

/-- The loop `for _, opt := range opts` of `CreateDocument` and `UpdateDocument`. -/
def runCreateOptions (idx : influxdb.DocumentIndex Tx) (id : ID) :
    List (DocumentCreateOptions Tx) → Tx → Option Error × Tx
  | [], tx => (none, tx)
  | opt :: rest, tx =>
    match opt id idx tx with
    | (some err, tx1) => (some err, tx1)
    | (none, tx1) => runCreateOptions idx id rest tx1

/-- Method `DocumentStore.CreateDocument` of the store bound to namespace `ns`;
the first component of the result is the caller's document after the call. -/
def CreateDocument (c : Codec) (newID : ID) (ns : String) (d : Document)
    (opts : List (DocumentCreateOptions Tx)) (tx : Tx) : (Document × Option Error) × Tx :=
  Update (fun tx =>
    match createDocument c newID tx ns d with
    | ((d1, some err), tx1) => ((d1, some err), tx1)
    | ((d1, none), tx1) =>
      let idx : DocumentIndex := { writable := true }
      match runCreateOptions idx.asIndex d1.ID opts tx1 with
      | (some err, tx2) => ((d1, some err), tx2)
      | (none, tx2) => ((d1, none), tx2)) tx

/-- Method `DocumentStore.PutDocument`. -/
def PutDocument (c : Codec) (ns : String) (d : Document) (tx : Tx) : Option Error × Tx :=
  let r := Update (fun tx =>
    match putDocument c tx ns d with
    | (err, tx1) => (((), err), tx1)) tx
  (r.1.2, r.2)

/-- Function `Service.findByID`; `unmarshal` is `json.Unmarshal` at the type of
the value. -/
def findByID {α : Type} (c : Codec) (unmarshal : Bytes → Except Error α) (tx : Tx)
    (bucket : String) (id : ID) : Except Error α :=
  match tx.Bucket bucket with
  | .error err => .error err
  | .ok b =>
    match c.encodeID id with
    | .error err => .error err
    | .ok k =>
      match tx.Get b k with
      | .error err => .error err
      | .ok v =>
        match unmarshal v with
        | .error err => .error err
        | .ok i => .ok i

/-- Function `Service.findDocumentMetaByID`. -/
def findDocumentMetaByID (c : Codec) (tx : Tx) (ns : String) (id : ID) :
    Except Error DocumentMeta :=
  findByID c c.unmarshalMeta tx (pathJoin ns documentMetaBucket) id

/-- Function `Service.findDocumentDataByID`. -/
def findDocumentDataByID (c : Codec) (tx : Tx) (ns : String) (id : ID) :
    Except Error Payload :=
  findByID c c.unmarshalData tx (pathJoin ns documentDataBucket) id

/-- Function `Service.findDocumentByID`: the document has its ID and its Meta, no
payload and no labels. -/
def findDocumentByID (c : Codec) (tx : Tx) (ns : String) (id : ID) : Except Error Document :=
  match findDocumentMetaByID c tx ns id with
  | .error err => .error err
  | .ok m => .ok { ID := id, Meta := m, Data := none, Labels := [] }

/-- Function `Service.findDocumentsByID`; `ds` is the slice built so far. -/
def findDocumentsByIDLoop (c : Codec) (tx : Tx) (ns : String) :
    List ID → List Document → Except Error (List Document)
  | [], ds => .ok ds
  | id :: rest, ds =>
    match findDocumentByID c tx ns id with
    | .error err => .error err
    | .ok d => findDocumentsByIDLoop c tx ns rest (ds ++ [d])

/-- Function `Service.findDocumentsByID`. -/
def findDocumentsByID (c : Codec) (tx : Tx) (ns : String) (ids : List ID) :
    Except Error (List Document) :=
  findDocumentsByIDLoop c tx ns ids []

/-- Struct `DocumentDecorator` of package `kv`. -/
structure DocumentDecorator where
  data : Bool
  labels : Bool
  accessors : Bool
  writable : Bool
deriving DecidableEq, Repr

/-- Method `DocumentDecorator.IncludeData`. -/
def DocumentDecorator.IncludeData (d : DocumentDecorator) : Option Error × DocumentDecorator :=
  if d.writable then
    (some { Code := ErrCode.EInternal, Msg := "cannot include data in document" }, d)
  else
    (none, { d with data := true })

/-- Method `DocumentDecorator.IncludeLabels`. -/
def DocumentDecorator.IncludeLabels (d : DocumentDecorator) : Option Error × DocumentDecorator :=
  if d.writable then
    (some { Code := ErrCode.EInternal, Msg := "cannot include labels in document" }, d)
  else
    (none, { d with labels := true })

/-- The value of package `kv` that stands behind the interface
`influxdb.DocumentDecorator`: the interface method `IncludeContent` is the
method the struct calls `IncludeData`. -/
def DocumentDecorator.asDecorator : influxdb.DocumentDecorator DocumentDecorator where
  IncludeContent := DocumentDecorator.IncludeData
  IncludeLabels := DocumentDecorator.IncludeLabels

/-- The loop `for k, v := cur.First(); len(k) != 0; k, v = cur.Next()` of
`Service.findDocuments`; `ds` is the slice built so far. -/
def findDocumentsLoop (c : Codec) : List (Bytes × Bytes) → List Document →
    Except Error (List Document)
  | [], ds => .ok ds
  | (k, v) :: rest, ds =>
    if k.length = 0 then
      .ok ds
    else
      match c.decodeID k with
      | .error err => .error err
      | .ok id =>
        match c.unmarshalMeta v with
        | .error err => .error err
        | .ok m =>
          findDocumentsLoop c rest (ds ++ [{ ID := id, Meta := m, Data := none, Labels := [] }])

/-- Function `Service.findDocuments`. -/
def findDocuments (c : Codec) (tx : Tx) (ns : String) (ds : List Document) :
    Except Error (List Document) :=
  match tx.Bucket (pathJoin ns documentMetaBucket) with
  | .error err => .error err
  | .ok metab =>
    match tx.Cursor metab with
    | .error err => .error err
    | .ok cur => findDocumentsLoop c cur ds

/-- The loop `for _, opt := range opts` of `FindDocuments` and `DeleteDocuments`;
`ids` is the slice built so far. -/
def runFindOptions (idx : influxdb.DocumentIndex Tx)
    (dd : influxdb.DocumentDecorator DocumentDecorator) :
    List (DocumentFindOptions Tx DocumentDecorator) → List ID → Tx → DocumentDecorator →
      (List ID × Option Error) × Tx × DocumentDecorator
  | [], ids, tx, d => ((ids, none), tx, d)
  | opt :: rest, ids, tx, d =>
    match opt idx dd tx d with
    | ((_, some err), tx1, d1) => ((ids, some err), tx1, d1)
    | ((is, none), tx1, d1) => runFindOptions idx dd rest (ids ++ is) tx1 d1

/-- The loop of `FindDocuments` under `if dd.data`. -/
def hydrateData (c : Codec) (tx : Tx) (ns : String) : List Document →
    Except Error (List Document)
  | [] => .ok []
  | doc :: rest =>
    match findDocumentDataByID c tx ns doc.ID with
    | .error err => .error err
    | .ok d =>
      match hydrateData c tx ns rest with
      | .error err => .error err
      | .ok docs => .ok ({ doc with Data := d } :: docs)

/-- The loop of `FindDocuments` under `if dd.labels`. -/
def hydrateLabels (tx : Tx) : List Document → Except Error (List Document)
  | [] => .ok []
  | doc :: rest =>
    match findResourceLabels tx { ResourceID := doc.ID,
                                  ResourceType := ResourceType.DocumentsResourceType } with
    | (_, some err) => .error err
    | (ls, none) =>
      match hydrateLabels tx rest with
      | .error err => .error err
      | .ok docs => .ok ({ doc with Labels := doc.Labels ++ ls } :: docs)

/-- Method `DocumentStore.FindDocuments` of the store bound to namespace `ns`. -/
def FindDocuments (c : Codec) (ns : String)
    (opts : List (DocumentFindOptions Tx DocumentDecorator)) (tx : Tx) :
    List Document × Option Error :=
  let r := View (fun tx =>
    if opts.length = 0 then
      match findDocuments c tx ns [] with
      | .error err => (([], some err), tx)
      | .ok ds => ((ds, none), tx)
    else
      let idx : DocumentIndex := { writable := false }
      let dd : DocumentDecorator :=
        { data := false, labels := false, accessors := false, writable := false }
      match runFindOptions idx.asIndex DocumentDecorator.asDecorator opts [] tx dd with
      | ((_, some err), tx1, _) => (([], some err), tx1)
      | ((ids, none), tx1, dd1) =>
        match findDocumentsByID c tx1 ns ids with
        | .error err => (([], some err), tx1)
        | .ok docs =>
          match (if dd1.data then hydrateData c tx1 ns docs else .ok docs) with
          | .error err => (([], some err), tx1)
          | .ok docs1 =>
            match (if dd1.labels then hydrateLabels tx1 docs1 else .ok docs1) with
            | .error err => (([], some err), tx1)
            | .ok docs2 => ((docs2, none), tx1)) tx
  match r with
  | (_, some err) => ([], some err)
  | (ds, none) => (ds, none)

/-- Function `Service.deleteAtID`. -/
def deleteAtID (c : Codec) (tx : Tx) (bucket : String) (id : ID) : Option Error × Tx :=
  match c.encodeID id with
  | .error err => (some err, tx)
  | .ok k =>
    match tx.Bucket bucket with
    | .error err => (some err, tx)
    | .ok b =>
      match tx.Delete b k with
      | (some err, tx1) => (some err, tx1)
      | (none, tx1) => (none, tx1)

/-- Function `Service.deleteDocumentData`. -/
def deleteDocumentData (c : Codec) (tx : Tx) (ns : String) (id : ID) : Option Error × Tx :=
  deleteAtID c tx (pathJoin ns documentDataBucket) id

/-- Function `Service.deleteDocumentMeta`. -/
def deleteDocumentMeta (c : Codec) (tx : Tx) (ns : String) (id : ID) : Option Error × Tx :=
  deleteAtID c tx (pathJoin ns documentMetaBucket) id

/-- Function `Service.deleteDocument`. -/
def deleteDocument (c : Codec) (tx : Tx) (ns : String) (id : ID) : Option Error × Tx :=
  match findDocumentMetaByID c tx ns id with
  | .error err => (some err, tx)
  | .ok _ =>
    match deleteDocumentMeta c tx ns id with
    | (some err, tx1) => (some err, tx1)
    | (none, tx1) =>
      match deleteDocumentData c tx1 ns id with
      | (some err, tx2) => (some err, tx2)
      | (none, tx2) => (none, tx2)

/-- The loop `for _, id := range ids` of `DeleteDocuments`. -/
def deleteLoop (c : Codec) (ns : String) (idx : influxdb.DocumentIndex Tx) :
    List ID → Tx → Option Error × Tx
  | [], tx => (none, tx)
  | id :: rest, tx =>
    match WithoutOwners id idx tx with
    | (some err, tx1) => (some err, tx1)
    | (none, tx1) =>
      match deleteDocument c tx1 ns id with
      | (some err, tx2) => (some err, tx2)
      | (none, tx2) => deleteLoop c ns idx rest tx2

/-- Method `DocumentStore.DeleteDocuments` of the store bound to namespace `ns`. -/
def DeleteDocuments (c : Codec) (ns : String)
    (opts : List (DocumentFindOptions Tx DocumentDecorator)) (tx : Tx) : Option Error × Tx :=
  let r := Update (fun tx =>
    let idx : DocumentIndex := { writable := true }
    let dd : DocumentDecorator :=
      { data := false, labels := false, accessors := false, writable := true }
    match runFindOptions idx.asIndex DocumentDecorator.asDecorator opts [] tx dd with
    | ((_, some err), tx1, _) => (((), some err), tx1)
    | ((ids, none), tx1, _) =>
      match deleteLoop c ns idx.asIndex ids tx1 with
      | (err, tx2) => (((), err), tx2)) tx
  (r.1.2, r.2)

/-- Function `Service.updateDocument`. -/
def updateDocument (c : Codec) (tx : Tx) (ns : String) (d : Document) : Option Error × Tx :=
  match putDocument c tx ns d with
  | (some err, tx1) => (some err, tx1)
  | (none, tx1) => (none, tx1)

/-- Method `DocumentStore.UpdateDocument` of the store bound to namespace `ns`. -/
def UpdateDocument (c : Codec) (ns : String) (d : Document)
    (opts : List (DocumentCreateOptions Tx)) (tx : Tx) : Option Error × Tx :=
  let r := Update (fun tx =>
    let idx : DocumentIndex := { writable := true }
    match runCreateOptions idx.asIndex d.ID opts tx with
    | (some err, tx1) => (((), some err), tx1)
    | (none, tx1) =>
      match updateDocument c tx1 ns d with
      | (some err, tx2) => (((), some err), tx2)
      | (none, tx2) => (((), none), tx2)) tx
  (r.1.2, r.2)

end kv

/-! ## The claims' vocabulary and concrete inputs -/

namespace kv

open influxdb

/-- The find-options `opts`, run in order from the index state `tx` and the
decorator state `d`, all succeed, option number `i` returning the ID list number
`i` of `Ls`, and leave the states `tx1` and `d1`. -/
inductive FindOptionsReturn (idx : influxdb.DocumentIndex Tx)
    (dd : influxdb.DocumentDecorator DocumentDecorator) :
    List (DocumentFindOptions Tx DocumentDecorator) → Tx → DocumentDecorator →
      List (List ID) → Tx → DocumentDecorator → Prop where
  | nil (tx : Tx) (d : DocumentDecorator) : FindOptionsReturn idx dd [] tx d [] tx d
  | cons (opt : DocumentFindOptions Tx DocumentDecorator)
      (rest : List (DocumentFindOptions Tx DocumentDecorator))
      (tx tx1 tx2 : Tx) (d d1 d2 : DocumentDecorator) (L : List ID) (Ls : List (List ID))
      (hopt : opt idx dd tx d = ((L, none), tx1, d1))
      (hrest : FindOptionsReturn idx dd rest tx1 d1 Ls tx2 d2) :
      FindOptionsReturn idx dd (opt :: rest) tx d (L :: Ls) tx2 d2

/-- The index `FindDocuments` binds to its transaction: `writable` is not set. -/
def readIndex : influxdb.DocumentIndex Tx :=
  DocumentIndex.asIndex { writable := false }

/-- The index `CreateDocument`, `UpdateDocument` and `DeleteDocuments` bind to
their transaction: `writable: true`. -/
def writeIndex : influxdb.DocumentIndex Tx :=
  DocumentIndex.asIndex { writable := true }

/-- The decorator `FindDocuments` starts from, `&DocumentDecorator{}`. -/
def readDecorator : DocumentDecorator :=
  { data := false, labels := false, accessors := false, writable := false }

end kv

namespace Examples

open influxdb kv

/-- A concrete codec: an ID is one byte string of length one (ID 0 is invalid), a
Meta is the length of the name followed by the characters of name and version,
a payload is a tag followed by the characters of its text. -/
def codec : Codec where
  encodeID := fun id =>
    if id = 0 then .error { Code := ErrCode.EInvalid, Msg := "invalid ID" } else .ok [id]
  decodeID := fun b =>
    match b with
    | [n] => .ok n
    | _ => .error { Code := ErrCode.EInvalid, Msg := "invalid ID" }
  marshalMeta := fun m =>
    .ok (m.Name.length :: (m.Name.toList.map Char.toNat ++ m.Version.toList.map Char.toNat))
  unmarshalMeta := fun b =>
    match b with
    | [] => .error { Code := ErrCode.EInvalid, Msg := "unexpected end of input" }
    | n :: rest =>
      .ok { Name := String.mk ((rest.take n).map Char.ofNat),
            Version := String.mk ((rest.drop n).map Char.ofNat) }
  marshalData := fun p =>
    match p with
    | none => .ok [0]
    | some t => .ok (1 :: t.toList.map Char.toNat)
  unmarshalData := fun b =>
    match b with
    | [0] => .ok none
    | 1 :: rest => .ok (some (String.mk (rest.map Char.ofNat)))
    | _ => .error { Code := ErrCode.EInvalid, Msg := "invalid payload" }

/-- Meta of the stored example document. -/
def meta5 : DocumentMeta := { Name := "a", Version := "1" }

/-- A store with the two buckets of namespace `ns`, holding document 5 (Meta and
Data). Org 1 owns document 5 with role Owner, org 2 has a Member edge to it, user
10 is a member of org 1, and document 5 carries label 20. -/
def store : Tx where
  buckets := [("ns/documents/data", [([5], [1, 120])]),
              ("ns/documents/meta", [([5], [1, 97, 49])])]
  urms := [{ UserID := 1, UserType := UserType.Owner, MappingType := MappingType.OrgMappingType,
             ResourceType := ResourceType.DocumentsResourceType, ResourceID := 5 },
           { UserID := 2, UserType := UserType.Member, MappingType := MappingType.OrgMappingType,
             ResourceType := ResourceType.DocumentsResourceType, ResourceID := 5 },
           { UserID := 10, UserType := UserType.Member, MappingType := MappingType.UserMappingType,
             ResourceType := ResourceType.OrgsResourceType, ResourceID := 1 }]
  labelMappings := [{ LabelID := 20, ResourceType := ResourceType.DocumentsResourceType,
                      ResourceID := 5 }]
  orgs := [{ ID := 1, Name := "acme" }, { ID := 2, Name := "beta" }]
  users := [{ ID := 10, Name := "alice" }]
  labels := [{ ID := 20, Name := "red" }]

/-- A new document to create. -/
def newDoc : Document :=
  { ID := 0, Meta := { Name := "b", Version := "2" }, Data := some "y", Labels := [] }

/-- An active token whose only permission is the Read wildcard. -/
def readerToken : Authorization :=
  { Active := true, UserID := 10, Permissions := [documentsWildcard Action.ReadAction] }

/-- An active token whose only permission is the Write wildcard. -/
def writerToken : Authorization :=
  { Active := true, UserID := 10, Permissions := [documentsWildcard Action.WriteAction] }

/-- An active token with a Write permission on the documents of org 1. -/
def orgToken : Authorization :=
  { Active := true, UserID := 10,
    Permissions := [{ Action := Action.WriteAction,
                      Resource := { Typ := ResourceType.DocumentsResourceType, ID := none,
                                    OrgID := some 1 } }] }

/-- A token that is not active and holds the Write wildcard. -/
def inactiveToken : Authorization :=
  { Active := false, UserID := 10, Permissions := [documentsWildcard Action.WriteAction] }

/-- A stand-in for `Authorization.Allowed`: membership in the permission list. -/
def allowed (a : Authorization) (p : Permission) : Bool :=
  a.Permissions.contains p

end Examples

namespace Examples

open influxdb kv

/-- The permission to read the documents of org 1: action Read, type Documents,
OrgID 1. -/
def readOrgDocuments : Permission :=
  { Action := Action.ReadAction,
    Resource := { Typ := ResourceType.DocumentsResourceType, ID := none, OrgID := some 1 } }

/-- The permission to read org 1: action Read, type Orgs, OrgID 1. -/
def readOrg : Permission :=
  { Action := Action.ReadAction,
    Resource := { Typ := ResourceType.OrgsResourceType, ID := none, OrgID := some 1 } }

/-- An active token whose only permission is to read the documents of org 1. -/
def docsReaderToken : Authorization :=
  { Active := true, UserID := 10, Permissions := [readOrgDocuments] }

/-- An active token whose only permission is to read org 1. -/
def orgReaderToken : Authorization :=
  { Active := true, UserID := 10, Permissions := [readOrg] }

end Examples

namespace kv

open influxdb

/-- The decorator `DeleteDocuments` starts from, `&DocumentDecorator{writable: true}`. -/
def deleteDecorator : DocumentDecorator :=
  { data := false, labels := false, accessors := false, writable := true }

/-- The edge `AddDocumentOwner` writes: org `org` owns document `doc` with role
Owner. -/
def ownerEdge (org doc : ID) : UserResourceMapping :=
  { UserID := org, UserType := UserType.Owner, MappingType := MappingType.OrgMappingType,
    ResourceType := ResourceType.DocumentsResourceType, ResourceID := doc }

/-- An edge from org `org` to document `doc` with role Member. -/
def memberEdge (org doc : ID) : UserResourceMapping :=
  { UserID := org, UserType := UserType.Member, MappingType := MappingType.OrgMappingType,
    ResourceType := ResourceType.DocumentsResourceType, ResourceID := doc }

/-- The document that `findDocuments` builds from one record of the Meta bucket:
the ID decoded from the key, the Meta decoded from the value, no payload and no
labels. -/
def RecordOf (c : Codec) (kv : Bytes × Bytes) (x : Document) : Prop :=
  c.decodeID kv.1 = .ok x.ID ∧ c.unmarshalMeta kv.2 = .ok x.Meta ∧ x.Data = none ∧
    x.Labels = []

end kv

namespace influxdb

/-- The ID that a permission names directly: `[p.ID]` when the permission is of
type Documents with a resource ID set, nothing otherwise. -/
def permissionID (p : Permission) : List ID :=
  match p.Resource.Typ, p.Resource.ID with
  | ResourceType.DocumentsResourceType, some i => [i]
  | _, _ => []

/-- What one permission contributes to the listing of a token when the index is
read in the state `s`: `GetAccessorsDocuments("org", p.OrgID)` when the permission
is of type Documents with OrgID set, followed by `[p.ID]` when it is of type
Documents with a resource ID set. -/
def permissionDocuments {σ : Type} (idx : DocumentIndex σ) (s : σ) (p : Permission) : List ID :=
  (match p.Resource.Typ, p.Resource.OrgID with
   | ResourceType.DocumentsResourceType, some o => (idx.GetAccessorsDocuments "org" o s).1.1
   | _, _ => []) ++ permissionID p

/-- The documents of the org of one permission, on an index whose calls may change
its state: for a permission of type Documents with OrgID `o`, the list that a
successful call `GetAccessorsDocuments("org", o)` returns in the state `s`, with
the state it leaves; for any other permission nothing, and no call. -/
inductive OrgDocuments {σ : Type} (idx : DocumentIndex σ) :
    Permission → σ → List ID → σ → Prop where
  | ofOrg (p : Permission) (o : ID) (s s1 : σ) (L : List ID)
      (htype : p.Resource.Typ = ResourceType.DocumentsResourceType)
      (horg : p.Resource.OrgID = some o)
      (hcall : idx.GetAccessorsDocuments "org" o s = ((L, none), s1)) :
      OrgDocuments idx p s L s1
  | other (p : Permission) (s : σ)
      (hother : p.Resource.Typ ≠ ResourceType.DocumentsResourceType ∨ p.Resource.OrgID = none) :
      OrgDocuments idx p s [] s

/-- The concatenation, over the permissions in order, of what each contributes,
every `GetAccessorsDocuments` call succeeding, from the state `s` to the state
`s2`. -/
inductive TokenListing {σ : Type} (idx : DocumentIndex σ) :
    List Permission → σ → List ID → σ → Prop where
  | nil (s : σ) : TokenListing idx [] s [] s
  | cons (p : Permission) (ps : List Permission) (s s1 s2 : σ) (L0 L : List ID)
      (hfirst : OrgDocuments idx p s L0 s1) (hrest : TokenListing idx ps s1 L s2) :
      TokenListing idx (p :: ps) s (L0 ++ permissionID p ++ L) s2

end influxdb

namespace influxdb

/-- One call on the index, as recorded: the name of the method and the error it
returned. -/
structure CallRecord where
  method : String
  err : Option Error
deriving DecidableEq, Repr

/-- A method of an index with a record kept of the call: the result and the state
are those of the method, and the record is added at the end of the log. -/
def recordCall {σ α : Type} (method : String) (errOf : α → Option Error)
    (call : σ → α × σ) : σ × List CallRecord → α × (σ × List CallRecord) :=
  fun st =>
    ((call st.1).1,
      ((call st.1).2, st.2 ++ [{ method := method, err := errOf (call st.1).1 }]))

/-- The index `idx` with a log of the calls made on it. -/
def recording {σ : Type} (idx : DocumentIndex σ) : DocumentIndex (σ × List CallRecord) where
  AddDocumentOwner := fun d t o =>
    recordCall "AddDocumentOwner" (fun e => e) (idx.AddDocumentOwner d t o)
  RemoveDocumentOwner := fun d t o =>
    recordCall "RemoveDocumentOwner" (fun e => e) (idx.RemoveDocumentOwner d t o)
  GetAccessorsDocuments := fun t o =>
    recordCall "GetAccessorsDocuments" (fun r => r.2) (idx.GetAccessorsDocuments t o)
  GetDocumentsAccessors := fun d =>
    recordCall "GetDocumentsAccessors" (fun r => r.2) (idx.GetDocumentsAccessors d)
  UsersOrgs := fun u =>
    recordCall "UsersOrgs" (fun r => r.2) (idx.UsersOrgs u)
  IsOrgAccessor := fun u o =>
    recordCall "IsOrgAccessor" (fun e => e) (idx.IsOrgAccessor u o)
  FindOrganizationByName := fun n =>
    recordCall "FindOrganizationByName" (fun r => r.2) (idx.FindOrganizationByName n)
  FindLabelByName := fun n =>
    recordCall "FindLabelByName" (fun r => r.2) (idx.FindLabelByName n)
  AddDocumentLabel := fun d l =>
    recordCall "AddDocumentLabel" (fun e => e) (idx.AddDocumentLabel d l)
  RemoveDocumentLabel := fun d l =>
    recordCall "RemoveDocumentLabel" (fun e => e) (idx.RemoveDocumentLabel d l)

/-- A log of calls is fail-fast for the returned error `err`: every recorded call
returned no error, or is a call of an exempt method, or is the last call of the
log and its error is `err`. So a call that returns an error stops the evaluation
and its error is what the option returns. -/
def FailFast (exempt : String → Bool) : List CallRecord → Option Error → Prop
  | [], _ => True
  | r :: rest, err =>
    (r.err = none ∨ exempt r.method = true ∨ (rest = [] ∧ r.err = err)) ∧
      FailFast exempt rest err

/-- No method is exempt. -/
def noExemption : String → Bool :=
  fun _ => false

/-- Only the calls of `IsOrgAccessor` are exempt. -/
def membershipExempt : String → Bool :=
  fun m => m == "IsOrgAccessor"

/-- A create-option is fail-fast: on every index, the log of the calls it makes
is fail-fast for the error it returns. -/
def CreateOptionFailsFast (exempt : String → Bool)
    (opt : (σ : Type) → DocumentCreateOptions σ) : Prop :=
  ∀ (σ : Type) (id : ID) (idx : DocumentIndex σ) (s : σ),
    FailFast exempt (opt (σ × List CallRecord) id (recording idx) (s, [])).2.2
      (opt (σ × List CallRecord) id (recording idx) (s, [])).1

/-- A find-option is fail-fast: on every index, the log of the calls it makes is
fail-fast for the error it returns. -/
def FindOptionFailsFast (exempt : String → Bool)
    (opt : (σ δ : Type) → DocumentFindOptions σ δ) : Prop :=
  ∀ (σ δ : Type) (idx : DocumentIndex σ) (dd : DocumentDecorator δ) (s : σ) (d0 : δ),
    FailFast exempt (opt (σ × List CallRecord) δ (recording idx) dd (s, []) d0).2.1.2
      (opt (σ × List CallRecord) δ (recording idx) dd (s, []) d0).1.2

/-- The calls `IsOrgAccessor(u, o)` for the orgs of the list, made in order from
the state `s`, each return an error of code Unauthorized, and leave the state
`s2`. -/
inductive AllRefused {σ : Type} (idx : DocumentIndex σ) (u : ID) :
    List ID → σ → σ → Prop where
  | nil (s : σ) : AllRefused idx u [] s s
  | cons (o : ID) (rest : List ID) (s s1 s2 : σ) (e : Error)
      (hcall : idx.IsOrgAccessor u o s = (some e, s1))
      (hcode : e.Code = ErrCode.EUnauthorized)
      (hrest : AllRefused idx u rest s1 s2) : AllRefused idx u (o :: rest) s s2

end influxdb

namespace Examples

open influxdb kv

/-- A failure of the store behind the index, of code Internal. -/
def internalFailure : Error :=
  { Code := ErrCode.EInternal, Msg := "store failure" }

/-- The read-only index of the store, except that `IsOrgAccessor` fails with the
Internal store failure for org 1; for every other org it grants access when
`pass` is set and refuses with Unauthorized when it is not. -/
def faultyIndex (pass : Bool) : influxdb.DocumentIndex Tx :=
  { readIndex with
    IsOrgAccessor := fun _ o tx =>
      if o = 1 then (some internalFailure, tx)
      else if pass then (none, tx)
      else (some { Code := ErrCode.EUnauthorized, Msg := "user is not org member" }, tx) }

/-- The example store with user 10 a member of org 2 instead of org 1. -/
def storeMemberOfSecond : Tx :=
  { store with
    urms := [ownerEdge 1 5, memberEdge 2 5,
             { UserID := 10, UserType := UserType.Member,
               MappingType := MappingType.UserMappingType,
               ResourceType := ResourceType.OrgsResourceType, ResourceID := 2 }] }

/-- Document 5 with a new Meta and a new payload. -/
def updatedDoc : Document :=
  { ID := 5, Meta := { Name := "c", Version := "3" }, Data := some "z", Labels := [] }

end Examples

namespace influxdb

/-- Two evaluations, one after the other, of one option value `AuthorizedWhere(a)`.
The variable `ids` is declared outside the closure that `AuthorizedWhere` and
`TokenAuthorizedWhere` return, so the second call starts with the `ids` that the
first call left; the index is in the state the first call left. The result is
the pair of the two Go results. -/
def AuthorizedWhereTwice {σ : Type} (a : Authorizer) (idx : DocumentIndex σ) (s : σ) :
    (List ID × Option Error) × (List ID × Option Error) :=
  match AuthorizedWhereCall a [] idx s with
  | (r1, ids1, s1) => (r1, (AuthorizedWhereCall a ids1 idx s1).1)

end influxdb

namespace influxdb

/-- The calls `GetAccessorsDocuments("org", o)` made one after the other, `n`
times from the state `s` or until one fails: the lists the successful calls
returned, in order, the error of the failing call if there is one, and the state
the last call left. -/
def orgCalls {σ : Type} (idx : DocumentIndex σ) (o : ID) :
    Nat → σ → List (List ID) × Option Error × σ
  | 0, s => ([], none, s)
  | n + 1, s =>
    match idx.GetAccessorsDocuments "org" o s with
    | ((_, some err), s1) => ([], some err, s1)
    | ((dids, none), s1) =>
      match orgCalls idx o n s1 with
      | (Ls, e, s2) => (dids :: Ls, e, s2)

end influxdb

namespace Examples

open influxdb kv

/-- An active token that holds no permission. -/
def emptyToken : Authorization :=
  { Active := true, UserID := 10, Permissions := [] }

/-- The example store after `RemoveDocumentOwner(5, "org", 1)`: org 1 has no edge
to document 5 any more. -/
def storeDisowned : Tx :=
  (writeIndex.RemoveDocumentOwner 5 "org" 1 store).2

end Examples

namespace kv

open influxdb

/-- Modelled from the spec: the invariant of the data model in namespace `ns`,
"every existing Document has a Meta record; Data ... is never absent from storage
once written": every ID whose Meta lookup succeeds has a Data lookup that
succeeds. -/
def MetaHasData (c : Codec) (ns : String) (tx : Tx) : Prop :=
  ∀ (id : ID) (m : DocumentMeta), findDocumentMetaByID c tx ns id = .ok m →
    ∃ p, findDocumentDataByID c tx ns id = .ok p

end kv

namespace Examples

open influxdb kv

/-- A store with the two buckets of namespace `ns`, holding the documents 5 and 6
(Meta and Data of each). -/
def storeTwo : Tx where
  buckets := [("ns/documents/data", [([5], [1, 120]), ([6], [1, 121])]),
              ("ns/documents/meta", [([5], [1, 97, 49]), ([6], [1, 98, 50])])]
  urms := []
  labelMappings := []
  orgs := []
  users := []
  labels := []

end Examples

/-! ## Theorems about the options of `document.go` -/

namespace influxdb

theorem orgGranted_iff (oids : List ID) (x : Option ID) :
    orgGranted oids x = true ↔ ∃ o, x = some o ∧ o ∈ oids := by
  cases x with
  | none => simp [orgGranted]
  | some o => simp [orgGranted]

theorem permissionGrants_iff (id : ID) (oids : List ID) (p : Permission) :
    permissionGrants id oids p = true ↔
      p.Resource.Typ = ResourceType.DocumentsResourceType ∧
        (p.Resource.ID = some id ∨ (p.Resource.ID = none ∧ p.Resource.OrgID = none) ∨
          ∃ o, p.Resource.OrgID = some o ∧ o ∈ oids) := by
  have h := orgGranted_iff oids p.Resource.OrgID
  unfold permissionGrants
  split_ifs with h1 h2 h3
  · exact ⟨fun _ => ⟨h1.1, Or.inl h1.2⟩, fun _ => rfl⟩
  · exact ⟨fun _ => ⟨h2.1, Or.inr (Or.inl h2.2)⟩, fun _ => rfl⟩
  · exact ⟨fun _ => ⟨h3.1, Or.inr (Or.inr (h.mp h3.2))⟩, fun _ => rfl⟩
  · constructor
    · intro hf
      cases hf
    · rintro ⟨ht, hid | hw | ho⟩
      · exact absurd ⟨ht, hid⟩ h1
      · exact absurd ⟨ht, hw⟩ h2
      · exact absurd ⟨ht, h.mpr ho⟩ h3

theorem tokenAuthorizedScan_iff (id : ID) (oids : List ID) (ps : List Permission) :
    tokenAuthorizedScan id oids ps = true ↔
      ∃ p ∈ ps, p.Action ≠ Action.ReadAction ∧ permissionGrants id oids p = true := by
  induction ps with
  | nil => simp [tokenAuthorizedScan]
  | cons p ps ih =>
    unfold tokenAuthorizedScan
    by_cases ha : p.Action = Action.ReadAction
    · simp [ha, ih]
    · by_cases hg : permissionGrants id oids p = true
      · simp [ha, hg]
      · simp [ha, hg, ih]

theorem tokenAuthorizedWhereIDScan_iff (id : ID) (oids : List ID) (ps : List Permission) :
    tokenAuthorizedWhereIDScan id oids ps = true ↔
      ∃ p ∈ ps, permissionGrants id oids p = true := by
  induction ps with
  | nil => simp [tokenAuthorizedWhereIDScan]
  | cons p ps ih =>
    unfold tokenAuthorizedWhereIDScan
    by_cases hg : permissionGrants id oids p = true
    · simp [hg]
    · simp [hg, ih]

/-- Claim C1. For a token `a`, a document `d` and an index on which
`GetDocumentsAccessors d` succeeds with owner list `O`: `Authorized(a)`, which is
`TokenAuthorized(a)`, returns no error exactly when `a` is active and some
permission has an action other than Read, type Documents, and either its ID is
`d`, or neither ID nor OrgID is set, or its OrgID is a member of `O`; in every
other case the error it returns has code Unauthorized. -/
theorem C1_token_authorized_iff {σ : Type} (a : Authorization) (d : ID)
    (idx : DocumentIndex σ) (s s1 : σ) (O : List ID)
    (hO : idx.GetDocumentsAccessors d s = ((O, none), s1)) :
    (Authorized (σ := σ) (Authorizer.token a) = TokenAuthorized a) ∧
    ((Authorized (Authorizer.token a) d idx s).1 = none ↔
      (a.IsActive = true ∧ ∃ p ∈ a.Permissions,
        p.Action ≠ Action.ReadAction ∧
        p.Resource.Typ = ResourceType.DocumentsResourceType ∧
        (p.Resource.ID = some d ∨ (p.Resource.ID = none ∧ p.Resource.OrgID = none) ∨
          ∃ o, p.Resource.OrgID = some o ∧ o ∈ O))) ∧
    ((Authorized (Authorizer.token a) d idx s).1 ≠ none →
      ∃ msg, (Authorized (Authorizer.token a) d idx s).1
        = some { Code := ErrCode.EUnauthorized, Msg := msg }) := by
  have hscan := tokenAuthorizedScan_iff d O a.Permissions
  simp only [permissionGrants_iff] at hscan
  refine ⟨rfl, ?_, ?_⟩
  · simp only [Authorized, TokenAuthorized]
    cases hact : a.IsActive with
    | false => simp
    | true =>
      simp only [Bool.not_true, Bool.false_eq_true, if_false, hO, true_and]
      rw [← hscan]
      cases hsc : tokenAuthorizedScan d O a.Permissions <;> simp
  · simp only [Authorized, TokenAuthorized]
    cases hact : a.IsActive with
    | false => simp
    | true =>
      simp only [Bool.not_true, Bool.false_eq_true, if_false, hO]
      cases hsc : tokenAuthorizedScan d O a.Permissions <;> simp

theorem permissionGrants_action (id : ID) (oids : List ID) (p : Permission) (x : Action) :
    permissionGrants id oids { p with Action := x } = permissionGrants id oids p := rfl

theorem tokenAuthorizedScan_withWriteActions (id : ID) (oids : List ID)
    (ps : List Permission) :
    tokenAuthorizedScan id oids
        (ps.map (fun p => { p with Action := Action.WriteAction }))
      = tokenAuthorizedWhereIDScan id oids ps := by
  induction ps with
  | nil => rfl
  | cons p ps ih =>
    simp only [List.map_cons, tokenAuthorizedScan, tokenAuthorizedWhereIDScan,
      permissionGrants_action, ih]
    simp

theorem tokenAuthorizedScan_imp_whereIDScan (id : ID) (oids : List ID)
    (ps : List Permission) (h : tokenAuthorizedScan id oids ps = true) :
    tokenAuthorizedWhereIDScan id oids ps = true := by
  rw [tokenAuthorizedScan_iff] at h
  rw [tokenAuthorizedWhereIDScan_iff]
  obtain ⟨p, hp, _, hg⟩ := h
  exact ⟨p, hp, hg⟩

/-- Claim C2, as amended. For an identity that is not a token,
`AuthorizedWhereID(a, d)` returns exactly `[d]` with no error if and only if
`Authorized(a)` returns no error on the same index, and when `Authorized(a)` fails
it returns no IDs and the same error. For a token the find-time check does not
consult the action of a permission: it returns `[d]` exactly when `Authorized`
succeeds for the token with every action replaced by Write, so `Authorized(t)`
succeeding implies the lookup succeeds. In every other case the lookup returns no
IDs and an error, which has code Unauthorized or is the error of
`GetDocumentsAccessors`. -/
theorem C2_authorizedWhereID_gate {σ δ : Type} (u : ID) (t : Authorization) (d : ID)
    (idx : DocumentIndex σ) (dd : DocumentDecorator δ) (s : σ) (d0 : δ) :
    (((AuthorizedWhereID (Authorizer.ambient u) d idx dd s d0).1 = ([d], none) ↔
        (Authorized (Authorizer.ambient u) d idx s).1 = none) ∧
     ((Authorized (Authorizer.ambient u) d idx s).1 ≠ none →
        (AuthorizedWhereID (Authorizer.ambient u) d idx dd s d0).1
          = ([], (Authorized (Authorizer.ambient u) d idx s).1))) ∧
    (((AuthorizedWhereID (Authorizer.token t) d idx dd s d0).1 = ([d], none) ↔
        (Authorized (Authorizer.token (withWriteActions t)) d idx s).1 = none) ∧
     ((Authorized (Authorizer.token t) d idx s).1 = none →
        (AuthorizedWhereID (Authorizer.token t) d idx dd s d0).1 = ([d], none))) ∧
    (∀ a : Authorizer,
      (AuthorizedWhereID a d idx dd s d0).1 = ([d], none) ∨
      ∃ e, (AuthorizedWhereID a d idx dd s d0).1 = ([], some e) ∧
        (e.Code = ErrCode.EUnauthorized ∨ (idx.GetDocumentsAccessors d s).1.2 = some e)) := by
  refine ⟨⟨?_, ?_⟩, ⟨?_, ?_⟩, ?_⟩
  · simp only [AuthorizedWhereID, Authorized]
    rcases hg : idx.GetDocumentsAccessors d s with ⟨⟨oids, _ | err⟩, s1⟩
    · rcases hi : isAccessorOfSome idx (Authorizer.ambient u).GetUserID oids s1 with ⟨_ | _, s2⟩
        <;> simp [hi]
    · simp
  · simp only [AuthorizedWhereID, Authorized]
    rcases hg : idx.GetDocumentsAccessors d s with ⟨⟨oids, _ | err⟩, s1⟩
    · rcases hi : isAccessorOfSome idx (Authorizer.ambient u).GetUserID oids s1 with ⟨_ | _, s2⟩
        <;> simp [hi]
    · simp
  · simp only [AuthorizedWhereID, Authorized, TokenAuthorizedWhereID, TokenAuthorized,
      withWriteActions, Authorization.IsActive]
    rcases Bool.eq_false_or_eq_true t.Active with hact | hact
    · simp only [hact, Bool.not_true, Bool.false_eq_true, if_false]
      rcases hg : idx.GetDocumentsAccessors d s with ⟨⟨oids, _ | err⟩, s1⟩
      · simp only [tokenAuthorizedScan_withWriteActions]
        cases hsc : tokenAuthorizedWhereIDScan d oids t.Permissions <;> simp [hsc]
      · simp
    · simp [hact]
  · simp only [AuthorizedWhereID, Authorized, TokenAuthorizedWhereID, TokenAuthorized,
      Authorization.IsActive]
    rcases Bool.eq_false_or_eq_true t.Active with hact | hact
    · simp only [hact, Bool.not_true, Bool.false_eq_true, if_false]
      rcases hg : idx.GetDocumentsAccessors d s with ⟨⟨oids, _ | err⟩, s1⟩
      · cases hsc : tokenAuthorizedScan d oids t.Permissions with
        | false => simp [hsc]
        | true => simp [hsc, tokenAuthorizedScan_imp_whereIDScan d oids _ hsc]
      · simp
    · simp [hact]
  · intro a
    cases a with
    | token t =>
      simp only [AuthorizedWhereID, TokenAuthorizedWhereID, Authorization.IsActive]
      rcases Bool.eq_false_or_eq_true t.Active with hact | hact
      · simp only [hact, Bool.not_true, Bool.false_eq_true, if_false]
        rcases hg : idx.GetDocumentsAccessors d s with ⟨⟨oids, _ | err⟩, s1⟩
        · cases hsc : tokenAuthorizedWhereIDScan d oids t.Permissions <;> simp [hsc]
        · simp
      · simp [hact]
    | ambient u =>
      simp only [AuthorizedWhereID]
      rcases hg : idx.GetDocumentsAccessors d s with ⟨⟨oids, _ | err⟩, s1⟩
      · rcases hi : isAccessorOfSome idx (Authorizer.ambient u).GetUserID oids s1
          with ⟨_ | _, s2⟩ <;> simp [hi]
      · simp

/-- Claim C3. For a token that is not active, whatever its permissions:
`Authorized`, `AuthorizedWithOrg`, `AuthorizedWhere` and `AuthorizedWhereID` each
return an error of code Unauthorized, the find-time ones return no IDs, and the
state of the index (and of the decorator) after the call is the state before it,
for every implementation of the index, also one that changes its state on every
call: no call is made on the index, so no owner edge is added. The closure of
`AuthorizedWhere` leaves its captured slice as it was. -/
theorem C3_inactive_token_unauthorized {σ δ : Type}
    (Allowed : Authorization → Permission → Bool) (a : Authorization)
    (hinactive : a.IsActive = false) (d : ID) (org : String) (ids : List ID)
    (idx : DocumentIndex σ) (dd : DocumentDecorator δ) (s : σ) (d0 : δ) :
    (∃ msg, Authorized (Authorizer.token a) d idx s
        = (some { Code := ErrCode.EUnauthorized, Msg := msg }, s)) ∧
    (∃ msg, AuthorizedWithOrg Allowed (Authorizer.token a) org d idx s
        = (some { Code := ErrCode.EUnauthorized, Msg := msg }, s)) ∧
    (∃ msg, AuthorizedWhere (Authorizer.token a) idx dd s d0
        = (([], some { Code := ErrCode.EUnauthorized, Msg := msg }), s, d0)) ∧
    (∃ msg, AuthorizedWhereCall (Authorizer.token a) ids idx s
        = (([], some { Code := ErrCode.EUnauthorized, Msg := msg }), ids, s)) ∧
    (∃ msg, AuthorizedWhereID (Authorizer.token a) d idx dd s d0
        = (([], some { Code := ErrCode.EUnauthorized, Msg := msg }), s, d0)) := by
  refine ⟨⟨"authorizer cannot access document", ?_⟩,
    ⟨"authorization cannot add org as document owner", ?_⟩,
    ⟨"authorizer cannot access documents", ?_⟩,
    ⟨"authorizer cannot access documents", ?_⟩,
    ⟨"authorizer cannot access documents", ?_⟩⟩
  · simp [Authorized, TokenAuthorized, hinactive]
  · simp [AuthorizedWithOrg, TokenAuthorizedWithOrg, hinactive]
  · simp [AuthorizedWhere, AuthorizedWhereCall, TokenAuthorizedWhereCall, hinactive]
  · simp [AuthorizedWhereCall, TokenAuthorizedWhereCall, hinactive]
  · simp [AuthorizedWhereID, TokenAuthorizedWhereID, hinactive]

end influxdb

/-! ## Theorems about the store of `kv/document.go` -/

namespace kv

open influxdb

theorem entriesGet_entriesPut_same (es : List (Bytes × Bytes)) (k v : Bytes) :
    entriesGet (entriesPut es k v) k = some v := by
  induction es with
  | nil => simp [entriesPut, entriesGet]
  | cons e es ih =>
    obtain ⟨k1, v1⟩ := e
    unfold entriesPut
    by_cases h1 : k1 = k
    · simp [h1, entriesGet]
    · by_cases h2 : bytesLe k k1 = true
      · simp [h1, h2, entriesGet]
      · simp [h1, h2, entriesGet, ih]

theorem entriesGet_entriesDelete_same (es : List (Bytes × Bytes)) (k : Bytes) :
    entriesGet (entriesDelete es k) k = none := by
  induction es with
  | nil => simp [entriesDelete, entriesGet]
  | cons e es ih =>
    obtain ⟨k1, v1⟩ := e
    unfold entriesDelete
    by_cases h1 : k1 = k
    · simp [h1, ih]
    · simp [h1, entriesGet, ih]

theorem lookupBucket_replaceBucket_same (bs : List (String × List (Bytes × Bytes)))
    (n : String) (es es1 : List (Bytes × Bytes)) (h : lookupBucket bs n = some es) :
    lookupBucket (replaceBucket bs n es1) n = some es1 := by
  induction bs with
  | nil => simp [lookupBucket] at h
  | cons b bs ih =>
    obtain ⟨n1, e1⟩ := b
    unfold replaceBucket
    by_cases h1 : n1 = n
    · simp [h1, lookupBucket]
    · simp only [lookupBucket, h1, if_false] at h ⊢
      exact ih h

theorem lookupBucket_replaceBucket_ne (bs : List (String × List (Bytes × Bytes)))
    (n n2 : String) (es1 : List (Bytes × Bytes)) (h : n ≠ n2) :
    lookupBucket (replaceBucket bs n es1) n2 = lookupBucket bs n2 := by
  induction bs with
  | nil => simp [lookupBucket, replaceBucket]
  | cons b bs ih =>
    obtain ⟨n1, e1⟩ := b
    unfold replaceBucket
    by_cases h1 : n1 = n
    · have h2 : ¬ n1 = n2 := fun h3 => h (h1.symm.trans h3)
      have h4 : ¬ n = n2 := h
      simp [h1, lookupBucket, h4]
    · simp only [h1, if_false, lookupBucket, ih]

theorem bucket_names_ne (ns : String) :
    pathJoin ns documentMetaBucket ≠ pathJoin ns documentDataBucket := by
  intro h
  have h1 := congrArg String.data h
  simp only [pathJoin, String.data_append, List.append_cancel_left_eq] at h1
  revert h1
  decide

theorem Tx.Bucket_ok (tx : Tx) (n b : String) (h : tx.Bucket n = .ok b) :
    b = n ∧ ∃ es, lookupBucket tx.buckets n = some es := by
  unfold Tx.Bucket at h
  cases hl : lookupBucket tx.buckets n with
  | none => simp [hl] at h
  | some es =>
    simp only [hl, Except.ok.injEq] at h
    exact ⟨h.symm, es, rfl⟩

theorem Tx.Bucket_of_lookup (tx : Tx) (n : String) (es : List (Bytes × Bytes))
    (h : lookupBucket tx.buckets n = some es) : tx.Bucket n = .ok n := by
  simp [Tx.Bucket, h]

/-- What a successful `putAtID` did: the value was marshalled, the key encoded, the
bucket was there, and the entry was written. -/
theorem putAtID_ok {α : Type} (c : Codec) (marshal : α → Except Error Bytes) (tx tx1 : Tx)
    (bucket : String) (id : ID) (i : α) (h : putAtID c marshal tx bucket id i = (none, tx1)) :
    ∃ v k es, marshal i = .ok v ∧ c.encodeID id = .ok k ∧
      lookupBucket tx.buckets bucket = some es ∧
      tx1 = { tx with buckets := replaceBucket tx.buckets bucket (entriesPut es k v) } := by
  unfold putAtID at h
  cases hm : marshal i with
  | error e => simp [hm] at h
  | ok v =>
    cases hk : c.encodeID id with
    | error e => simp [hm, hk] at h
    | ok k =>
      cases hl : lookupBucket tx.buckets bucket with
      | none => simp [hm, hk, Tx.Bucket, hl] at h
      | some es =>
        simp only [hm, hk, Tx.Bucket, hl, Tx.Put, Prod.mk.injEq, true_and] at h
        exact ⟨v, k, es, rfl, rfl, rfl, h.symm⟩

/-- Reading back with `findByID` what is stored under the key of `id`. -/
theorem findByID_of_entry {α : Type} (c : Codec) (unmarshal : Bytes → Except Error α)
    (tx : Tx) (bucket : String) (id : ID) (k v : Bytes) (es : List (Bytes × Bytes))
    (hk : c.encodeID id = .ok k) (hl : lookupBucket tx.buckets bucket = some es)
    (hg : entriesGet es k = some v) :
    findByID c unmarshal tx bucket id = unmarshal v := by
  unfold findByID
  simp only [Tx.Bucket, hl, hk, Tx.Get, hg]
  cases unmarshal v <;> rfl

/-- Looking up with `findByID` a key that the bucket does not hold. -/
theorem findByID_of_no_entry {α : Type} (c : Codec) (unmarshal : Bytes → Except Error α)
    (tx : Tx) (bucket : String) (id : ID) (k : Bytes) (es : List (Bytes × Bytes))
    (hk : c.encodeID id = .ok k) (hl : lookupBucket tx.buckets bucket = some es)
    (hg : entriesGet es k = none) :
    findByID c unmarshal tx bucket id = .error ErrKeyNotFound := by
  unfold findByID
  simp only [Tx.Bucket, hl, hk, Tx.Get, hg]

/-- What a successful `findByID` read: the key of the ID, an entry of the bucket
under that key, and the value that `unmarshal` decoded. -/
theorem findByID_ok_entry {α : Type} (c : Codec) (unmarshal : Bytes → Except Error α)
    (tx : Tx) (bucket : String) (id : ID) (x : α)
    (h : findByID c unmarshal tx bucket id = .ok x) :
    ∃ k es v, c.encodeID id = .ok k ∧ lookupBucket tx.buckets bucket = some es ∧
      entriesGet es k = some v ∧ unmarshal v = .ok x := by
  unfold findByID at h
  cases hb : tx.Bucket bucket with
  | error e => simp [hb] at h
  | ok b =>
    obtain ⟨hbn, es, hl⟩ := Tx.Bucket_ok tx bucket b hb
    subst hbn
    cases hk : c.encodeID id with
    | error e => simp [hb, hk] at h
    | ok k =>
      cases hg : entriesGet es k with
      | none => simp [hb, hk, Tx.Get, hl, hg] at h
      | some v =>
        cases hu : unmarshal v with
        | error e => simp [hb, hk, Tx.Get, hl, hg, hu] at h
        | ok y =>
          simp only [hb, hk, Tx.Get, hl, hg, hu, Except.ok.injEq] at h
          subst h
          exact ⟨k, es, v, rfl, hl, hg, hu⟩

theorem runCreateOptions_append_error (idx : influxdb.DocumentIndex Tx) (id : ID)
    (pre post : List (DocumentCreateOptions Tx)) (o : DocumentCreateOptions Tx)
    (tx tx2 tx3 : Tx) (e : Error)
    (hpre : runCreateOptions idx id pre tx = (none, tx2))
    (hopt : o id idx tx2 = (some e, tx3)) :
    runCreateOptions idx id (pre ++ o :: post) tx = (some e, tx3) := by
  induction pre generalizing tx with
  | nil =>
    simp only [runCreateOptions, Prod.mk.injEq, true_and] at hpre
    subst hpre
    simp [runCreateOptions, hopt]
  | cons p pre ih =>
    simp only [List.cons_append, runCreateOptions] at hpre ⊢
    rcases hp : p id idx tx with ⟨_ | e1, txp⟩
    · simp only [hp] at hpre ⊢
      exact ih txp hpre
    · simp [hp] at hpre

/-- Claim C4. If `CreateDocument` has written the document, the options before
`o` succeed and the option `o` returns the error `e`, then `CreateDocument`
returns `e` and the store afterwards is the store before the call: the write
transaction discards the Meta record, the Data record and every edge written for
the new ID. The later options `post` are not run. -/
theorem C4_create_atomic (c : Codec) (newID : ID) (ns : String) (d d1 : Document)
    (pre post : List (DocumentCreateOptions Tx)) (o : DocumentCreateOptions Tx)
    (tx tx1 tx2 tx3 : Tx) (e : Error)
    (hcreate : createDocument c newID tx ns d = ((d1, none), tx1))
    (hpre : runCreateOptions writeIndex d1.ID pre tx1 = (none, tx2))
    (hopt : o d1.ID writeIndex tx2 = (some e, tx3)) :
    CreateDocument c newID ns d (pre ++ o :: post) tx = ((d1, some e), tx) ∧
      d1.ID = newID := by
  have hrun := runCreateOptions_append_error writeIndex d1.ID pre post o tx1 tx2 tx3 e hpre hopt
  constructor
  · unfold CreateDocument Update
    simp only [hcreate]
    unfold writeIndex at hrun
    simp only [hrun]
  · unfold createDocument at hcreate
    rcases hp : putDocument c tx ns { d with ID := newID } with ⟨_ | e1, txp⟩
    · simp only [hp, Prod.mk.injEq, and_true] at hcreate
      rw [← hcreate.1]
    · simp [hp] at hcreate

theorem FindDocuments_whereID_content (c : Codec) (ns : String) (id : ID) (tx : Tx)
    (m : DocumentMeta) (p : Payload)
    (hm : findDocumentMetaByID c tx ns id = .ok m)
    (hp : findDocumentDataByID c tx ns id = .ok p) :
    FindDocuments c ns [WhereID id, IncludeContent] tx
      = ([{ ID := id, Meta := m, Data := p, Labels := [] }], none) := by
  simp [FindDocuments, View, runFindOptions, WhereID, IncludeContent,
    DocumentDecorator.asDecorator, DocumentDecorator.IncludeData, findDocumentsByID,
    findDocumentsByIDLoop, findDocumentByID, hm, hydrateData, hp]

theorem FindDocuments_whereID (c : Codec) (ns : String) (id : ID) (tx : Tx) :
    FindDocuments c ns [WhereID id] tx =
      match findDocumentMetaByID c tx ns id with
      | .error err => ([], some err)
      | .ok m => ([{ ID := id, Meta := m, Data := none, Labels := [] }], none) := by
  cases hm : findDocumentMetaByID c tx ns id <;>
    simp [FindDocuments, View, runFindOptions, WhereID, findDocumentsByID,
      findDocumentsByIDLoop, findDocumentByID, hm]

/-- What a successful `putDocument` did to the two buckets of the namespace. -/
theorem putDocument_ok (c : Codec) (tx tx1 : Tx) (ns : String) (d : Document)
    (h : putDocument c tx ns d = (none, tx1)) :
    ∃ k vm vd em ed, c.encodeID d.ID = .ok k ∧ c.marshalMeta d.Meta = .ok vm ∧
      c.marshalData d.Data = .ok vd ∧
      lookupBucket tx1.buckets (pathJoin ns documentMetaBucket) = some em ∧
      entriesGet em k = some vm ∧
      lookupBucket tx1.buckets (pathJoin ns documentDataBucket) = some ed ∧
      entriesGet ed k = some vd := by
  unfold putDocument at h
  rcases hpm : putDocumentMeta c tx ns d.ID d.Meta with ⟨_ | e1, txm⟩
  · rcases hpd : putDocumentData c txm ns d.ID d.Data with ⟨_ | e2, txd⟩
    · simp only [hpm, hpd, Prod.mk.injEq, true_and] at h
      subst h
      obtain ⟨vm, k, es, hmm, hk, hl, htxm⟩ := putAtID_ok c c.marshalMeta tx txm _ _ _ hpm
      obtain ⟨vd, k2, es2, hmd, hk2, hl2, htxd⟩ := putAtID_ok c c.marshalData txm txd _ _ _ hpd
      have hkk : k2 = k := by
        rw [hk] at hk2
        exact (Except.ok.inj hk2).symm
      subst hkk
      have hmetam : lookupBucket txm.buckets (pathJoin ns documentMetaBucket)
          = some (entriesPut es k2 vm) := by
        rw [htxm]
        exact lookupBucket_replaceBucket_same _ _ _ _ hl
      refine ⟨k2, vm, vd, entriesPut es k2 vm, entriesPut es2 k2 vd, hk, hmm, hmd, ?_,
        entriesGet_entriesPut_same _ _ _, ?_, entriesGet_entriesPut_same _ _ _⟩
      · rw [htxd]
        simp only
        rw [lookupBucket_replaceBucket_ne _ _ _ _ (bucket_names_ne ns).symm]
        exact hmetam
      · rw [htxd]
        exact lookupBucket_replaceBucket_same _ _ _ _ hl2
    · simp [hpm, hpd] at h
  · simp [hpm] at h

/-- Claim C6. Assuming that decoding inverts encoding at the Meta and at the
payload of `doc`: after `CreateDocument(doc)` with no options has succeeded,
`FindDocuments(WhereID(doc.ID), IncludeContent)` returns no error and exactly one
document, whose ID is the ID assigned to `doc` (the generated one), whose Meta is
`doc.Meta` and whose Data is the payload of `doc`. -/
theorem C6_create_find_roundtrip (c : Codec) (newID : ID) (ns : String) (doc d1 : Document)
    (tx tx1 : Tx)
    (hmeta : ∀ b, c.marshalMeta doc.Meta = .ok b → c.unmarshalMeta b = .ok doc.Meta)
    (hdata : ∀ b, c.marshalData doc.Data = .ok b → c.unmarshalData b = .ok doc.Data)
    (hcreate : CreateDocument c newID ns doc [] tx = ((d1, none), tx1)) :
    FindDocuments c ns [WhereID d1.ID, IncludeContent] tx1
        = ([{ ID := d1.ID, Meta := doc.Meta, Data := doc.Data, Labels := [] }], none) ∧
      d1.ID = newID := by
  unfold CreateDocument Update createDocument at hcreate
  rcases hp : putDocument c tx ns { doc with ID := newID } with ⟨_ | e1, txp⟩
  · simp only [hp, runCreateOptions, Prod.mk.injEq, and_true] at hcreate
    obtain ⟨hd, htx⟩ := hcreate
    subst hd htx
    obtain ⟨k, vm, vd, em, ed, hk, hmm, hmd, hlm, hgm, hld, hgd⟩ :=
      putDocument_ok c tx txp ns _ hp
    refine ⟨?_, rfl⟩
    apply FindDocuments_whereID_content
    · unfold findDocumentMetaByID
      rw [findByID_of_entry c c.unmarshalMeta txp _ newID k vm em hk hlm hgm]
      exact hmeta vm hmm
    · unfold findDocumentDataByID
      rw [findByID_of_entry c c.unmarshalData txp _ newID k vd ed hk hld hgd]
      exact hdata vd hmd
  · simp [hp] at hcreate

theorem runFindOptions_of_return (idx : influxdb.DocumentIndex Tx)
    (dd : influxdb.DocumentDecorator DocumentDecorator)
    (opts : List (DocumentFindOptions Tx DocumentDecorator)) (tx tx1 : Tx)
    (d d1 : DocumentDecorator) (Ls : List (List ID))
    (h : FindOptionsReturn idx dd opts tx d Ls tx1 d1) (ids0 : List ID) :
    runFindOptions idx dd opts ids0 tx d = ((ids0 ++ Ls.flatten, none), tx1, d1) := by
  induction h generalizing ids0 with
  | nil tx d => simp [runFindOptions]
  | cons opt rest tx tx1 tx2 d d1 d2 L Ls hopt _ ih =>
    simp only [runFindOptions, hopt, ih, List.flatten_cons, List.append_assoc]

theorem findDocumentsByIDLoop_ok (c : Codec) (tx : Tx) (ns : String) (ids : List ID)
    (h : ∀ id ∈ ids, ∃ m, findDocumentMetaByID c tx ns id = .ok m) (ds : List Document) :
    ∃ docs, findDocumentsByIDLoop c tx ns ids ds = .ok (ds ++ docs) ∧
      docs.map (fun x => x.ID) = ids ∧
      ∀ x ∈ docs, findDocumentMetaByID c tx ns x.ID = .ok x.Meta := by
  induction ids generalizing ds with
  | nil => exact ⟨[], by simp [findDocumentsByIDLoop]⟩
  | cons id ids ih =>
    obtain ⟨m, hm⟩ := h id (List.mem_cons_self _ _)
    obtain ⟨docs, hdocs, hids, hmetas⟩ :=
      ih (fun i hi => h i (List.mem_cons_of_mem _ hi))
        (ds ++ [{ ID := id, Meta := m, Data := none, Labels := [] }])
    refine ⟨{ ID := id, Meta := m, Data := none, Labels := [] } :: docs, ?_, ?_, ?_⟩
    · simp only [findDocumentsByIDLoop, findDocumentByID, hm, hdocs, List.append_assoc,
        List.singleton_append]
    · simp [hids]
    · intro x hx
      rcases List.mem_cons.mp hx with hx | hx
      · subst hx
        exact hm
      · exact hmetas x hx

theorem hydrateData_ok (c : Codec) (tx : Tx) (ns : String) (docs : List Document)
    (h : ∀ x ∈ docs, ∃ p, findDocumentDataByID c tx ns x.ID = .ok p) :
    ∃ docs1, hydrateData c tx ns docs = .ok docs1 ∧
      docs1.map (fun x => x.ID) = docs.map (fun x => x.ID) ∧
      ∀ x ∈ docs1, ∃ y ∈ docs, x.ID = y.ID ∧ x.Meta = y.Meta := by
  induction docs with
  | nil => exact ⟨[], by simp [hydrateData]⟩
  | cons doc docs ih =>
    obtain ⟨p, hp⟩ := h doc (List.mem_cons_self _ _)
    obtain ⟨docs1, hh, hids, hmetas⟩ := ih (fun x hx => h x (List.mem_cons_of_mem _ hx))
    refine ⟨{ doc with Data := p } :: docs1, ?_, ?_, ?_⟩
    · simp only [hydrateData, hp, hh]
    · simp [hids]
    · intro x hx
      rcases List.mem_cons.mp hx with hx | hx
      · subst hx
        exact ⟨doc, List.mem_cons_self _ _, rfl, rfl⟩
      · obtain ⟨y, hy, h1, h2⟩ := hmetas x hx
        exact ⟨y, List.mem_cons_of_mem _ hy, h1, h2⟩

theorem hydrateLabels_ok (tx : Tx) (docs : List Document) :
    ∃ docs1, hydrateLabels tx docs = .ok docs1 ∧
      docs1.map (fun x => x.ID) = docs.map (fun x => x.ID) ∧
      ∀ x ∈ docs1, ∃ y ∈ docs, x.ID = y.ID ∧ x.Meta = y.Meta := by
  induction docs with
  | nil => exact ⟨[], by simp [hydrateLabels]⟩
  | cons doc docs ih =>
    obtain ⟨docs1, hh, hids, hmetas⟩ := ih
    let f : LabelMappingFilter :=
      { ResourceID := doc.ID, ResourceType := ResourceType.DocumentsResourceType }
    refine ⟨{ doc with Labels := doc.Labels ++ (findResourceLabels tx f).1 } :: docs1,
      ?_, ?_, ?_⟩
    · simp only [hydrateLabels, findResourceLabels, hh]
    · simp [hids]
    · intro x hx
      rcases List.mem_cons.mp hx with hx | hx
      · subst hx
        exact ⟨doc, List.mem_cons_self _ _, rfl, rfl⟩
      · obtain ⟨y, hy, h1, h2⟩ := hmetas x hx
        exact ⟨y, List.mem_cons_of_mem _ hy, h1, h2⟩

theorem FindDocuments_whereID_pair (c : Codec) (ns : String) (a b : ID) (tx : Tx)
    (ma mb : DocumentMeta)
    (ha : findDocumentMetaByID c tx ns a = .ok ma)
    (hb : findDocumentMetaByID c tx ns b = .ok mb) :
    FindDocuments c ns [WhereID a, WhereID b] tx
      = ([{ ID := a, Meta := ma, Data := none, Labels := [] },
          { ID := b, Meta := mb, Data := none, Labels := [] }], none) := by
  simp [FindDocuments, View, runFindOptions, WhereID, findDocumentsByID,
    findDocumentsByIDLoop, findDocumentByID, ha, hb, readDecorator]

/-- For a non-empty list of find-options that all succeed, option `i` returning
the ID list `L_i`, where every ID in them has a Meta record and, when an option
has requested the content, also a Data record: `FindDocuments` returns no error
and one document per element of `L_1 ++ ... ++ L_n`, in that order, each carrying
the stored Meta. The records are looked up in the state the options leave. -/
theorem FindDocuments_concatenation (c : Codec) (ns : String)
    (opts : List (DocumentFindOptions Tx DocumentDecorator)) (tx tx1 : Tx)
    (Ls : List (List ID)) (dd1 : DocumentDecorator)
    (hne : opts ≠ [])
    (hopts : FindOptionsReturn readIndex DocumentDecorator.asDecorator opts tx readDecorator
      Ls tx1 dd1)
    (hmeta : ∀ id ∈ Ls.flatten, ∃ m, findDocumentMetaByID c tx1 ns id = .ok m)
    (hdata : dd1.data = true →
      ∀ id ∈ Ls.flatten, ∃ p, findDocumentDataByID c tx1 ns id = .ok p) :
    ∃ docs, FindDocuments c ns opts tx = (docs, none) ∧
      docs.map (fun x => x.ID) = Ls.flatten ∧
      ∀ x ∈ docs, findDocumentMetaByID c tx1 ns x.ID = .ok x.Meta := by
  have hrun := runFindOptions_of_return _ _ opts tx tx1 readDecorator dd1 Ls hopts []
  simp only [List.nil_append] at hrun
  obtain ⟨docs, hdocs, hids, hmetas⟩ := findDocumentsByIDLoop_ok c tx1 ns Ls.flatten hmeta []
  simp only [List.nil_append] at hdocs
  have hlen : ¬ opts.length = 0 := by
    intro h0
    exact hne (List.length_eq_zero.mp h0)
  -- the documents after the optional hydration of the payload
  have hstep1 : ∃ docsA, (if dd1.data then hydrateData c tx1 ns docs else .ok docs) = .ok docsA ∧
      docsA.map (fun x => x.ID) = Ls.flatten ∧
      ∀ x ∈ docsA, findDocumentMetaByID c tx1 ns x.ID = .ok x.Meta := by
    by_cases hd : dd1.data = true
    · have hall : ∀ x ∈ docs, ∃ p, findDocumentDataByID c tx1 ns x.ID = .ok p := by
        intro x hx
        apply hdata hd
        rw [← hids]
        exact List.mem_map_of_mem (fun x => x.ID) hx
      obtain ⟨docsA, hA, hidsA, hmA⟩ := hydrateData_ok c tx1 ns docs hall
      refine ⟨docsA, by simp [hd, hA], hidsA.trans hids, ?_⟩
      intro x hx
      obtain ⟨y, hy, h1, h2⟩ := hmA x hx
      rw [h1, h2]
      exact hmetas y hy
    · exact ⟨docs, by simp [hd], hids, hmetas⟩
  obtain ⟨docsA, hA, hidsA, hmA⟩ := hstep1
  have hstep2 : ∃ docsB, (if dd1.labels then hydrateLabels tx1 docsA else .ok docsA) = .ok docsB ∧
      docsB.map (fun x => x.ID) = Ls.flatten ∧
      ∀ x ∈ docsB, findDocumentMetaByID c tx1 ns x.ID = .ok x.Meta := by
    by_cases hl : dd1.labels = true
    · obtain ⟨docsB, hB, hidsB, hmB⟩ := hydrateLabels_ok tx1 docsA
      refine ⟨docsB, by simp [hl, hB], hidsB.trans hidsA, ?_⟩
      intro x hx
      obtain ⟨y, hy, h1, h2⟩ := hmB x hx
      rw [h1, h2]
      exact hmA y hy
    · exact ⟨docsA, by simp [hl], hidsA, hmA⟩
  obtain ⟨docsB, hB, hidsB, hmB⟩ := hstep2
  refine ⟨docsB, ?_, hidsB, hmB⟩
  unfold FindDocuments View
  unfold readIndex readDecorator at hrun
  simp only [hlen, if_false, hrun, findDocumentsByID, hdocs, hA, hB]

/-- Claim C5. For a non-empty list of find-options that all succeed, option `i`
returning the ID list `L_i`, where every ID in them has a Meta record, on a store
that keeps the invariant of the data model (every ID with a Meta record has a
Data record): `FindDocuments` returns no error and one document per element of
`L_1 ++ ... ++ L_n`, in that order, with no deduplication and no intersection:
the `k`-th document has the `k`-th ID of the concatenation and the Meta stored for
it. In particular `FindDocuments(WhereID(a), WhereID(b))` returns the two
documents `a` and `b` in that order, and `FindDocuments(WhereID(a), WhereID(a))`
returns the document `a` twice. -/
theorem C5_find_concatenation (c : Codec) (ns : String)
    (opts : List (DocumentFindOptions Tx DocumentDecorator)) (tx tx1 : Tx)
    (Ls : List (List ID)) (dd1 : DocumentDecorator)
    (hne : opts ≠ [])
    (hopts : FindOptionsReturn readIndex DocumentDecorator.asDecorator opts tx readDecorator
      Ls tx1 dd1)
    (hmeta : ∀ id ∈ Ls.flatten, ∃ m, findDocumentMetaByID c tx1 ns id = .ok m)
    (hinv : MetaHasData c ns tx1) :
    (∃ docs, FindDocuments c ns opts tx = (docs, none) ∧
      docs.map (fun x => x.ID) = Ls.flatten ∧
      docs.length = Ls.flatten.length ∧
      (∀ (k : Nat) (x : Document), docs[k]? = some x →
        Ls.flatten[k]? = some x.ID ∧ findDocumentMetaByID c tx1 ns x.ID = .ok x.Meta)) ∧
    (∀ (a b : ID) (ma mb : DocumentMeta),
      findDocumentMetaByID c tx ns a = .ok ma → findDocumentMetaByID c tx ns b = .ok mb →
      FindDocuments c ns [WhereID a, WhereID b] tx
        = ([{ ID := a, Meta := ma, Data := none, Labels := [] },
            { ID := b, Meta := mb, Data := none, Labels := [] }], none)) ∧
    (∀ (a : ID) (ma : DocumentMeta), findDocumentMetaByID c tx ns a = .ok ma →
      FindDocuments c ns [WhereID a, WhereID a] tx
        = ([{ ID := a, Meta := ma, Data := none, Labels := [] },
            { ID := a, Meta := ma, Data := none, Labels := [] }], none)) := by
  refine ⟨?_, fun a b ma mb ha hb => FindDocuments_whereID_pair c ns a b tx ma mb ha hb,
    fun a ma ha => FindDocuments_whereID_pair c ns a a tx ma ma ha ha⟩
  obtain ⟨docs, hfind, hids, hmetas⟩ := FindDocuments_concatenation c ns opts tx tx1 Ls dd1 hne
    hopts hmeta
    (fun _ id hid => by
      obtain ⟨m, hm⟩ := hmeta id hid
      exact hinv id m hm)
  refine ⟨docs, hfind, hids, ?_, ?_⟩
  · rw [← hids, List.length_map]
  · intro k x hk
    refine ⟨?_, hmetas x (List.getElem?_mem hk)⟩
    rw [← hids, List.getElem?_map, hk]
    rfl

theorem filterMatches_owner (o id : ID) (m : UserResourceMapping) :
    filterMatches { UserID := some o, ResourceType := none, ResourceID := some id,
                    UserType := none } m
      = (decide (m.UserID = o) && decide (m.ResourceID = id)) := by
  simp [filterMatches]

theorem removeOwners_writeIndex (id : ID) (owners : List ID) (tx : Tx) :
    removeOwners writeIndex id owners tx
      = (none, { tx with urms := (tx.urms.filter
          (fun m => !(decide (m.ResourceID = id) && owners.contains m.UserID))) }) := by
  induction owners generalizing tx with
  | nil => simp [removeOwners]
  | cons o rest ih =>
    have hstep : writeIndex.RemoveDocumentOwner id "org" o tx
        = (none, { tx with urms := (tx.urms.filter
            (fun m => !(decide (m.UserID = o) && decide (m.ResourceID = id)))) }) := by
      simp [writeIndex, DocumentIndex.asIndex, DocumentIndex.RemoveDocumentOwner,
        removeDocumentOwner, deleteUserResourceMapping, filterMatches_owner]
    simp only [removeOwners, hstep, ih, List.filter_filter]
    congr 2
    apply List.filter_congr
    intro m _
    by_cases h1 : m.ResourceID = id <;> by_cases h2 : m.UserID = o <;>
      simp [h1, h2, List.contains_cons]

theorem WithoutOwners_writeIndex (id : ID) (tx : Tx) :
    WithoutOwners id writeIndex tx
      = (none, { tx with urms := (tx.urms.filter
          (fun m => !(decide (m.ResourceID = id) &&
            (writeIndex.GetDocumentsAccessors id tx).1.1.contains m.UserID))) }) := by
  have hg : writeIndex.GetDocumentsAccessors id tx
      = (((writeIndex.GetDocumentsAccessors id tx).1.1, none), tx) := by
    simp [writeIndex, DocumentIndex.asIndex, DocumentIndex.GetDocumentsAccessors,
      findUserResourceMappings]
  unfold WithoutOwners
  rw [hg]
  simp only [removeOwners_writeIndex]

theorem deleteAtID_ok (c : Codec) (tx tx1 : Tx) (bucket : String) (id : ID)
    (h : deleteAtID c tx bucket id = (none, tx1)) :
    ∃ k es, c.encodeID id = .ok k ∧ lookupBucket tx.buckets bucket = some es ∧
      tx1 = { tx with buckets := replaceBucket tx.buckets bucket (entriesDelete es k) } := by
  unfold deleteAtID at h
  cases hk : c.encodeID id with
  | error e => simp [hk] at h
  | ok k =>
    cases hl : lookupBucket tx.buckets bucket with
    | none => simp [hk, Tx.Bucket, hl] at h
    | some es =>
      simp only [hk, Tx.Bucket, hl, Tx.Delete, Prod.mk.injEq, true_and] at h
      exact ⟨k, es, rfl, rfl, h.symm⟩

/-- What a successful `deleteDocument` did: only buckets changed, and the Meta
bucket of the namespace no longer holds the key of `id`. -/
theorem deleteDocument_ok (c : Codec) (tx tx1 : Tx) (ns : String) (id : ID)
    (h : deleteDocument c tx ns id = (none, tx1)) :
    tx1.urms = tx.urms ∧ tx1.labelMappings = tx.labelMappings ∧ tx1.labels = tx.labels ∧
      ∃ k em, c.encodeID id = .ok k ∧
        lookupBucket tx1.buckets (pathJoin ns documentMetaBucket) = some em ∧
        entriesGet em k = none := by
  unfold deleteDocument at h
  cases hf : findDocumentMetaByID c tx ns id with
  | error e => simp [hf] at h
  | ok m =>
    rcases hdm : deleteDocumentMeta c tx ns id with ⟨_ | e1, txm⟩
    · rcases hdd : deleteDocumentData c txm ns id with ⟨_ | e2, txd⟩
      · simp only [hf, hdm, hdd, Prod.mk.injEq, true_and] at h
        subst h
        obtain ⟨k, es, hk, hl, htxm⟩ := deleteAtID_ok c tx txm _ id hdm
        obtain ⟨k2, es2, _, _, htxd⟩ := deleteAtID_ok c txm txd _ id hdd
        have hmetam : lookupBucket txm.buckets (pathJoin ns documentMetaBucket)
            = some (entriesDelete es k) := by
          rw [htxm]
          exact lookupBucket_replaceBucket_same _ _ _ _ hl
        refine ⟨by rw [htxd, htxm], by rw [htxd, htxm], by rw [htxd, htxm],
          k, entriesDelete es k, hk, ?_, entriesGet_entriesDelete_same _ _⟩
        rw [htxd]
        simp only
        rw [lookupBucket_replaceBucket_ne _ _ _ _ (bucket_names_ne ns).symm]
        exact hmetam
      · simp [hf, hdm, hdd] at h
    · simp [hf, hdm] at h

/-- A successful `DeleteDocuments(WhereID(id))` is `WithoutOwners` followed by a
successful `deleteDocument`. -/
theorem DeleteDocuments_whereID_ok (c : Codec) (ns : String) (id : ID) (tx tx1 : Tx)
    (h : DeleteDocuments c ns [WhereID id] tx = (none, tx1)) :
    deleteDocument c (WithoutOwners id writeIndex tx).2 ns id = (none, tx1) := by
  have hw1 : (WithoutOwners id writeIndex tx).1 = none := by rw [WithoutOwners_writeIndex]
  generalize hres : WithoutOwners id writeIndex tx = res at hw1 ⊢
  obtain ⟨e0, txa⟩ := res
  simp only at hw1
  subst hw1
  unfold DeleteDocuments Update at h
  unfold writeIndex at hres
  simp only [runFindOptions, WhereID, List.nil_append, deleteLoop, hres] at h
  rcases hd : deleteDocument c txa ns id with ⟨_ | e, txd⟩
  · simp only [hd, Prod.mk.injEq, true_and] at h
    rw [h]
  · simp [hd] at h

theorem mem_accessorIDs (ms : List UserResourceMapping) (m : UserResourceMapping)
    (hm : m ∈ ms) (hk : m.MappingType = MappingType.OrgMappingType) :
    m.UserID ∈ accessorIDs ms := by
  induction ms with
  | nil => cases hm
  | cons x ms ih =>
    unfold accessorIDs
    rcases List.mem_cons.mp hm with hx | hx
    · subst hx
      simp [hk]
    · by_cases hu : x.MappingType = MappingType.UserMappingType
      · simp only [hu, if_true]
        exact ih hx
      · simp only [hu, if_false]
        exact List.mem_cons_of_mem _ (ih hx)

theorem accessorIDs_eq_nil (ms : List UserResourceMapping)
    (h : ∀ m ∈ ms, m.MappingType = MappingType.UserMappingType) : accessorIDs ms = [] := by
  induction ms with
  | nil => rfl
  | cons x ms ih =>
    unfold accessorIDs
    simp only [h x (List.mem_cons_self _ _), if_true]
    exact ih (fun m hm => h m (List.mem_cons_of_mem _ hm))

/-- Claim C7, as amended. After `DeleteDocuments(WhereID(id))` has succeeded, no
ownership edge with type Documents, resource `id`, role Owner and an org as
subject remains, so `GetDocumentsAccessors(id)` on a writable index returns the
empty list. No edge is added, and every edge whose subject is not one of the
owners found by the writable lookup is still there: an edge of role Member, or
with a user as subject, is not what the delete looks for. -/
theorem C7_delete_removes_owner_edges (c : Codec) (ns : String) (id : ID) (tx tx1 : Tx)
    (h : DeleteDocuments c ns [WhereID id] tx = (none, tx1)) :
    (∀ m ∈ tx1.urms, ¬ (m.ResourceType = ResourceType.DocumentsResourceType ∧
        m.ResourceID = id ∧ m.UserType = UserType.Owner ∧
        m.MappingType = MappingType.OrgMappingType)) ∧
    writeIndex.GetDocumentsAccessors id tx1 = (([], none), tx1) ∧
    (∀ m ∈ tx.urms, m.UserID ∉ (writeIndex.GetDocumentsAccessors id tx).1.1 → m ∈ tx1.urms) ∧
    (∀ m ∈ tx1.urms, m ∈ tx.urms) := by
  have hdel := DeleteDocuments_whereID_ok c ns id tx tx1 h
  obtain ⟨hurms, -, -, -⟩ := deleteDocument_ok c _ tx1 ns id hdel
  rw [WithoutOwners_writeIndex] at hurms
  simp only at hurms
  have hacc : (writeIndex.GetDocumentsAccessors id tx).1.1
      = accessorIDs (tx.urms.filter (filterMatches
          { UserID := none, ResourceType := some ResourceType.DocumentsResourceType,
            ResourceID := some id, UserType := some UserType.Owner })) := by
    simp [writeIndex, DocumentIndex.asIndex, DocumentIndex.GetDocumentsAccessors,
      findUserResourceMappings]
  have hnone : ∀ m ∈ tx1.urms, ¬ (m.ResourceType = ResourceType.DocumentsResourceType ∧
      m.ResourceID = id ∧ m.UserType = UserType.Owner ∧
      m.MappingType = MappingType.OrgMappingType) := by
    intro m hm ⟨h1, h2, h3, h4⟩
    rw [hurms, List.mem_filter] at hm
    obtain ⟨hmem, hkeep⟩ := hm
    have hin : m.UserID ∈ (writeIndex.GetDocumentsAccessors id tx).1.1 := by
      rw [hacc]
      apply mem_accessorIDs _ m _ h4
      rw [List.mem_filter]
      exact ⟨hmem, by simp [filterMatches, h1, h2, h3]⟩
    simp [h2, hin] at hkeep
  refine ⟨hnone, ?_, ?_, ?_⟩
  · have hnil : accessorIDs (tx1.urms.filter (filterMatches
          { UserID := none, ResourceType := some ResourceType.DocumentsResourceType,
            ResourceID := some id, UserType := some UserType.Owner })) = [] := by
      apply accessorIDs_eq_nil
      intro m hm
      rw [List.mem_filter] at hm
      obtain ⟨hmem, hmatch⟩ := hm
      simp only [filterMatches, Bool.and_eq_true, decide_eq_true_eq, Bool.true_and] at hmatch
      cases hk : m.MappingType with
      | UserMappingType => rfl
      | OrgMappingType => exact absurd ⟨hmatch.1.1, hmatch.1.2, hmatch.2, hk⟩ (hnone m hmem)
    simp [writeIndex, DocumentIndex.asIndex, DocumentIndex.GetDocumentsAccessors,
      findUserResourceMappings, hnil]
  · intro m hm hnot
    rw [hurms, List.mem_filter]
    refine ⟨hm, ?_⟩
    simp [hnot]
  · intro m hm
    rw [hurms, List.mem_filter] at hm
    exact hm.1

/-- Claim C8, as amended. `DeleteDocuments(WhereID(id))` removes no label edge:
after it has succeeded the label edges and the labels of the store are those
before the call, so a label lookup for `id` returns what it returned before. -/
theorem C8_delete_keeps_label_edges (c : Codec) (ns : String) (id : ID) (tx tx1 : Tx)
    (h : DeleteDocuments c ns [WhereID id] tx = (none, tx1)) :
    tx1.labelMappings = tx.labelMappings ∧
    (∀ f : LabelMappingFilter, resourceLabelMappings tx1 f = resourceLabelMappings tx f) ∧
    (∀ f : LabelMappingFilter, findResourceLabels tx1 f = findResourceLabels tx f) := by
  have hdel := DeleteDocuments_whereID_ok c ns id tx tx1 h
  obtain ⟨-, hlm, hl, -⟩ := deleteDocument_ok c _ tx1 ns id hdel
  rw [WithoutOwners_writeIndex] at hlm hl
  simp only at hlm hl
  refine ⟨hlm, ?_, ?_⟩
  · intro f
    simp only [resourceLabelMappings, hlm]
  · intro f
    simp only [findResourceLabels, resourceLabelMappings, hlm, hl]

/-- Claim C9, as amended. After `DeleteDocuments(WhereID(id))` has succeeded,
`FindDocuments(WhereID(id))` returns no documents and the not-found error of the
store: the Meta lookup of the deleted ID fails. -/
theorem C9_find_after_delete (c : Codec) (ns : String) (id : ID) (tx tx1 : Tx)
    (h : DeleteDocuments c ns [WhereID id] tx = (none, tx1)) :
    FindDocuments c ns [WhereID id] tx1 = ([], some ErrKeyNotFound) ∧
      ErrKeyNotFound.Code = ErrCode.ENotFound := by
  have hdel := DeleteDocuments_whereID_ok c ns id tx tx1 h
  obtain ⟨-, -, -, k, em, hk, hl, hg⟩ := deleteDocument_ok c _ tx1 ns id hdel
  refine ⟨?_, rfl⟩
  rw [FindDocuments_whereID]
  unfold findDocumentMetaByID
  rw [findByID_of_no_entry c c.unmarshalMeta tx1 _ id k em hk hl hg]

end kv

namespace influxdb

theorem tokenAuthorizedWhereScan_wildcard {σ : Type} (idx : DocumentIndex σ) (p : Permission)
    (ps : List Permission) (ids : List ID) (s : σ) (hp : isWildcard p = true) :
    tokenAuthorizedWhereScan idx (p :: ps) ids s = tokenAuthorizedWhereScan idx ps ids s := by
  simp only [isWildcard, Bool.and_eq_true, decide_eq_true_eq] at hp
  obtain ⟨⟨h1, h2⟩, h3⟩ := hp
  simp only [tokenAuthorizedWhereScan, h1, h2, h3]

theorem tokenAuthorizedWhereScan_filter {σ : Type} (idx : DocumentIndex σ)
    (ps : List Permission) (ids : List ID) (s : σ) :
    tokenAuthorizedWhereScan idx (ps.filter (fun p => !isWildcard p)) ids s
      = tokenAuthorizedWhereScan idx ps ids s := by
  induction ps generalizing ids s with
  | nil => rfl
  | cons p ps ih =>
    cases hp : isWildcard p with
    | true =>
      rw [tokenAuthorizedWhereScan_wildcard idx p ps ids s hp]
      simp only [List.filter_cons, hp, Bool.not_true, Bool.false_eq_true, if_false]
      exact ih ids s
    | false =>
      simp only [List.filter_cons, hp, Bool.not_false, if_true, tokenAuthorizedWhereScan, ih]

theorem tokenAuthorizedWhereScan_all_wildcards {σ : Type} (idx : DocumentIndex σ)
    (ps : List Permission) (ids : List ID) (s : σ) (h : ∀ p ∈ ps, isWildcard p = true) :
    tokenAuthorizedWhereScan idx ps ids s = (none, ids, s) := by
  induction ps with
  | nil => rfl
  | cons p ps ih =>
    rw [tokenAuthorizedWhereScan_wildcard idx p ps ids s (h p (List.mem_cons_self _ _))]
    exact ih (fun q hq => h q (List.mem_cons_of_mem _ hq))

/-- Claim C10, as amended. For an active token that holds the Write wildcard on
documents and every index state: a permission of wildcard shape contributes no ID
to `AuthorizedWhere(token)`, whose first evaluation returns what it returns for
the token without its wildcard permissions (the empty list, with no error, when
the token holds nothing else); the wildcard token reads any single document `d`
through `AuthorizedWhereID(token, d)`, which returns `[d]` whenever
`GetDocumentsAccessors(d)` succeeds. -/
theorem C10_wildcard_token_listing {σ δ : Type} (a : Authorization)
    (hactive : a.IsActive = true)
    (hwild : documentsWildcard Action.WriteAction ∈ a.Permissions)
    (idx : DocumentIndex σ) (dd : DocumentDecorator δ) (s : σ) (d0 : δ) :
    AuthorizedWhere (Authorizer.token a) idx dd s d0
        = AuthorizedWhere (Authorizer.token (withoutWildcards a)) idx dd s d0 ∧
    ((∀ p ∈ a.Permissions, isWildcard p = true) →
        AuthorizedWhere (Authorizer.token a) idx dd s d0 = (([], none), s, d0)) ∧
    (∀ (d : ID) (O : List ID) (s1 : σ), idx.GetDocumentsAccessors d s = ((O, none), s1) →
        AuthorizedWhereID (Authorizer.token a) d idx dd s d0 = (([d], none), s1, d0)) := by
  have hact2 : (withoutWildcards a).IsActive = true := hactive
  refine ⟨?_, ?_, ?_⟩
  · have hact3 : a.Active = true := hactive
    simp only [AuthorizedWhere, AuthorizedWhereCall, TokenAuthorizedWhereCall,
      withoutWildcards, tokenAuthorizedWhereScan_filter, Authorization.IsActive, hact3]
  · intro hall
    simp only [AuthorizedWhere, AuthorizedWhereCall, TokenAuthorizedWhereCall, hactive,
      tokenAuthorizedWhereScan_all_wildcards idx a.Permissions [] s hall]
    rfl
  · intro d O s1 hO
    have hscan : tokenAuthorizedWhereIDScan d O a.Permissions = true := by
      rw [tokenAuthorizedWhereIDScan_iff]
      exact ⟨_, hwild, rfl⟩
    simp only [AuthorizedWhereID, TokenAuthorizedWhereID, hactive, hO, hscan]
    rfl

end influxdb

/-! ## The theorems at concrete inputs -/

namespace Examples

open influxdb kv

/-- The store with the documents 5 and 6 keeps the invariant of the data model. -/
theorem storeTwo_metaHasData : MetaHasData codec "ns" storeTwo := by
  intro id m hm
  obtain ⟨k, es, v, hk, hl, hg, -⟩ := findByID_ok_entry codec codec.unmarshalMeta storeTwo
    (pathJoin "ns" documentMetaBucket) id m hm
  have hes : es = [([5], [1, 97, 49]), ([6], [1, 98, 50])] := by
    have h2 : lookupBucket storeTwo.buckets (pathJoin "ns" documentMetaBucket)
        = some [([5], [1, 97, 49]), ([6], [1, 98, 50])] := rfl
    rw [h2] at hl
    exact (Option.some.inj hl).symm
  subst hes
  have hid : id = 5 ∨ id = 6 := by
    by_cases h0 : id = 0
    · simp [codec, h0] at hk
    · simp only [codec, h0, if_false, Except.ok.injEq] at hk
      subst hk
      by_cases h5 : id = 5
      · exact Or.inl h5
      · by_cases h6 : id = 6
        · exact Or.inr h6
        · have h5b : ¬ 5 = id := fun h => h5 h.symm
          have h6b : ¬ 6 = id := fun h => h6 h.symm
          simp [entriesGet, h5b, h6b] at hg
  rcases hid with h | h
  · subst h
    exact ⟨some "x", rfl⟩
  · subst h
    exact ⟨some "y", rfl⟩

/-- Claim C1 at the token with a Write permission on the documents of org 1, which
owns document 5. -/
theorem C1_token_authorized_iff_witness :
    writeIndex.GetDocumentsAccessors 5 store = (([1], none), store) ∧
    (Authorized (Authorizer.token orgToken) 5 writeIndex store).1 = none :=
  ⟨rfl, (C1_token_authorized_iff orgToken 5 writeIndex store store [1] rfl).2.1.mpr
    ⟨rfl, _, List.mem_singleton_self _, by decide, rfl,
      Or.inr (Or.inr ⟨1, rfl, by decide⟩)⟩⟩

/-- Claim C2 fails as stated: for the active token whose only permission is the
Read wildcard, `AuthorizedWhereID` returns `[5]` with no error on an index on
which `Authorized` returns an Unauthorized error. -/
theorem C2_counterexample :
    (AuthorizedWhereID (Authorizer.token readerToken) 5 readIndex
        DocumentDecorator.asDecorator store readDecorator).1 = ([5], none) ∧
    (Authorized (Authorizer.token readerToken) 5 readIndex store).1
      = some { Code := ErrCode.EUnauthorized, Msg := "authorization cannot access document" } ∧
    ¬ ((AuthorizedWhereID (Authorizer.token readerToken) 5 readIndex
          DocumentDecorator.asDecorator store readDecorator).1 = ([5], none) ↔
        (Authorized (Authorizer.token readerToken) 5 readIndex store).1 = none) := by
  refine ⟨rfl, rfl, ?_⟩
  intro h
  have h1 := h.mp rfl
  exact absurd h1 (by decide)

/-- Claim C3 at an inactive token that holds the Write wildcard. -/
theorem C3_inactive_token_unauthorized_witness :
    inactiveToken.IsActive = false ∧
    ∃ msg, Authorized (Authorizer.token inactiveToken) 5 writeIndex store
      = (some { Code := ErrCode.EUnauthorized, Msg := msg }, store) :=
  ⟨rfl, (C3_inactive_token_unauthorized allowed inactiveToken rfl 5 "acme" [] writeIndex
    DocumentDecorator.asDecorator store readDecorator).1⟩

/-- Claim C4 at a create whose second option names an organisation that does not
exist: the first option has added an owner edge, and the store is unchanged. -/
theorem C4_create_atomic_witness :
    ∃ d1 e, CreateDocument codec 6 "ns" newDoc ([WithOrg "acme"] ++ WithOrg "nosuch" :: []) store
        = ((d1, some e), store) ∧ d1.ID = 6 :=
  ⟨_, _, C4_create_atomic codec 6 "ns" newDoc _ [WithOrg "acme"] [] (WithOrg "nosuch")
    store _ _ _ _ rfl rfl rfl⟩

/-- Claim C5 at `WhereID(5)`, `WhereID(6)`, `WhereID(5)` and `IncludeContent` on
the store that holds the documents 5 and 6: three documents come back, with the
IDs 5, 6 and 5. -/
theorem C5_find_concatenation_witness :
    MetaHasData codec "ns" storeTwo ∧
    ∃ docs, FindDocuments codec "ns" [WhereID 5, WhereID 6, WhereID 5, IncludeContent] storeTwo
        = (docs, none) ∧
      docs.map (fun x => x.ID) = [5, 6, 5] ∧ docs.length = 3 :=
  have h := (C5_find_concatenation codec "ns" [WhereID 5, WhereID 6, WhereID 5, IncludeContent]
    storeTwo storeTwo [[5], [6], [5], []]
    { data := true, labels := false, accessors := false, writable := false }
    (by simp)
    (FindOptionsReturn.cons _ _ _ _ _ _ _ _ _ _ rfl
      (FindOptionsReturn.cons _ _ _ _ _ _ _ _ _ _ rfl
        (FindOptionsReturn.cons _ _ _ _ _ _ _ _ _ _ rfl
          (FindOptionsReturn.cons _ _ _ _ _ _ _ _ _ _ rfl (FindOptionsReturn.nil _ _)))))
    (by
      intro id hid
      simp only [List.flatten, List.append_nil, List.singleton_append, List.mem_cons,
        List.mem_singleton, List.not_mem_nil, or_false] at hid
      rcases hid with h | h | h
      · subst h
        exact ⟨meta5, rfl⟩
      · subst h
        exact ⟨{ Name := "b", Version := "2" }, rfl⟩
      · subst h
        exact ⟨meta5, rfl⟩)
    storeTwo_metaHasData).1
  match h with
  | ⟨docs, h1, h2, h3, _⟩ => ⟨storeTwo_metaHasData, docs, h1, h2, h3⟩

/-- Claim C6 at the creation of a new document with ID 6. -/
theorem C6_create_find_roundtrip_witness :
    (CreateDocument codec 6 "ns" newDoc [] store).1.2 = none ∧
    FindDocuments codec "ns" [WhereID 6, IncludeContent]
        (CreateDocument codec 6 "ns" newDoc [] store).2
      = ([{ ID := 6, Meta := newDoc.Meta, Data := newDoc.Data, Labels := [] }], none) :=
  ⟨rfl, (C6_create_find_roundtrip codec 6 "ns" newDoc { newDoc with ID := 6 } store
    (CreateDocument codec 6 "ns" newDoc [] store).2
    (by
      intro b hb
      cases hb
      rfl)
    (by
      intro b hb
      cases hb
      rfl)
    rfl).1⟩

/-- Claim C7 fails as stated: document 5 has a Meta record, the delete succeeds,
and the Member-role edge from org 2 to document 5 is still in the store, so
`GetDocumentsAccessors(5)` on a read-only index returns `[2]`. -/
theorem C7_counterexample :
    findDocumentMetaByID codec store "ns" 5 = .ok meta5 ∧
    (DeleteDocuments codec "ns" [WhereID 5] store).1 = none ∧
    ({ UserID := 2, UserType := UserType.Member, MappingType := MappingType.OrgMappingType,
       ResourceType := ResourceType.DocumentsResourceType, ResourceID := 5 }
        : UserResourceMapping) ∈ (DeleteDocuments codec "ns" [WhereID 5] store).2.urms ∧
    (readIndex.GetDocumentsAccessors 5 (DeleteDocuments codec "ns" [WhereID 5] store).2).1
      = ([2], none) :=
  ⟨rfl, rfl, by decide, rfl⟩

/-- Claim C7, as amended, at the delete of document 5. -/
theorem C7_delete_removes_owner_edges_witness :
    DeleteDocuments codec "ns" [WhereID 5] store
      = (none, (DeleteDocuments codec "ns" [WhereID 5] store).2) ∧
    writeIndex.GetDocumentsAccessors 5 (DeleteDocuments codec "ns" [WhereID 5] store).2
      = (([], none), (DeleteDocuments codec "ns" [WhereID 5] store).2) :=
  ⟨rfl, (C7_delete_removes_owner_edges codec "ns" 5 store _ rfl).2.1⟩

/-- Claim C8 fails as stated: document 6 is created with `WithLabel("red")`, which
adds its label edge; the delete of document 6 succeeds, and the label edge is
still in the store, so the label lookup for document 6 still returns the label. -/
theorem C8_counterexample :
    (CreateDocument codec 6 "ns" newDoc [WithLabel "red"] store).1.2 = none ∧
    (DeleteDocuments codec "ns" [WhereID 6]
      (CreateDocument codec 6 "ns" newDoc [WithLabel "red"] store).2).1 = none ∧
    ({ LabelID := 20, ResourceType := ResourceType.DocumentsResourceType, ResourceID := 6 }
        : LabelMapping) ∈ (DeleteDocuments codec "ns" [WhereID 6]
      (CreateDocument codec 6 "ns" newDoc [WithLabel "red"] store).2).2.labelMappings ∧
    findResourceLabels (DeleteDocuments codec "ns" [WhereID 6]
        (CreateDocument codec 6 "ns" newDoc [WithLabel "red"] store).2).2
        { ResourceID := 6, ResourceType := ResourceType.DocumentsResourceType }
      = ([{ ID := 20, Name := "red" }], none) :=
  ⟨rfl, rfl, by decide, rfl⟩

/-- Claim C8, as amended, at the delete of document 5. -/
theorem C8_delete_keeps_label_edges_witness :
    DeleteDocuments codec "ns" [WhereID 5] store
      = (none, (DeleteDocuments codec "ns" [WhereID 5] store).2) ∧
    (DeleteDocuments codec "ns" [WhereID 5] store).2.labelMappings = store.labelMappings :=
  ⟨rfl, (C8_delete_keeps_label_edges codec "ns" 5 store _ rfl).1⟩

/-- Claim C9 fails as stated: document 5 has a Meta record, the delete succeeds,
and `FindDocuments(WhereID(5))` then returns an error. -/
theorem C9_counterexample :
    findDocumentMetaByID codec store "ns" 5 = .ok meta5 ∧
    (DeleteDocuments codec "ns" [WhereID 5] store).1 = none ∧
    FindDocuments codec "ns" [WhereID 5] (DeleteDocuments codec "ns" [WhereID 5] store).2
      = ([], some { Code := ErrCode.ENotFound, Msg := "key not found" }) ∧
    (FindDocuments codec "ns" [WhereID 5]
      (DeleteDocuments codec "ns" [WhereID 5] store).2).2 ≠ none :=
  ⟨rfl, rfl, rfl, by decide⟩

/-- Claim C9, as amended, at the delete of document 5. -/
theorem C9_find_after_delete_witness :
    DeleteDocuments codec "ns" [WhereID 5] store
      = (none, (DeleteDocuments codec "ns" [WhereID 5] store).2) ∧
    FindDocuments codec "ns" [WhereID 5] (DeleteDocuments codec "ns" [WhereID 5] store).2
      = ([], some ErrKeyNotFound) :=
  ⟨rfl, (C9_find_after_delete codec "ns" 5 store _ rfl).1⟩

/-- Claim C10 fails as stated: the active token holds the Write wildcard, document
5 has ownership edges in the index, and the listing `AuthorizedWhere` returns the
empty list. -/
theorem C10_counterexample :
    writerToken.IsActive = true ∧
    documentsWildcard Action.WriteAction ∈ writerToken.Permissions ∧
    (readIndex.GetDocumentsAccessors 5 store).1 = ([1, 2], none) ∧
    (AuthorizedWhere (Authorizer.token writerToken) readIndex DocumentDecorator.asDecorator
      store readDecorator).1 = ([], none) ∧
    5 ∉ (AuthorizedWhere (Authorizer.token writerToken) readIndex DocumentDecorator.asDecorator
      store readDecorator).1.1 :=
  ⟨rfl, by decide, rfl, rfl, by decide⟩

/-- Claim C10, as amended, at the token whose only permission is the Write
wildcard. -/
theorem C10_wildcard_token_listing_witness :
    writerToken.IsActive = true ∧
    documentsWildcard Action.WriteAction ∈ writerToken.Permissions ∧
    AuthorizedWhereID (Authorizer.token writerToken) 5 readIndex DocumentDecorator.asDecorator
      store readDecorator = (([5], none), store, readDecorator) :=
  ⟨rfl, by decide, (C10_wildcard_token_listing writerToken rfl (by decide) readIndex
    DocumentDecorator.asDecorator store readDecorator).2.2 5 [1, 2] store rfl⟩

end Examples

/-! ## Tokens scoped to one org, and the listing of a token -/

namespace influxdb

/-- The scan of `TokenAuthorizedWhere` over permissions that are all of type
Documents with OrgID `o` and no ID keeps an invariant `P` of the collected IDs,
when every ID that `GetAccessorsDocuments("org", o)` returns in a state reached
(`Q`) satisfies `P`. -/
theorem tokenAuthorizedWhereScan_org_scoped {σ : Type} (idx : DocumentIndex σ) (o : ID)
    (P : ID → Prop) (Q : σ → Prop)
    (hQ : ∀ s1, Q s1 → Q (idx.GetAccessorsDocuments "org" o s1).2)
    (hP : ∀ s1 id, Q s1 → id ∈ (idx.GetAccessorsDocuments "org" o s1).1.1 → P id)
    (ps : List Permission)
    (hps : ∀ p ∈ ps, p.Resource.Typ = ResourceType.DocumentsResourceType ∧
      p.Resource.OrgID = some o ∧ p.Resource.ID = none)
    (ids : List ID) (s : σ) (hs : Q s) (hids : ∀ id ∈ ids, P id) :
    ∀ id ∈ (tokenAuthorizedWhereScan idx ps ids s).2.1, P id := by
  induction ps generalizing ids s with
  | nil => simpa [tokenAuthorizedWhereScan] using hids
  | cons p ps ih =>
    obtain ⟨h1, h2, h3⟩ := hps p (List.mem_cons_self _ _)
    have hrest := fun q hq => hps q (List.mem_cons_of_mem _ hq)
    have hQ1 := hQ s hs
    have hP1 := hP s
    rcases hg : idx.GetAccessorsDocuments "org" o s with ⟨⟨oids, _ | err⟩, s1⟩
    · simp only [tokenAuthorizedWhereScan, h1, h2, h3, hg]
      rw [hg] at hQ1 hP1
      apply ih hrest _ _ hQ1
      intro id hid
      rcases List.mem_append.mp hid with h | h
      · exact hids id h
      · exact hP1 id hs h
    · simp only [tokenAuthorizedWhereScan, h1, h2, h3, hg]
      exact hids

/-- The scan of `TokenAuthorizedWhere` over permissions that are all of type
Documents with OrgID `o` and no ID makes one call `GetAccessorsDocuments("org", o)`
per permission and appends what the calls return. -/
theorem tokenAuthorizedWhereScan_orgCalls {σ : Type} (idx : DocumentIndex σ) (o : ID)
    (ps : List Permission)
    (hps : ∀ p ∈ ps, p.Resource.Typ = ResourceType.DocumentsResourceType ∧
      p.Resource.OrgID = some o ∧ p.Resource.ID = none)
    (ids : List ID) (s : σ) :
    tokenAuthorizedWhereScan idx ps ids s
      = ((orgCalls idx o ps.length s).2.1, ids ++ (orgCalls idx o ps.length s).1.flatten,
          (orgCalls idx o ps.length s).2.2) := by
  induction ps generalizing ids s with
  | nil => simp [tokenAuthorizedWhereScan, orgCalls]
  | cons p ps ih =>
    obtain ⟨h1, h2, h3⟩ := hps p (List.mem_cons_self _ _)
    have hrest := fun q hq => hps q (List.mem_cons_of_mem _ hq)
    rcases hg : idx.GetAccessorsDocuments "org" o s with ⟨⟨oids, _ | err⟩, s1⟩
    · simp only [tokenAuthorizedWhereScan, h1, h2, h3, hg, List.length_cons, orgCalls]
      rw [ih hrest (ids ++ oids) s1]
      simp
    · simp [tokenAuthorizedWhereScan, h1, h2, h3, hg, orgCalls]

/-- Claim C11, as amended. For an active token whose permissions are all of type
Documents with OrgID `o` and no resource ID, and an index on which
`GetDocumentsAccessors(d)` succeeds with the accessors `O`: if `o` is not in `O`,
or the token holds no permission, `Authorized(token)` on `d` and
`AuthorizedWhereID(token, d)` both return an Unauthorized error; if `o` is in `O`
and the token holds a permission, `AuthorizedWhereID(token, d)` returns `[d]`, and
`Authorized(token)` succeeds when one of the permissions has action Write. The
first evaluation of `AuthorizedWhere(token)` makes one call
`GetAccessorsDocuments("org", o)` per permission and returns exactly what these
calls return, in order, or no IDs and the error of the call that fails; so on an
index whose call leaves the state as it is, every ID returned is one that
`GetAccessorsDocuments("org", o)` returns. -/
theorem C11_org_scoped_token {σ δ : Type} (a : Authorization) (o d : ID) (O : List ID)
    (idx : DocumentIndex σ) (dd : DocumentDecorator δ) (s s1 : σ) (d0 : δ)
    (hactive : a.IsActive = true)
    (hperms : ∀ p ∈ a.Permissions, p.Resource.Typ = ResourceType.DocumentsResourceType ∧
      p.Resource.OrgID = some o ∧ p.Resource.ID = none)
    (hO : idx.GetDocumentsAccessors d s = ((O, none), s1)) :
    (o ∉ O ∨ a.Permissions = [] →
      (∃ msg, Authorized (Authorizer.token a) d idx s
        = (some { Code := ErrCode.EUnauthorized, Msg := msg }, s1)) ∧
      (∃ msg, AuthorizedWhereID (Authorizer.token a) d idx dd s d0
        = (([], some { Code := ErrCode.EUnauthorized, Msg := msg }), s1, d0))) ∧
    (o ∈ O → a.Permissions ≠ [] →
      AuthorizedWhereID (Authorizer.token a) d idx dd s d0 = (([d], none), s1, d0) ∧
      ((∃ p ∈ a.Permissions, p.Action = Action.WriteAction) →
        Authorized (Authorizer.token a) d idx s = (none, s1))) ∧
    (AuthorizedWhere (Authorizer.token a) idx dd s d0
      = (match orgCalls idx o a.Permissions.length s with
         | (Ls, none, s2) => ((Ls.flatten, none), s2, d0)
         | (_, some err, s2) => (([], some err), s2, d0))) ∧
    ((idx.GetAccessorsDocuments "org" o s).2 = s →
      ∀ id ∈ (AuthorizedWhere (Authorizer.token a) idx dd s d0).1.1,
        id ∈ (idx.GetAccessorsDocuments "org" o s).1.1) := by
  have hgrant : ∀ p ∈ a.Permissions, (permissionGrants d O p = true ↔ o ∈ O) := by
    intro p hp
    obtain ⟨h1, h2, h3⟩ := hperms p hp
    rw [permissionGrants_iff]
    simp [h1, h2, h3]
  refine ⟨?_, ?_, ?_, ?_⟩
  · intro hno
    have hscan1 : tokenAuthorizedScan d O a.Permissions = false := by
      rw [Bool.eq_false_iff]
      intro h
      rw [tokenAuthorizedScan_iff] at h
      obtain ⟨p, hp, _, hg⟩ := h
      rcases hno with hno | hno
      · exact hno ((hgrant p hp).mp hg)
      · rw [hno] at hp
        cases hp
    have hscan2 : tokenAuthorizedWhereIDScan d O a.Permissions = false := by
      rw [Bool.eq_false_iff]
      intro h
      rw [tokenAuthorizedWhereIDScan_iff] at h
      obtain ⟨p, hp, hg⟩ := h
      rcases hno with hno | hno
      · exact hno ((hgrant p hp).mp hg)
      · rw [hno] at hp
        cases hp
    refine ⟨⟨"authorization cannot access document", ?_⟩,
      ⟨"authorization cannot access document", ?_⟩⟩
    · simp [Authorized, TokenAuthorized, hactive, hO, hscan1]
    · simp [AuthorizedWhereID, TokenAuthorizedWhereID, hactive, hO, hscan2]
  · intro hin hne
    constructor
    · have hscan2 : tokenAuthorizedWhereIDScan d O a.Permissions = true := by
        rw [tokenAuthorizedWhereIDScan_iff]
        obtain ⟨p, hp⟩ := List.exists_mem_of_ne_nil _ hne
        exact ⟨p, hp, (hgrant p hp).mpr hin⟩
      simp [AuthorizedWhereID, TokenAuthorizedWhereID, hactive, hO, hscan2]
    · rintro ⟨p, hp, hw⟩
      have hscan1 : tokenAuthorizedScan d O a.Permissions = true := by
        rw [tokenAuthorizedScan_iff]
        exact ⟨p, hp, by simp [hw], (hgrant p hp).mpr hin⟩
      simp [Authorized, TokenAuthorized, hactive, hO, hscan1]
  · simp only [AuthorizedWhere, AuthorizedWhereCall, TokenAuthorizedWhereCall, hactive,
      tokenAuthorizedWhereScan_orgCalls idx o a.Permissions hperms [] s]
    rcases hc : orgCalls idx o a.Permissions.length s with ⟨Ls, _ | err, s2⟩
    · simp
    · simp
  · intro hstate
    have h := tokenAuthorizedWhereScan_org_scoped idx o
      (fun id => id ∈ (idx.GetAccessorsDocuments "org" o s).1.1) (fun s2 => s2 = s)
      (fun s2 hs2 => by rw [hs2]; exact hstate)
      (fun s2 id hs2 hid => by rw [hs2] at hid; exact hid) a.Permissions hperms [] s rfl
      (by simp)
    simp only [AuthorizedWhere, AuthorizedWhereCall, TokenAuthorizedWhereCall, hactive]
    rcases hsc : tokenAuthorizedWhereScan idx a.Permissions [] s with ⟨_ | err, ids1, s2⟩
    · simpa [hsc] using h
    · simp

end influxdb

/-! ## The options that take an org name -/

namespace influxdb

/-- What `TokenAuthorizedWhereOrg` does once the org name has resolved to `o`: the
permission it asks `Allowed` about has type Orgs. -/
theorem TokenAuthorizedWhereOrg_gate {σ δ : Type} (Allowed : Authorization → Permission → Bool)
    (a : Authorization) (org : String) (idx : DocumentIndex σ) (dd : DocumentDecorator δ)
    (s s1 : σ) (d0 : δ) (o : ID)
    (horg : idx.FindOrganizationByName org s = ((o, none), s1)) :
    (Allowed a { Action := Action.ReadAction,
                 Resource := { Typ := ResourceType.OrgsResourceType, ID := none,
                               OrgID := some o } } = true →
      AuthorizedWhereOrg Allowed (Authorizer.token a) org idx dd s d0
        = ((idx.GetAccessorsDocuments "org" o s1).1, (idx.GetAccessorsDocuments "org" o s1).2,
            d0)) ∧
    (Allowed a { Action := Action.ReadAction,
                 Resource := { Typ := ResourceType.OrgsResourceType, ID := none,
                               OrgID := some o } } = false →
      AuthorizedWhereOrg Allowed (Authorizer.token a) org idx dd s d0
        = (([], some { Code := ErrCode.EUnauthorized,
                       Msg := "authorizer cannot access documents" }), s1, d0)) := by
  constructor <;> intro h <;>
    simp [AuthorizedWhereOrg, TokenAuthorizedWhereOrg, horg, h]

/-- Claim C13. `AuthorizedWithOrg(a, org)` on every index. For an identity that
is not a token: when the org name does not resolve, or `IsOrgAccessor` on the
resolved org returns an error, that error is returned and the state is the state
after that call; otherwise the result is the result of
`AddDocumentOwner(d, "org", o)` in the state after the membership check. For a
token: an inactive token gets Unauthorized with the state untouched; an active
one gets the error of the name resolution, or Unauthorized when it is not allowed
the permission with action Write, type Documents and OrgID `o`, and otherwise the
result of `AddDocumentOwner(d, "org", o)`. On the index of the store, whenever
the option returns an error the store is the store before the call, so no owner
edge has been added. -/
theorem C13_authorizedWithOrg_gate {σ : Type} (Allowed : Authorization → Permission → Bool)
    (u : ID) (t : Authorization) (org : String) (d : ID) (idx : DocumentIndex σ) (s : σ) :
    (∀ x e s1, idx.FindOrganizationByName org s = ((x, some e), s1) →
      AuthorizedWithOrg Allowed (Authorizer.ambient u) org d idx s = (some e, s1)) ∧
    (∀ o s1 e s2, idx.FindOrganizationByName org s = ((o, none), s1) →
      idx.IsOrgAccessor u o s1 = (some e, s2) →
      AuthorizedWithOrg Allowed (Authorizer.ambient u) org d idx s = (some e, s2)) ∧
    (∀ o s1 s2, idx.FindOrganizationByName org s = ((o, none), s1) →
      idx.IsOrgAccessor u o s1 = (none, s2) →
      AuthorizedWithOrg Allowed (Authorizer.ambient u) org d idx s
        = idx.AddDocumentOwner d "org" o s2) ∧
    (t.IsActive = false →
      ∃ msg, AuthorizedWithOrg Allowed (Authorizer.token t) org d idx s
        = (some { Code := ErrCode.EUnauthorized, Msg := msg }, s)) ∧
    (t.IsActive = true → ∀ x e s1, idx.FindOrganizationByName org s = ((x, some e), s1) →
      AuthorizedWithOrg Allowed (Authorizer.token t) org d idx s = (some e, s1)) ∧
    (t.IsActive = true → ∀ o s1, idx.FindOrganizationByName org s = ((o, none), s1) →
      Allowed t { Action := Action.WriteAction,
                  Resource := { Typ := ResourceType.DocumentsResourceType, ID := none,
                                OrgID := some o } } = false →
      ∃ msg, AuthorizedWithOrg Allowed (Authorizer.token t) org d idx s
        = (some { Code := ErrCode.EUnauthorized, Msg := msg }, s1)) ∧
    (t.IsActive = true → ∀ o s1, idx.FindOrganizationByName org s = ((o, none), s1) →
      Allowed t { Action := Action.WriteAction,
                  Resource := { Typ := ResourceType.DocumentsResourceType, ID := none,
                                OrgID := some o } } = true →
      AuthorizedWithOrg Allowed (Authorizer.token t) org d idx s
        = idx.AddDocumentOwner d "org" o s1) ∧
    (∀ (a : Authorizer) (tx : kv.Tx),
      (AuthorizedWithOrg Allowed a org d kv.writeIndex tx).1 ≠ none →
        (AuthorizedWithOrg Allowed a org d kv.writeIndex tx).2 = tx) := by
  refine ⟨?_, ?_, ?_, ?_, ?_, ?_, ?_, ?_⟩
  · intro x e s1 h
    simp [AuthorizedWithOrg, h]
  · intro o s1 e s2 h1 h2
    simp [AuthorizedWithOrg, h1, Authorizer.GetUserID, h2]
  · intro o s1 s2 h1 h2
    simp [AuthorizedWithOrg, h1, Authorizer.GetUserID, h2]
  · intro h
    exact ⟨"authorization cannot add org as document owner",
      by simp [AuthorizedWithOrg, TokenAuthorizedWithOrg, h]⟩
  · intro h x e s1 h1
    simp [AuthorizedWithOrg, TokenAuthorizedWithOrg, h, h1]
  · intro h o s1 h1 h2
    exact ⟨"authorization cannot add org as document owner",
      by simp [AuthorizedWithOrg, TokenAuthorizedWithOrg, h, h1, h2]⟩
  · intro h o s1 h1 h2
    simp [AuthorizedWithOrg, TokenAuthorizedWithOrg, h, h1, h2]
  · intro a tx
    have hfind : ∀ tx1 : kv.Tx, (kv.writeIndex.FindOrganizationByName org tx1).2 = tx1 := by
      intro tx1
      simp only [kv.writeIndex, kv.DocumentIndex.asIndex, kv.DocumentIndex.FindOrganizationByName]
      cases kv.findOrganizationByName tx1 org <;> rfl
    have hacc : ∀ (v o : ID) (tx1 : kv.Tx), (kv.writeIndex.IsOrgAccessor v o tx1).2 = tx1 := by
      intro v o tx1
      simp only [kv.writeIndex, kv.DocumentIndex.asIndex, kv.DocumentIndex.IsOrgAccessor,
        kv.findUserResourceMappings]
      split_ifs <;> rfl
    have hadd : ∀ (o : ID) (tx1 : kv.Tx), (kv.writeIndex.AddDocumentOwner d "org" o tx1).1 ≠ none →
        (kv.writeIndex.AddDocumentOwner d "org" o tx1).2 = tx1 := by
      intro o tx1
      simp only [kv.writeIndex, kv.DocumentIndex.asIndex, kv.DocumentIndex.AddDocumentOwner,
        kv.createUserResourceMapping]
      cases kv.DocumentIndex.ownerExists { writable := true } "org" o tx1 <;> simp
    cases a with
    | token t1 =>
      simp only [AuthorizedWithOrg, TokenAuthorizedWithOrg]
      rcases Bool.eq_false_or_eq_true t1.IsActive with hact | hact
      · simp only [hact, Bool.not_true, Bool.false_eq_true, if_false]
        have h1 := hfind tx
        rcases hf : kv.writeIndex.FindOrganizationByName org tx with ⟨⟨o, _ | e⟩, tx1⟩
        · rw [hf] at h1
          simp only at h1
          subst h1
          simp only
          split
          · simp
          · exact hadd o _
        · rw [hf] at h1
          simp only at h1
          subst h1
          simp
      · simp [hact]
    | ambient v =>
      simp only [AuthorizedWithOrg, Authorizer.GetUserID]
      have h1 := hfind tx
      rcases hf : kv.writeIndex.FindOrganizationByName org tx with ⟨⟨o, _ | e⟩, tx1⟩
      · rw [hf] at h1
        simp only at h1
        subst h1
        simp only
        have h2 := hacc v o tx1
        rcases hi : kv.writeIndex.IsOrgAccessor v o tx1 with ⟨_ | e, tx2⟩
        · rw [hi] at h2
          simp only at h2
          subst h2
          exact hadd o _
        · rw [hi] at h2
          simp only at h2
          subst h2
          simp
      · rw [hf] at h1
        simp only at h1
        subst h1
        simp

end influxdb

/-! ## `UpdateDocument` -/

namespace kv

open influxdb

theorem entriesGet_entriesPut_ne (es : List (Bytes × Bytes)) (k k1 v : Bytes) (h : k1 ≠ k) :
    entriesGet (entriesPut es k v) k1 = entriesGet es k1 := by
  have h2 : ¬ k = k1 := fun h3 => h h3.symm
  induction es with
  | nil => simp [entriesPut, entriesGet, h2]
  | cons e es ih =>
    obtain ⟨k0, v0⟩ := e
    unfold entriesPut
    by_cases h1 : k0 = k
    · subst h1
      simp [entriesGet, h2]
    · by_cases h3 : bytesLe k k0 = true
      · simp [h1, h3, entriesGet, h2]
      · simp only [h1, h3, if_false, entriesGet, ih]

/-- Reading after one `Put`: the written key of the written bucket holds the new
value, every other key of every bucket holds what it held. -/
theorem Tx.Get_after_put (tx : Tx) (b : String) (es : List (Bytes × Bytes)) (k v : Bytes)
    (hl : lookupBucket tx.buckets b = some es) (b1 : String) (k1 : Bytes) :
    Tx.Get { tx with buckets := replaceBucket tx.buckets b (entriesPut es k v) } b1 k1
      = if b1 = b ∧ k1 = k then .ok v else tx.Get b1 k1 := by
  by_cases hb : b1 = b
  · subst hb
    have h1 := lookupBucket_replaceBucket_same tx.buckets b1 es (entriesPut es k v) hl
    by_cases hk : k1 = k
    · subst hk
      simp [Tx.Get, h1, entriesGet_entriesPut_same]
    · simp [Tx.Get, h1, hl, entriesGet_entriesPut_ne es k k1 v hk, hk]
  · have h1 := lookupBucket_replaceBucket_ne tx.buckets b b1 (entriesPut es k v)
      (fun h => hb h.symm)
    simp [Tx.Get, h1, hb]

theorem Tx.Bucket_after_put (tx : Tx) (b : String) (es es1 : List (Bytes × Bytes))
    (hl : lookupBucket tx.buckets b = some es) (b1 : String) :
    Tx.Bucket { tx with buckets := replaceBucket tx.buckets b es1 } b1 = tx.Bucket b1 := by
  by_cases hb : b1 = b
  · subst hb
    simp [Tx.Bucket, lookupBucket_replaceBucket_same tx.buckets b1 es es1 hl, hl]
  · simp [Tx.Bucket, lookupBucket_replaceBucket_ne tx.buckets b b1 es1 (fun h => hb h.symm)]

theorem findByID_congr {α : Type} (c : Codec) (unmarshal : Bytes → Except Error α)
    (tx tx1 : Tx) (bucket : String) (id : ID)
    (hb : tx1.Bucket bucket = tx.Bucket bucket)
    (hg : ∀ k1, c.encodeID id = .ok k1 → tx1.Get bucket k1 = tx.Get bucket k1) :
    findByID c unmarshal tx1 bucket id = findByID c unmarshal tx bucket id := by
  unfold findByID
  rw [hb]
  cases hbk : tx.Bucket bucket with
  | error e => rfl
  | ok b =>
    have hbb : b = bucket := (Tx.Bucket_ok tx bucket b hbk).1
    subst hbb
    cases hk : c.encodeID id with
    | error e => rfl
    | ok k1 => simp only [hg k1 hk]

/-- What a successful `putDocument` leaves: the two records of the document, and
everything else as it was. -/
theorem putDocument_frame (c : Codec) (tx tx1 : Tx) (ns : String) (d : Document)
    (h : putDocument c tx ns d = (none, tx1)) :
    ∃ k vm vd, c.encodeID d.ID = .ok k ∧ c.marshalMeta d.Meta = .ok vm ∧
      c.marshalData d.Data = .ok vd ∧
      (∀ b1 k1, tx1.Get b1 k1 =
        if b1 = pathJoin ns documentDataBucket ∧ k1 = k then .ok vd
        else if b1 = pathJoin ns documentMetaBucket ∧ k1 = k then .ok vm
        else tx.Get b1 k1) ∧
      (∀ b1, tx1.Bucket b1 = tx.Bucket b1) ∧
      tx1.urms = tx.urms ∧ tx1.labelMappings = tx.labelMappings ∧ tx1.orgs = tx.orgs ∧
      tx1.users = tx.users ∧ tx1.labels = tx.labels := by
  unfold putDocument at h
  rcases hpm : putDocumentMeta c tx ns d.ID d.Meta with ⟨_ | e1, txm⟩
  · rcases hpd : putDocumentData c txm ns d.ID d.Data with ⟨_ | e2, txd⟩
    · simp only [hpm, hpd, Prod.mk.injEq, true_and] at h
      subst h
      obtain ⟨vm, k, es, hmm, hk, hl, htxm⟩ := putAtID_ok c c.marshalMeta tx txm _ _ _ hpm
      obtain ⟨vd, k2, es2, hmd, hk2, hl2, htxd⟩ := putAtID_ok c c.marshalData txm txd _ _ _ hpd
      have hkk : k2 = k := by
        rw [hk] at hk2
        exact (Except.ok.inj hk2).symm
      subst hkk
      refine ⟨k2, vm, vd, hk, hmm, hmd, ?_, ?_, by rw [htxd, htxm], by rw [htxd, htxm],
        by rw [htxd, htxm], by rw [htxd, htxm], by rw [htxd, htxm]⟩
      · intro b1 k1
        rw [htxd, Tx.Get_after_put txm _ es2 k2 vd hl2, htxm, Tx.Get_after_put tx _ es k2 vm hl]
      · intro b1
        rw [htxd, Tx.Bucket_after_put txm _ es2 _ hl2, htxm, Tx.Bucket_after_put tx _ es _ hl]
    · simp [hpm, hpd] at h
  · simp [hpm] at h

/-- The lookups of the index of the store leave the store as it is. -/
theorem index_reads_keep_state (i : DocumentIndex) (tx : Tx) :
    (∀ org, (i.asIndex.FindOrganizationByName org tx).2 = tx) ∧
    (∀ l, (i.asIndex.FindLabelByName l tx).2 = tx) ∧
    (∀ d, (i.asIndex.GetDocumentsAccessors d tx).2 = tx) ∧
    (∀ t o, (i.asIndex.GetAccessorsDocuments t o tx).2 = tx) ∧
    (∀ u, (i.asIndex.UsersOrgs u tx).2 = tx) ∧
    (∀ u o, (i.asIndex.IsOrgAccessor u o tx).2 = tx) := by
  refine ⟨?_, ?_, ?_, ?_, ?_, ?_⟩
  · intro org
    simp only [DocumentIndex.asIndex, DocumentIndex.FindOrganizationByName]
    cases findOrganizationByName tx org <;> rfl
  · intro l
    simp only [DocumentIndex.asIndex, DocumentIndex.FindLabelByName, findLabels]
    split <;> rfl
  · intro d
    simp [DocumentIndex.asIndex, DocumentIndex.GetDocumentsAccessors, findUserResourceMappings]
  · intro t o
    simp only [DocumentIndex.asIndex, DocumentIndex.GetAccessorsDocuments,
      findUserResourceMappings]
    cases i.ownerExists t o tx <;> rfl
  · intro u
    simp [DocumentIndex.asIndex, DocumentIndex.UsersOrgs, findUserResourceMappings]
  · intro u o
    simp only [DocumentIndex.asIndex, DocumentIndex.IsOrgAccessor, findUserResourceMappings]
    split_ifs <;> rfl

/-- The mutations of the index of the store write edges only: the buckets are
left as they are. -/
theorem index_writes_keep_buckets (i : DocumentIndex) (tx : Tx) :
    (∀ d t o, (i.asIndex.AddDocumentOwner d t o tx).2.buckets = tx.buckets) ∧
    (∀ d t o, (i.asIndex.RemoveDocumentOwner d t o tx).2.buckets = tx.buckets) ∧
    (∀ d l, (i.asIndex.AddDocumentLabel d l tx).2.buckets = tx.buckets) ∧
    (∀ d l, (i.asIndex.RemoveDocumentLabel d l tx).2.buckets = tx.buckets) := by
  refine ⟨?_, ?_, ?_, ?_⟩
  · intro d t o
    simp only [DocumentIndex.asIndex, DocumentIndex.AddDocumentOwner, createUserResourceMapping]
    cases i.ownerExists t o tx <;> rfl
  · intro d t o
    rfl
  · intro d l
    rfl
  · intro d l
    rfl

theorem isAccessorOfSome_keeps_state (i : DocumentIndex) (u : ID) (oids : List ID) (tx : Tx) :
    (isAccessorOfSome i.asIndex u oids tx).2 = tx := by
  induction oids with
  | nil => rfl
  | cons o rest ih =>
    have h := (index_reads_keep_state i tx).2.2.2.2.2 u o
    rcases hi : i.asIndex.IsOrgAccessor u o tx with ⟨_ | e, tx1⟩
    · rw [hi] at h
      simp only [isAccessorOfSome, hi]
      exact h
    · rw [hi] at h
      simp only at h
      subst h
      simp only [isAccessorOfSome, hi]
      exact ih

/-- Every create-option of `document.go`, run on the index of the store, leaves
the buckets as they are. -/
theorem create_options_keep_buckets (Allowed : Authorization → Permission → Bool)
    (i : DocumentIndex) (id : ID) (tx : Tx) :
    (∀ org, (WithOrg org id i.asIndex tx).2.buckets = tx.buckets) ∧
    (∀ l, (WithLabel l id i.asIndex tx).2.buckets = tx.buckets) ∧
    (∀ l, (WithoutLabel l id i.asIndex tx).2.buckets = tx.buckets) ∧
    (∀ a, (Authorized a id i.asIndex tx).2.buckets = tx.buckets) ∧
    (∀ a org, (AuthorizedWithOrg Allowed a org id i.asIndex tx).2.buckets = tx.buckets) := by
  obtain ⟨hfo, hfl, hgd, -, -, hio⟩ := index_reads_keep_state i tx
  obtain ⟨hado, -, hadl, hrdl⟩ := index_writes_keep_buckets i tx
  have horg : ∀ org, (WithOrg org id i.asIndex tx).2.buckets = tx.buckets := by
    intro org
    have h := hfo org
    simp only [WithOrg]
    rcases hf : i.asIndex.FindOrganizationByName org tx with ⟨⟨o, _ | e⟩, tx1⟩
    · rw [hf] at h
      simp only at h
      subst h
      exact hado id "org" o
    · rw [hf] at h
      simp only at h
      subst h
      rfl
  refine ⟨horg, ?_, ?_, ?_, ?_⟩
  · intro l
    have h := hfl l
    simp only [WithLabel]
    rcases hf : i.asIndex.FindLabelByName l tx with ⟨⟨o, _ | e⟩, tx1⟩
    · rw [hf] at h
      simp only at h
      subst h
      exact hadl id o
    · rw [hf] at h
      simp only at h
      subst h
      rfl
  · intro l
    have h := hfl l
    simp only [WithoutLabel]
    rcases hf : i.asIndex.FindLabelByName l tx with ⟨⟨o, _ | e⟩, tx1⟩
    · rw [hf] at h
      simp only at h
      subst h
      exact hrdl id o
    · rw [hf] at h
      simp only at h
      subst h
      rfl
  · intro a
    have h := hgd id
    cases a with
    | token t =>
      simp only [Authorized, TokenAuthorized]
      split_ifs
      · rfl
      · rcases hf : i.asIndex.GetDocumentsAccessors id tx with ⟨⟨oids, _ | e⟩, tx1⟩
        · rw [hf] at h
          simp only at h
          subst h
          simp only
          split_ifs <;> rfl
        · rw [hf] at h
          simp only at h
          subst h
          rfl
    | ambient u =>
      simp only [Authorized]
      rcases hf : i.asIndex.GetDocumentsAccessors id tx with ⟨⟨oids, _ | e⟩, tx1⟩
      · rw [hf] at h
        simp only at h
        subst h
        have h2 := isAccessorOfSome_keeps_state i (Authorizer.ambient u).GetUserID oids tx1
        rcases hi : isAccessorOfSome i.asIndex (Authorizer.ambient u).GetUserID oids tx1
          with ⟨_ | _, tx2⟩
        · rw [hi] at h2
          simp only at h2
          subst h2
          simp only [hi]
        · rw [hi] at h2
          simp only at h2
          subst h2
          simp only [hi]
      · rw [hf] at h
        simp only at h
        subst h
        rfl
  · intro a org
    have h := hfo org
    cases a with
    | token t =>
      simp only [AuthorizedWithOrg, TokenAuthorizedWithOrg]
      split_ifs
      · rfl
      · rcases hf : i.asIndex.FindOrganizationByName org tx with ⟨⟨o, _ | e⟩, tx1⟩
        · rw [hf] at h
          simp only at h
          subst h
          simp only
          split_ifs
          · rfl
          · exact hado id "org" o
        · rw [hf] at h
          simp only at h
          subst h
          rfl
    | ambient u =>
      simp only [AuthorizedWithOrg]
      rcases hf : i.asIndex.FindOrganizationByName org tx with ⟨⟨o, _ | e⟩, tx1⟩
      · rw [hf] at h
        simp only at h
        subst h
        have h2 := hio (Authorizer.ambient u).GetUserID o
        rcases hi : i.asIndex.IsOrgAccessor (Authorizer.ambient u).GetUserID o tx1
          with ⟨_ | e, tx2⟩
        · rw [hi] at h2
          simp only at h2
          subst h2
          simp only [hi]
          exact hado id "org" o
        · rw [hi] at h2
          simp only at h2
          subst h2
          simp only [hi]
      · rw [hf] at h
        simp only at h
        subst h
        rfl

theorem runCreateOptions_keep_buckets (idx : influxdb.DocumentIndex Tx) (id : ID)
    (opts : List (DocumentCreateOptions Tx))
    (hopts : ∀ o ∈ opts, ∀ tx2, (o id idx tx2).2.buckets = tx2.buckets) (tx : Tx) :
    (runCreateOptions idx id opts tx).2.buckets = tx.buckets := by
  induction opts generalizing tx with
  | nil => rfl
  | cons o rest ih =>
    have h := hopts o (List.mem_cons_self _ _) tx
    rcases ho : o id idx tx with ⟨_ | e, tx1⟩
    · rw [ho] at h
      simp only [runCreateOptions, ho]
      rw [ih (fun q hq => hopts q (List.mem_cons_of_mem _ hq)) tx1]
      exact h
    · rw [ho] at h
      simp only [runCreateOptions, ho]
      exact h

/-- Claim C14. `UpdateDocument` runs the options in order, from the store as it is
before any write. When it returns no error, every option has succeeded and,
with `txo` the store the options left, the Meta and Data records under the key of
`d.ID` are the encodings of `d.Meta` and of the payload of `d`, every other
record of every bucket is the record of `txo` (so the Meta and Data of every other
ID read as in `txo`), and the edges are those of `txo`. When an option fails after
the options before it succeeded, `UpdateDocument` returns the error of that
option, whatever the later options are, and the store is the store before the
call: no Meta or Data has been written. Options that leave the buckets as they
are, as every create-option of `document.go` does on the index of the store,
leave every record as it was before the call. -/
theorem C14_update_document (c : Codec) (ns : String) (d : Document) (tx : Tx) :
    (∀ (opts : List (DocumentCreateOptions Tx)) (tx1 : Tx),
      UpdateDocument c ns d opts tx = (none, tx1) →
      ∃ txo k vm vd, runCreateOptions writeIndex d.ID opts tx = (none, txo) ∧
        c.encodeID d.ID = .ok k ∧ c.marshalMeta d.Meta = .ok vm ∧
        c.marshalData d.Data = .ok vd ∧
        tx1.Get (pathJoin ns documentMetaBucket) k = .ok vm ∧
        tx1.Get (pathJoin ns documentDataBucket) k = .ok vd ∧
        (∀ b1 k1, k1 ≠ k → tx1.Get b1 k1 = txo.Get b1 k1) ∧
        (∀ id1, c.encodeID id1 ≠ .ok k →
          findDocumentMetaByID c tx1 ns id1 = findDocumentMetaByID c txo ns id1 ∧
          findDocumentDataByID c tx1 ns id1 = findDocumentDataByID c txo ns id1) ∧
        tx1.urms = txo.urms ∧ tx1.labelMappings = txo.labelMappings) ∧
    (∀ (pre post : List (DocumentCreateOptions Tx)) (o : DocumentCreateOptions Tx)
      (tx2 tx3 : Tx) (e : Error),
      runCreateOptions writeIndex d.ID pre tx = (none, tx2) →
      o d.ID writeIndex tx2 = (some e, tx3) →
      UpdateDocument c ns d (pre ++ o :: post) tx = (some e, tx)) ∧
    (∀ (opts : List (DocumentCreateOptions Tx)),
      (∀ o ∈ opts, ∀ tx2, (o d.ID writeIndex tx2).2.buckets = tx2.buckets) →
      ∀ b1 k1, (runCreateOptions writeIndex d.ID opts tx).2.Get b1 k1 = tx.Get b1 k1) ∧
    (∀ (Allowed : Authorization → Permission → Bool) (tx2 : Tx),
      (∀ org, (WithOrg org d.ID writeIndex tx2).2.buckets = tx2.buckets) ∧
      (∀ l, (WithLabel l d.ID writeIndex tx2).2.buckets = tx2.buckets) ∧
      (∀ l, (WithoutLabel l d.ID writeIndex tx2).2.buckets = tx2.buckets) ∧
      (∀ a, (Authorized a d.ID writeIndex tx2).2.buckets = tx2.buckets) ∧
      (∀ a org, (AuthorizedWithOrg Allowed a org d.ID writeIndex tx2).2.buckets
        = tx2.buckets)) := by
  refine ⟨?_, ?_, ?_, ?_⟩
  rotate_left 2
  · intro opts hopts b1 k1
    have h := runCreateOptions_keep_buckets writeIndex d.ID opts hopts tx
    simp only [Tx.Get, h]
  · intro Allowed tx2
    exact create_options_keep_buckets Allowed { writable := true } d.ID tx2
  · intro opts tx1 h
    unfold UpdateDocument Update updateDocument at h
    rcases hrun : runCreateOptions writeIndex d.ID opts tx with ⟨_ | e, txo⟩
    · unfold writeIndex at hrun
      simp only [hrun] at h
      rcases hput : putDocument c txo ns d with ⟨_ | e1, txp⟩
      · simp only [hput, Prod.mk.injEq, true_and] at h
        subst h
        obtain ⟨k, vm, vd, hk, hmm, hmd, hget, hbucket, hurms, hlm, -, -, -⟩ :=
          putDocument_frame c txo txp ns d hput
        have hne := bucket_names_ne ns
        refine ⟨txo, k, vm, vd, rfl, hk, hmm, hmd, ?_, ?_, ?_, ?_, hurms, hlm⟩
        · rw [hget]
          simp [hne]
        · rw [hget]
          simp
        · intro b1 k1 hk1
          rw [hget]
          simp [hk1]
        · intro id1 hid1
          constructor
          · unfold findDocumentMetaByID
            apply findByID_congr c c.unmarshalMeta txo txp _ id1 (hbucket _)
            intro k1 hk1
            have hkk : k1 ≠ k := by
              intro h2
              rw [h2] at hk1
              exact hid1 hk1
            rw [hget]
            simp [hkk]
          · unfold findDocumentDataByID
            apply findByID_congr c c.unmarshalData txo txp _ id1 (hbucket _)
            intro k1 hk1
            have hkk : k1 ≠ k := by
              intro h2
              rw [h2] at hk1
              exact hid1 hk1
            rw [hget]
            simp [hkk]
      · simp [hput] at h
    · unfold writeIndex at hrun
      simp [hrun] at h
  · intro pre post o tx2 tx3 e hpre hopt
    have hrun := runCreateOptions_append_error writeIndex d.ID pre post o tx tx2 tx3 e hpre hopt
    unfold UpdateDocument Update
    unfold writeIndex at hrun
    simp only [hrun]

end kv

/-! ## The decorator, the membership lookup, the accessors, the listing of the store -/

namespace kv

open influxdb

theorem runFindOptions_append_error (idx : influxdb.DocumentIndex Tx)
    (dd : influxdb.DocumentDecorator DocumentDecorator)
    (pre post : List (DocumentFindOptions Tx DocumentDecorator))
    (o : DocumentFindOptions Tx DocumentDecorator) (ids0 ids x : List ID) (tx tx1 tx2 : Tx)
    (d d1 d2 : DocumentDecorator) (e : Error)
    (hpre : runFindOptions idx dd pre ids0 tx d = ((ids, none), tx1, d1))
    (hopt : o idx dd tx1 d1 = ((x, some e), tx2, d2)) :
    runFindOptions idx dd (pre ++ o :: post) ids0 tx d = ((ids, some e), tx2, d2) := by
  induction pre generalizing ids0 tx d with
  | nil =>
    simp only [runFindOptions, Prod.mk.injEq, and_true] at hpre
    obtain ⟨h1, h2, h3⟩ := hpre
    subst h1 h2 h3
    simp [runFindOptions, hopt]
  | cons p pre ih =>
    simp only [List.cons_append, runFindOptions] at hpre ⊢
    rcases hp : p idx dd tx d with ⟨⟨is, _ | e1⟩, txp, dp⟩
    · simp only [hp] at hpre ⊢
      exact ih _ _ _ hpre
    · simp [hp] at hpre

/-- Claim C15. For every decorator value: when `writable` is set, `IncludeData`
and `IncludeLabels` each return an Internal error and leave the decorator, so both
flags, as it is; when it is not set, each returns no error, sets its own flag and
leaves every other field as it is. So `DeleteDocuments`, whose decorator is
writable, returns that Internal error when it reaches the option `IncludeContent`
or `IncludeLabels`, and the store afterwards is the store before the call. -/
theorem C15_decorator_flags (c : Codec) (ns : String) (d : DocumentDecorator) (tx : Tx) :
    (d.writable = true →
      (∃ msg, d.IncludeData = (some { Code := ErrCode.EInternal, Msg := msg }, d)) ∧
      (∃ msg, d.IncludeLabels = (some { Code := ErrCode.EInternal, Msg := msg }, d))) ∧
    (d.writable = false →
      d.IncludeData = (none, { d with data := true }) ∧
      d.IncludeLabels = (none, { d with labels := true })) ∧
    (∀ (pre post : List (DocumentFindOptions Tx DocumentDecorator)) (ids : List ID) (tx1 : Tx)
      (d1 : DocumentDecorator),
      runFindOptions writeIndex DocumentDecorator.asDecorator pre [] tx deleteDecorator
        = ((ids, none), tx1, d1) →
      d1.writable = true →
      (∃ msg, DeleteDocuments c ns (pre ++ IncludeContent :: post) tx
        = (some { Code := ErrCode.EInternal, Msg := msg }, tx)) ∧
      (∃ msg, DeleteDocuments c ns (pre ++ IncludeLabels :: post) tx
        = (some { Code := ErrCode.EInternal, Msg := msg }, tx))) := by
  refine ⟨?_, ?_, ?_⟩
  · intro hw
    exact ⟨⟨"cannot include data in document", by simp [DocumentDecorator.IncludeData, hw]⟩,
      ⟨"cannot include labels in document", by simp [DocumentDecorator.IncludeLabels, hw]⟩⟩
  · intro hw
    exact ⟨by simp [DocumentDecorator.IncludeData, hw],
      by simp [DocumentDecorator.IncludeLabels, hw]⟩
  · intro pre post ids tx1 d1 hpre hw
    have hc : IncludeContent writeIndex DocumentDecorator.asDecorator tx1 d1
        = (([], some { Code := ErrCode.EInternal, Msg := "cannot include data in document" }),
            tx1, d1) := by
      simp [IncludeContent, DocumentDecorator.asDecorator, DocumentDecorator.IncludeData, hw]
    have hl : IncludeLabels writeIndex DocumentDecorator.asDecorator tx1 d1
        = (([], some { Code := ErrCode.EInternal, Msg := "cannot include labels in document" }),
            tx1, d1) := by
      simp [IncludeLabels, DocumentDecorator.asDecorator, DocumentDecorator.IncludeLabels, hw]
    have h1 := runFindOptions_append_error writeIndex DocumentDecorator.asDecorator pre post
      IncludeContent [] ids [] tx tx1 tx1 deleteDecorator d1 d1 _ hpre hc
    have h2 := runFindOptions_append_error writeIndex DocumentDecorator.asDecorator pre post
      IncludeLabels [] ids [] tx tx1 tx1 deleteDecorator d1 d1 _ hpre hl
    unfold writeIndex deleteDecorator at h1 h2
    refine ⟨⟨"cannot include data in document", ?_⟩,
      ⟨"cannot include labels in document", ?_⟩⟩
    · unfold DeleteDocuments Update
      simp only [h1]
    · unfold DeleteDocuments Update
      simp only [h2]

theorem anyOwnerOrMember_iff (ms : List UserResourceMapping) :
    anyOwnerOrMember ms = true ↔ ∃ m, m ∈ ms := by
  cases ms with
  | nil => simp [anyOwnerOrMember]
  | cons m rest =>
    simp only [anyOwnerOrMember]
    cases m.UserType <;> simp

theorem IsOrgAccessor_none_iff (i : DocumentIndex) (u o : ID) (tx : Tx) :
    (i.IsOrgAccessor u o tx).1 = none ↔
      ∃ m ∈ tx.urms, filterMatches
        { UserID := some u, ResourceType := some ResourceType.OrgsResourceType,
          ResourceID := some o,
          UserType := if i.writable then some UserType.Owner else none } m = true := by
  simp only [DocumentIndex.IsOrgAccessor, findUserResourceMappings]
  by_cases h : anyOwnerOrMember (tx.urms.filter (filterMatches
      { UserID := some u, ResourceType := some ResourceType.OrgsResourceType,
        ResourceID := some o,
        UserType := if i.writable then some UserType.Owner else none })) = true
  · rw [if_pos h]
    obtain ⟨m, hm⟩ := (anyOwnerOrMember_iff _).mp h
    rw [List.mem_filter] at hm
    exact ⟨fun _ => ⟨m, hm.1, hm.2⟩, fun _ => rfl⟩
  · rw [if_neg h]
    constructor
    · intro hx
      cases hx
    · rintro ⟨m, hm, hf⟩
      exact absurd ((anyOwnerOrMember_iff _).mpr ⟨m, List.mem_filter.mpr ⟨hm, hf⟩⟩) h

/-- Claim C18. With `findUserResourceMappings` returning exactly the edges that
match every set field of the filter: on a read-only index `IsOrgAccessor(u, o)`
returns no error if and only if the store holds an edge with UserID `u`, type Orgs
and ResourceID `o` whose role is Owner or Member; on a writable index, if and only
if it holds such an edge with role Owner; in every other case the error has code
Unauthorized. The store is left as it is. -/
theorem C18_isOrgAccessor (u o : ID) (tx : Tx) :
    ((readIndex.IsOrgAccessor u o tx).1 = none ↔
      ∃ m ∈ tx.urms, m.UserID = u ∧ m.ResourceType = ResourceType.OrgsResourceType ∧
        m.ResourceID = o ∧ (m.UserType = UserType.Owner ∨ m.UserType = UserType.Member)) ∧
    ((writeIndex.IsOrgAccessor u o tx).1 = none ↔
      ∃ m ∈ tx.urms, m.UserID = u ∧ m.ResourceType = ResourceType.OrgsResourceType ∧
        m.ResourceID = o ∧ m.UserType = UserType.Owner) ∧
    (∀ i : DocumentIndex, (i.IsOrgAccessor u o tx).1 = none ∨
      ∃ msg, (i.IsOrgAccessor u o tx).1 = some { Code := ErrCode.EUnauthorized, Msg := msg }) ∧
    (∀ i : DocumentIndex, (i.IsOrgAccessor u o tx).2 = tx) := by
  refine ⟨?_, ?_, ?_, ?_⟩
  · rw [show readIndex.IsOrgAccessor u o tx
        = DocumentIndex.IsOrgAccessor { writable := false } u o tx from rfl,
      IsOrgAccessor_none_iff]
    constructor
    · rintro ⟨m, hm, hf⟩
      simp only [filterMatches, Bool.false_eq_true, if_false, Bool.and_eq_true,
        decide_eq_true_eq, Bool.and_true] at hf
      refine ⟨m, hm, hf.1.1, hf.1.2, hf.2, ?_⟩
      cases m.UserType
      · exact Or.inl rfl
      · exact Or.inr rfl
    · rintro ⟨m, hm, h1, h2, h3, -⟩
      exact ⟨m, hm, by simp [filterMatches, h1, h2, h3]⟩
  · rw [show writeIndex.IsOrgAccessor u o tx
        = DocumentIndex.IsOrgAccessor { writable := true } u o tx from rfl,
      IsOrgAccessor_none_iff]
    constructor
    · rintro ⟨m, hm, hf⟩
      simp only [filterMatches, if_true, Bool.and_eq_true, decide_eq_true_eq] at hf
      exact ⟨m, hm, hf.1.1.1, hf.1.1.2, hf.1.2, hf.2⟩
    · rintro ⟨m, hm, h1, h2, h3, h4⟩
      exact ⟨m, hm, by simp [filterMatches, h1, h2, h3, h4]⟩
  · intro i
    simp only [DocumentIndex.IsOrgAccessor, findUserResourceMappings]
    split_ifs
    · exact Or.inl rfl
    · exact Or.inr ⟨"user is not org member", rfl⟩
    · exact Or.inl rfl
    · exact Or.inr ⟨"user is not org member", rfl⟩
  · intro i
    exact (index_reads_keep_state i tx).2.2.2.2.2 u o

theorem mem_accessorIDs_iff (ms : List UserResourceMapping) (x : ID) :
    x ∈ accessorIDs ms ↔
      ∃ m ∈ ms, m.MappingType ≠ MappingType.UserMappingType ∧ m.UserID = x := by
  induction ms with
  | nil => simp [accessorIDs]
  | cons m ms ih =>
    unfold accessorIDs
    by_cases hu : m.MappingType = MappingType.UserMappingType
    · simp only [hu, if_true, ih, List.mem_cons]
      constructor
      · rintro ⟨y, hy, h1, h2⟩
        exact ⟨y, Or.inr hy, h1, h2⟩
      · rintro ⟨y, hy | hy, h1, h2⟩
        · subst hy
          exact absurd hu h1
        · exact ⟨y, hy, h1, h2⟩
    · simp only [hu, if_false, List.mem_cons, ih]
      constructor
      · rintro (h | ⟨y, hy, h1, h2⟩)
        · exact ⟨m, Or.inl rfl, hu, h.symm⟩
        · exact ⟨y, Or.inr hy, h1, h2⟩
      · rintro ⟨y, hy | hy, h1, h2⟩
        · subst hy
          exact Or.inl h2.symm
        · exact Or.inr ⟨y, hy, h1, h2⟩

/-- The accessors of a document as `GetDocumentsAccessors` computes them on the
index of the store. -/
theorem mem_GetDocumentsAccessors (i : DocumentIndex) (d x : ID) (tx : Tx) :
    (i.GetDocumentsAccessors d tx).1.2 = none ∧
    (x ∈ (i.GetDocumentsAccessors d tx).1.1 ↔
      ∃ m ∈ tx.urms, m.ResourceType = ResourceType.DocumentsResourceType ∧
        m.ResourceID = d ∧ (i.writable = true → m.UserType = UserType.Owner) ∧
        m.MappingType ≠ MappingType.UserMappingType ∧ m.UserID = x) := by
  simp only [DocumentIndex.GetDocumentsAccessors, findUserResourceMappings, true_and,
    mem_accessorIDs_iff, List.mem_filter]
  constructor
  · rintro ⟨m, ⟨hm, hf⟩, h1, h2⟩
    refine ⟨m, hm, ?_⟩
    rcases Bool.eq_false_or_eq_true i.writable with hw | hw
    · simp only [hw, if_true, filterMatches, Bool.true_and, Bool.and_eq_true,
        decide_eq_true_eq] at hf
      exact ⟨hf.1.1, hf.1.2, fun _ => hf.2, h1, h2⟩
    · simp only [hw, Bool.false_eq_true, if_false, filterMatches, Bool.true_and,
        Bool.and_eq_true, decide_eq_true_eq, Bool.and_true] at hf
      exact ⟨hf.1, hf.2, fun h => by simp [hw] at h, h1, h2⟩
  · rintro ⟨m, hm, h1, h2, h3, h4, h5⟩
    refine ⟨m, ⟨hm, ?_⟩, h4, h5⟩
    rcases Bool.eq_false_or_eq_true i.writable with hw | hw
    · simp [hw, filterMatches, h1, h2, h3 hw]
    · simp [hw, filterMatches, h1, h2]

/-- What `RemoveDocumentOwner` does on the index of the store, writable or not:
every edge with the given subject and resource is deleted, whatever its role and
type. -/
theorem RemoveDocumentOwner_eq (i : DocumentIndex) (d x : ID) (t : String) (tx : Tx) :
    i.RemoveDocumentOwner d t x tx
      = (none, { tx with urms := (tx.urms.filter
          (fun m => !(decide (m.UserID = x) && decide (m.ResourceID = d)))) }) := by
  simp [DocumentIndex.RemoveDocumentOwner, removeDocumentOwner, deleteUserResourceMapping,
    filterMatches_owner]

/-- Claim C19, as amended. Given a document `d` whose edges are an Owner-role edge
from org `A` and a Member-role edge from a different org `B`:
`GetDocumentsAccessors(d)` returns `A` and `B` on a read-only index and only `A`
on a writable index. `RemoveDocumentOwner(d, "org", x)` deletes every edge with
subject `x` and resource `d`, whatever its role and whether the index is
writable; so no call with `x` other than `B` removes the Member-role edge of `B`,
and `WithoutOwners` on a writable index, which removes the owners that the
writable lookup returns, leaves it in place. -/
theorem C19_accessors_by_mode (tx : Tx) (d A B : ID) (hAB : A ≠ B)
    (hA : ownerEdge A d ∈ tx.urms) (hB : memberEdge B d ∈ tx.urms)
    (honly : ∀ m ∈ tx.urms, m.ResourceType = ResourceType.DocumentsResourceType →
      m.ResourceID = d → m = ownerEdge A d ∨ m = memberEdge B d) :
    (readIndex.GetDocumentsAccessors d tx).1.2 = none ∧
    (∀ x, x ∈ (readIndex.GetDocumentsAccessors d tx).1.1 ↔ x = A ∨ x = B) ∧
    (writeIndex.GetDocumentsAccessors d tx).1.2 = none ∧
    (∀ x, x ∈ (writeIndex.GetDocumentsAccessors d tx).1.1 ↔ x = A) ∧
    (∀ (i : DocumentIndex) (x : ID) (t : String),
      i.RemoveDocumentOwner d t x tx
        = (none, { tx with urms := (tx.urms.filter
            (fun m => !(decide (m.UserID = x) && decide (m.ResourceID = d)))) })) ∧
    (∀ (i : DocumentIndex) (x : ID) (t : String), x ≠ B →
      memberEdge B d ∈ (i.RemoveDocumentOwner d t x tx).2.urms) ∧
    memberEdge B d ∈ (WithoutOwners d writeIndex tx).2.urms := by
  have hread := fun x => (mem_GetDocumentsAccessors { writable := false } d x tx).2
  have hwrite := fun x => (mem_GetDocumentsAccessors { writable := true } d x tx).2
  have hw : ∀ x, x ∈ (writeIndex.GetDocumentsAccessors d tx).1.1 ↔ x = A := by
    intro x
    rw [show writeIndex.GetDocumentsAccessors d tx
      = DocumentIndex.GetDocumentsAccessors { writable := true } d tx from rfl, hwrite]
    constructor
    · rintro ⟨m, hm, h1, h2, h3, -, h5⟩
      rcases honly m hm h1 h2 with h | h
      · rw [h] at h5
        exact h5.symm
      · have h6 := h3 rfl
        rw [h] at h6
        cases h6
    · intro hx
      exact ⟨ownerEdge A d, hA, rfl, rfl, fun _ => rfl, by simp [ownerEdge], hx.symm⟩
  refine ⟨(mem_GetDocumentsAccessors { writable := false } d 0 tx).1, ?_,
    (mem_GetDocumentsAccessors { writable := true } d 0 tx).1, hw,
    fun i x t => RemoveDocumentOwner_eq i d x t tx, ?_, ?_⟩
  · intro x
    rw [show readIndex.GetDocumentsAccessors d tx
      = DocumentIndex.GetDocumentsAccessors { writable := false } d tx from rfl, hread]
    constructor
    · rintro ⟨m, hm, h1, h2, -, -, h5⟩
      rcases honly m hm h1 h2 with h | h
      · rw [h] at h5
        exact Or.inl h5.symm
      · rw [h] at h5
        exact Or.inr h5.symm
    · rintro (hx | hx)
      · exact ⟨ownerEdge A d, hA, rfl, rfl, fun h => by simp at h, by simp [ownerEdge],
          hx.symm⟩
      · exact ⟨memberEdge B d, hB, rfl, rfl, fun h => by simp at h, by simp [memberEdge],
          hx.symm⟩
  · intro i x t hx
    rw [RemoveDocumentOwner_eq]
    simp only [List.mem_filter]
    refine ⟨hB, ?_⟩
    have h1 : ¬ (memberEdge B d).UserID = x := fun h => hx h.symm
    simp [h1]
  · rw [WithoutOwners_writeIndex]
    simp only [List.mem_filter]
    refine ⟨hB, ?_⟩
    have h1 : ¬ (memberEdge B d).UserID ∈ (writeIndex.GetDocumentsAccessors d tx).1.1 := by
      rw [hw]
      exact fun h => hAB h.symm
    simp [h1]

theorem findDocumentsLoop_ok (c : Codec) (es : List (Bytes × Bytes))
    (hkeys : ∀ kv ∈ es, kv.1.length ≠ 0) (ds r : List Document)
    (h : findDocumentsLoop c es ds = .ok r) :
    ∃ docs, r = ds ++ docs ∧ List.Forall₂ (RecordOf c) es docs := by
  induction es generalizing ds with
  | nil =>
    simp only [findDocumentsLoop, Except.ok.injEq] at h
    exact ⟨[], by simp [h], List.Forall₂.nil⟩
  | cons e es ih =>
    obtain ⟨k, v⟩ := e
    have hk : ¬ k.length = 0 := hkeys (k, v) (List.mem_cons_self _ _)
    simp only [findDocumentsLoop, hk, if_false] at h
    cases hd : c.decodeID k with
    | error e1 => simp [hd] at h
    | ok id =>
      cases hm : c.unmarshalMeta v with
      | error e1 => simp [hd, hm] at h
      | ok m =>
        simp only [hd, hm] at h
        obtain ⟨docs, hr, hf⟩ := ih (fun kv hkv => hkeys kv (List.mem_cons_of_mem _ hkv)) _ h
        refine ⟨{ ID := id, Meta := m, Data := none, Labels := [] } :: docs, ?_, ?_⟩
        · rw [hr]
          simp
        · exact List.Forall₂.cons ⟨hd, hm, rfl, rfl⟩ hf

theorem findDocumentsLoop_total (c : Codec) (es : List (Bytes × Bytes))
    (hdec : ∀ kv ∈ es, (∃ id, c.decodeID kv.1 = .ok id) ∧ ∃ m, c.unmarshalMeta kv.2 = .ok m)
    (ds : List Document) : ∃ r, findDocumentsLoop c es ds = .ok r := by
  induction es generalizing ds with
  | nil => exact ⟨ds, rfl⟩
  | cons e es ih =>
    obtain ⟨k, v⟩ := e
    obtain ⟨⟨id, hd⟩, m, hm⟩ := hdec (k, v) (List.mem_cons_self _ _)
    simp only [findDocumentsLoop, hd, hm]
    split_ifs
    · exact ⟨ds, rfl⟩
    · exact ih (fun kv hkv => hdec kv (List.mem_cons_of_mem _ hkv)) _

theorem findDocumentsLoop_error (c : Codec) (es : List (Bytes × Bytes)) (ds : List Document)
    (e : Error) (h : findDocumentsLoop c es ds = .error e) :
    ∃ kv ∈ es, c.decodeID kv.1 = .error e ∨ c.unmarshalMeta kv.2 = .error e := by
  induction es generalizing ds with
  | nil => simp [findDocumentsLoop] at h
  | cons x es ih =>
    obtain ⟨k, v⟩ := x
    simp only [findDocumentsLoop] at h
    split_ifs at h
    cases hd : c.decodeID k with
    | error e1 =>
      simp only [hd, Except.error.injEq] at h
      subst h
      exact ⟨(k, v), List.mem_cons_self _ _, Or.inl hd⟩
    | ok id =>
      cases hm : c.unmarshalMeta v with
      | error e1 =>
        simp only [hd, hm, Except.error.injEq] at h
        subst h
        exact ⟨(k, v), List.mem_cons_self _ _, Or.inr hm⟩
      | ok m =>
        simp only [hd, hm] at h
        obtain ⟨kv, hkv, hor⟩ := ih _ h
        exact ⟨kv, List.mem_cons_of_mem _ hkv, hor⟩

/-- Claim C20. For a store whose Meta bucket of the namespace holds the records
`es`, in the order of the cursor (a record has a non-empty key: an empty key is
how the cursor signals its end): when `FindDocuments` with no options returns no
error, it returns exactly one document per record, in that order, each with the ID
decoded from the key and the Meta decoded from the value, and no payload and no
labels; it returns no error when every key and every value decodes; and when it
returns an error it returns no documents and the error is the error of decoding a
key or a value of some record. When the bucket cannot be opened, the error is
that of the store. -/
theorem C20_find_without_options (c : Codec) (ns : String) (tx : Tx)
    (es : List (Bytes × Bytes))
    (hbucket : lookupBucket tx.buckets (pathJoin ns documentMetaBucket) = some es)
    (hkeys : ∀ kv ∈ es, kv.1.length ≠ 0) :
    (∀ docs, FindDocuments c ns [] tx = (docs, none) → List.Forall₂ (RecordOf c) es docs) ∧
    ((∀ kv ∈ es, (∃ id, c.decodeID kv.1 = .ok id) ∧ ∃ m, c.unmarshalMeta kv.2 = .ok m) →
      ∃ docs, FindDocuments c ns [] tx = (docs, none)) ∧
    (∀ e, (FindDocuments c ns [] tx).2 = some e →
      (FindDocuments c ns [] tx).1 = [] ∧
      ∃ kv ∈ es, c.decodeID kv.1 = .error e ∨ c.unmarshalMeta kv.2 = .error e) ∧
    (∀ tx2 : Tx, lookupBucket tx2.buckets (pathJoin ns documentMetaBucket) = none →
      FindDocuments c ns [] tx2 = ([], some ErrBucketNotFound)) := by
  have hfd : FindDocuments c ns [] tx =
      match findDocumentsLoop c es [] with
      | .error err => ([], some err)
      | .ok ds => (ds, none) := by
    simp only [FindDocuments, View, List.length_nil, if_true, findDocuments, Tx.Bucket,
      hbucket, Tx.Cursor]
    cases findDocumentsLoop c es [] <;> rfl
  refine ⟨?_, ?_, ?_, ?_⟩
  · intro docs h
    rw [hfd] at h
    cases hl : findDocumentsLoop c es [] with
    | error e => simp [hl] at h
    | ok r =>
      simp only [hl, Prod.mk.injEq, and_true] at h
      subst h
      obtain ⟨docs, hr, hf⟩ := findDocumentsLoop_ok c es hkeys [] r hl
      simp only [List.nil_append] at hr
      rw [hr]
      exact hf
  · intro hdec
    obtain ⟨r, hr⟩ := findDocumentsLoop_total c es hdec []
    exact ⟨r, by rw [hfd, hr]⟩
  · intro e h
    rw [hfd] at h ⊢
    cases hl : findDocumentsLoop c es [] with
    | error e1 =>
      simp only [hl, Option.some.injEq] at h
      subst h
      exact ⟨rfl, findDocumentsLoop_error c es [] e1 hl⟩
    | ok r => simp [hl] at h
  · intro tx2 h
    simp [FindDocuments, View, findDocuments, Tx.Bucket, h]

end kv

/-! ## The listing of a token, permission by permission -/

namespace influxdb

theorem tokenAuthorizedWhereScan_step {σ : Type} (idx : DocumentIndex σ) (p : Permission)
    (s s1 : σ) (L0 : List ID) (h : OrgDocuments idx p s L0 s1) (ps : List Permission)
    (ids : List ID) :
    tokenAuthorizedWhereScan idx (p :: ps) ids s
      = tokenAuthorizedWhereScan idx ps (ids ++ L0 ++ permissionID p) s1 := by
  cases h
  · rename_i o htype horg hcall
    cases hid : p.Resource.ID <;>
      simp only [tokenAuthorizedWhereScan, htype, horg, hcall, hid, permissionID,
        List.append_nil]
  · rename_i hother
    rcases hother with ht | ho
    · cases hty : p.Resource.Typ with
      | DocumentsResourceType => exact absurd hty ht
      | OrgsResourceType =>
        simp only [tokenAuthorizedWhereScan, hty, permissionID, List.append_nil]
      | Other n =>
        simp only [tokenAuthorizedWhereScan, hty, permissionID, List.append_nil]
    · cases hty : p.Resource.Typ <;> cases hid : p.Resource.ID <;>
        simp only [tokenAuthorizedWhereScan, hty, ho, hid, permissionID, List.append_nil]

theorem tokenAuthorizedWhereScan_of_listing {σ : Type} (idx : DocumentIndex σ)
    (ps : List Permission) (s s2 : σ) (L : List ID) (h : TokenListing idx ps s L s2)
    (ids : List ID) :
    tokenAuthorizedWhereScan idx ps ids s = (none, ids ++ L, s2) := by
  induction h generalizing ids with
  | nil s => simp [tokenAuthorizedWhereScan]
  | cons p ps s s1 s2 L0 L hfirst hrest ih =>
    rw [tokenAuthorizedWhereScan_step idx p s s1 L0 hfirst ps ids, ih]
    simp only [List.append_assoc]

theorem tokenAuthorizedWhereScan_of_reads {σ : Type} (idx : DocumentIndex σ)
    (s : σ) (ps : List Permission)
    (hread : ∀ p ∈ ps, p.Resource.Typ = ResourceType.DocumentsResourceType →
      ∀ o, p.Resource.OrgID = some o →
        (idx.GetAccessorsDocuments "org" o s).1.2 = none ∧
        (idx.GetAccessorsDocuments "org" o s).2 = s)
    (ids : List ID) :
    tokenAuthorizedWhereScan idx ps ids s
      = (none, ids ++ (ps.map (permissionDocuments idx s)).flatten, s) := by
  induction ps generalizing ids with
  | nil => simp [tokenAuthorizedWhereScan]
  | cons p ps ih =>
    have ih1 := ih (fun q hq => hread q (List.mem_cons_of_mem _ hq))
    have hp := hread p (List.mem_cons_self _ _)
    cases hty : p.Resource.Typ with
    | DocumentsResourceType =>
      cases horg : p.Resource.OrgID with
      | none =>
        cases hid : p.Resource.ID <;>
          simp only [tokenAuthorizedWhereScan, hty, horg, hid, ih1, permissionDocuments,
            permissionID, List.map_cons, List.flatten_cons, List.append_nil, List.nil_append,
            List.append_assoc]
      | some o =>
        obtain ⟨h1, h2⟩ := hp hty o horg
        rcases hg : idx.GetAccessorsDocuments "org" o s with ⟨⟨L, e⟩, s1⟩
        rw [hg] at h1 h2
        simp only at h1 h2
        subst h1 h2
        cases hid : p.Resource.ID <;>
          simp only [tokenAuthorizedWhereScan, hty, horg, hid, hg, ih1, permissionDocuments,
            permissionID, List.map_cons, List.flatten_cons, List.append_nil,
            List.append_assoc]
    | OrgsResourceType =>
      simp only [tokenAuthorizedWhereScan, hty, ih1, permissionDocuments, permissionID,
        List.map_cons, List.flatten_cons, List.append_nil, List.nil_append]
    | Other n =>
      simp only [tokenAuthorizedWhereScan, hty, ih1, permissionDocuments, permissionID,
        List.map_cons, List.flatten_cons, List.append_nil, List.nil_append]

theorem tokenAuthorizedWhereScan_actions {σ : Type} (idx : DocumentIndex σ)
    (g : Permission → Action) (ps : List Permission) (ids : List ID) (s : σ) :
    tokenAuthorizedWhereScan idx (ps.map (fun p => { p with Action := g p })) ids s
      = tokenAuthorizedWhereScan idx ps ids s := by
  induction ps generalizing ids s with
  | nil => rfl
  | cons p ps ih => simp only [List.map_cons, tokenAuthorizedWhereScan, ih]

/-- Claim C17. For an active token `a`, the first evaluation of
`AuthorizedWhere(a)`: when every `GetAccessorsDocuments` call it makes succeeds,
it returns exactly the concatenation, over `a.Permissions` in order, of
`GetAccessorsDocuments("org", p.OrgID)` when `p` is of type Documents with OrgID
set, followed by `[p.ID]` when `p` is of type Documents with a resource ID set,
and leaves the index in the state the last call left. On an index whose
`GetAccessorsDocuments` leaves the state as it is, that is the concatenation of
`permissionDocuments` read in the starting state. A permission of any other type
contributes nothing, and the action of a permission is not consulted: changing
the actions changes nothing. -/
theorem C17_token_listing {σ δ : Type} (a : Authorization) (hactive : a.IsActive = true)
    (idx : DocumentIndex σ) (dd : DocumentDecorator δ) (s : σ) (d0 : δ) :
    (∀ (L : List ID) (s2 : σ), TokenListing idx a.Permissions s L s2 →
      AuthorizedWhere (Authorizer.token a) idx dd s d0 = ((L, none), s2, d0)) ∧
    ((∀ p ∈ a.Permissions, p.Resource.Typ = ResourceType.DocumentsResourceType →
        ∀ o, p.Resource.OrgID = some o →
          (idx.GetAccessorsDocuments "org" o s).1.2 = none ∧
          (idx.GetAccessorsDocuments "org" o s).2 = s) →
      AuthorizedWhere (Authorizer.token a) idx dd s d0
        = (((a.Permissions.map (permissionDocuments idx s)).flatten, none), s, d0)) ∧
    (∀ p : Permission, p.Resource.Typ ≠ ResourceType.DocumentsResourceType →
      permissionDocuments idx s p = []) ∧
    (∀ g : Permission → Action,
      AuthorizedWhere (Authorizer.token
          { a with Permissions := a.Permissions.map (fun p => { p with Action := g p }) })
          idx dd s d0
        = AuthorizedWhere (Authorizer.token a) idx dd s d0) := by
  have hact : a.Active = true := hactive
  refine ⟨?_, ?_, ?_, ?_⟩
  · intro L s2 h
    have hscan := tokenAuthorizedWhereScan_of_listing idx a.Permissions s s2 L h []
    simp only [AuthorizedWhere, AuthorizedWhereCall, TokenAuthorizedWhereCall, hactive, hscan]
    rfl
  · intro hread
    have hscan := tokenAuthorizedWhereScan_of_reads idx s a.Permissions hread []
    simp only [AuthorizedWhere, AuthorizedWhereCall, TokenAuthorizedWhereCall, hactive, hscan]
    rfl
  · intro p hp
    cases hty : p.Resource.Typ with
    | DocumentsResourceType => exact absurd hty hp
    | OrgsResourceType => simp [permissionDocuments, permissionID, hty]
    | Other n => simp [permissionDocuments, permissionID, hty]
  · intro g
    simp only [AuthorizedWhere, AuthorizedWhereCall, TokenAuthorizedWhereCall,
      Authorization.IsActive, hact, tokenAuthorizedWhereScan_actions]

end influxdb

/-! ## Errors of the index, option by option -/

namespace influxdb

theorem FailFast_cons_ok (exempt : String → Bool) (r : CallRecord) (T : List CallRecord)
    (err : Option Error) (h : r.err = none) (hT : FailFast exempt T err) :
    FailFast exempt (r :: T) err :=
  ⟨Or.inl h, hT⟩

theorem FailFast_last (exempt : String → Bool) (r : CallRecord) :
    FailFast exempt [r] r.err :=
  ⟨Or.inr (Or.inr ⟨rfl, rfl⟩), trivial⟩

theorem FailFast_of_exempt (exempt : String → Bool) (T : List CallRecord) (err : Option Error)
    (h : ∀ r ∈ T, exempt r.method = true) : FailFast exempt T err := by
  induction T with
  | nil => trivial
  | cons r T ih =>
    exact ⟨Or.inr (Or.inl (h r (List.mem_cons_self _ _))),
      ih (fun q hq => h q (List.mem_cons_of_mem _ hq))⟩

theorem recording_FindOrganizationByName {σ : Type} (idx : DocumentIndex σ) (n : String)
    (st : σ × List CallRecord) :
    (recording idx).FindOrganizationByName n st
      = ((idx.FindOrganizationByName n st.1).1, ((idx.FindOrganizationByName n st.1).2,
          st.2 ++ [{ method := "FindOrganizationByName",
                     err := (idx.FindOrganizationByName n st.1).1.2 }])) := rfl

theorem recording_FindLabelByName {σ : Type} (idx : DocumentIndex σ) (n : String)
    (st : σ × List CallRecord) :
    (recording idx).FindLabelByName n st
      = ((idx.FindLabelByName n st.1).1, ((idx.FindLabelByName n st.1).2,
          st.2 ++ [{ method := "FindLabelByName",
                     err := (idx.FindLabelByName n st.1).1.2 }])) := rfl

theorem recording_AddDocumentOwner {σ : Type} (idx : DocumentIndex σ) (d : ID) (t : String)
    (o : ID) (st : σ × List CallRecord) :
    (recording idx).AddDocumentOwner d t o st
      = ((idx.AddDocumentOwner d t o st.1).1, ((idx.AddDocumentOwner d t o st.1).2,
          st.2 ++ [{ method := "AddDocumentOwner",
                     err := (idx.AddDocumentOwner d t o st.1).1 }])) := rfl

theorem recording_AddDocumentLabel {σ : Type} (idx : DocumentIndex σ) (d l : ID)
    (st : σ × List CallRecord) :
    (recording idx).AddDocumentLabel d l st
      = ((idx.AddDocumentLabel d l st.1).1, ((idx.AddDocumentLabel d l st.1).2,
          st.2 ++ [{ method := "AddDocumentLabel",
                     err := (idx.AddDocumentLabel d l st.1).1 }])) := rfl

theorem recording_RemoveDocumentLabel {σ : Type} (idx : DocumentIndex σ) (d l : ID)
    (st : σ × List CallRecord) :
    (recording idx).RemoveDocumentLabel d l st
      = ((idx.RemoveDocumentLabel d l st.1).1, ((idx.RemoveDocumentLabel d l st.1).2,
          st.2 ++ [{ method := "RemoveDocumentLabel",
                     err := (idx.RemoveDocumentLabel d l st.1).1 }])) := rfl

theorem recording_GetDocumentsAccessors {σ : Type} (idx : DocumentIndex σ) (d : ID)
    (st : σ × List CallRecord) :
    (recording idx).GetDocumentsAccessors d st
      = ((idx.GetDocumentsAccessors d st.1).1, ((idx.GetDocumentsAccessors d st.1).2,
          st.2 ++ [{ method := "GetDocumentsAccessors",
                     err := (idx.GetDocumentsAccessors d st.1).1.2 }])) := rfl

theorem recording_GetAccessorsDocuments {σ : Type} (idx : DocumentIndex σ) (t : String)
    (o : ID) (st : σ × List CallRecord) :
    (recording idx).GetAccessorsDocuments t o st
      = ((idx.GetAccessorsDocuments t o st.1).1, ((idx.GetAccessorsDocuments t o st.1).2,
          st.2 ++ [{ method := "GetAccessorsDocuments",
                     err := (idx.GetAccessorsDocuments t o st.1).1.2 }])) := rfl

theorem recording_UsersOrgs {σ : Type} (idx : DocumentIndex σ) (u : ID)
    (st : σ × List CallRecord) :
    (recording idx).UsersOrgs u st
      = ((idx.UsersOrgs u st.1).1, ((idx.UsersOrgs u st.1).2,
          st.2 ++ [{ method := "UsersOrgs", err := (idx.UsersOrgs u st.1).1.2 }])) := rfl

theorem recording_IsOrgAccessor {σ : Type} (idx : DocumentIndex σ) (u o : ID)
    (st : σ × List CallRecord) :
    (recording idx).IsOrgAccessor u o st
      = ((idx.IsOrgAccessor u o st.1).1, ((idx.IsOrgAccessor u o st.1).2,
          st.2 ++ [{ method := "IsOrgAccessor", err := (idx.IsOrgAccessor u o st.1).1 }])) := rfl

theorem isAccessorOfSome_recording {σ : Type} (idx : DocumentIndex σ) (u : ID)
    (oids : List ID) (s : σ) (L : List CallRecord) :
    ∃ T, (isAccessorOfSome (recording idx) u oids (s, L)).2.2 = L ++ T ∧
      ∀ r ∈ T, r.method = "IsOrgAccessor" := by
  induction oids generalizing s L with
  | nil => exact ⟨[], by simp [isAccessorOfSome]⟩
  | cons o rest ih =>
    rcases h : idx.IsOrgAccessor u o s with ⟨_ | e, s1⟩
    · refine ⟨[{ method := "IsOrgAccessor", err := none }], ?_, by simp⟩
      simp [isAccessorOfSome, recording_IsOrgAccessor, h]
    · obtain ⟨T, hT, hm⟩ := ih s1 (L ++ [{ method := "IsOrgAccessor", err := some e }])
      refine ⟨{ method := "IsOrgAccessor", err := some e } :: T, ?_, ?_⟩
      · simp only [isAccessorOfSome, recording_IsOrgAccessor, h, hT]
        simp
      · intro r hr
        rcases List.mem_cons.mp hr with hr | hr
        · rw [hr]
        · exact hm r hr

theorem collectOrgDocuments_recording {σ : Type} (exempt : String → Bool)
    (idx : DocumentIndex σ) (orgs : List ID) (ids : List ID) (s : σ) (L : List CallRecord) :
    ∃ T, (collectOrgDocuments (recording idx) orgs ids (s, L)).2.2.2 = L ++ T ∧
      FailFast exempt T (collectOrgDocuments (recording idx) orgs ids (s, L)).1 := by
  induction orgs generalizing ids s L with
  | nil => exact ⟨[], by simp [collectOrgDocuments], trivial⟩
  | cons o rest ih =>
    rcases h : idx.GetAccessorsDocuments "org" o s with ⟨⟨dids, _ | e⟩, s1⟩
    · obtain ⟨T, hT, hF⟩ := ih (ids ++ dids) s1
        (L ++ [{ method := "GetAccessorsDocuments", err := none }])
      refine ⟨{ method := "GetAccessorsDocuments", err := none } :: T, ?_, ?_⟩
      · simp only [collectOrgDocuments, recording_GetAccessorsDocuments, h, hT]
        simp
      · simp only [collectOrgDocuments, recording_GetAccessorsDocuments, h]
        exact FailFast_cons_ok exempt _ T _ rfl hF
    · refine ⟨[{ method := "GetAccessorsDocuments", err := some e }], ?_, ?_⟩
      · simp [collectOrgDocuments, recording_GetAccessorsDocuments, h]
      · simp only [collectOrgDocuments, recording_GetAccessorsDocuments, h]
        exact FailFast_last exempt { method := "GetAccessorsDocuments", err := some e }

theorem tokenAuthorizedWhereScan_recording {σ : Type} (exempt : String → Bool)
    (idx : DocumentIndex σ) (ps : List Permission) (ids : List ID) (s : σ)
    (L : List CallRecord) :
    ∃ T, (tokenAuthorizedWhereScan (recording idx) ps ids (s, L)).2.2.2 = L ++ T ∧
      FailFast exempt T (tokenAuthorizedWhereScan (recording idx) ps ids (s, L)).1 := by
  induction ps generalizing ids s L with
  | nil => exact ⟨[], by simp [tokenAuthorizedWhereScan], trivial⟩
  | cons p ps ih =>
    cases hty : p.Resource.Typ with
    | DocumentsResourceType =>
      cases horg : p.Resource.OrgID with
      | none =>
        simp only [tokenAuthorizedWhereScan, hty, horg]
        exact ih _ s L
      | some o =>
        rcases h : idx.GetAccessorsDocuments "org" o s with ⟨⟨dids, _ | e⟩, s1⟩
        · obtain ⟨T, hT, hF⟩ := ih
            (match ResourceType.DocumentsResourceType, p.Resource.ID with
              | ResourceType.DocumentsResourceType, some i => ids ++ dids ++ [i]
              | _, _ => ids ++ dids) s1
            (L ++ [{ method := "GetAccessorsDocuments", err := none }])
          refine ⟨{ method := "GetAccessorsDocuments", err := none } :: T, ?_, ?_⟩
          · simp only [tokenAuthorizedWhereScan, hty, horg, recording_GetAccessorsDocuments, h,
              hT]
            simp
          · simp only [tokenAuthorizedWhereScan, hty, horg, recording_GetAccessorsDocuments, h]
            exact FailFast_cons_ok exempt _ T _ rfl hF
        · refine ⟨[{ method := "GetAccessorsDocuments", err := some e }], ?_, ?_⟩
          · simp [tokenAuthorizedWhereScan, hty, horg, recording_GetAccessorsDocuments, h]
          · simp only [tokenAuthorizedWhereScan, hty, horg, recording_GetAccessorsDocuments, h]
            exact FailFast_last exempt { method := "GetAccessorsDocuments", err := some e }
    | OrgsResourceType =>
      simp only [tokenAuthorizedWhereScan, hty]
      exact ih _ s L
    | Other n =>
      simp only [tokenAuthorizedWhereScan, hty]
      exact ih _ s L

theorem WithOrg_failsFast (org : String) :
    CreateOptionFailsFast noExemption (fun _ => WithOrg org) := by
  intro σ id idx s
  rcases h : idx.FindOrganizationByName org s with ⟨⟨o, _ | e⟩, s1⟩
  · simp [WithOrg, recording_FindOrganizationByName, recording_AddDocumentOwner, h, FailFast]
  · simp [WithOrg, recording_FindOrganizationByName, h, FailFast]

theorem WithLabel_failsFast (l : String) :
    CreateOptionFailsFast noExemption (fun _ => WithLabel l) := by
  intro σ id idx s
  rcases h : idx.FindLabelByName l s with ⟨⟨o, _ | e⟩, s1⟩
  · simp [WithLabel, recording_FindLabelByName, recording_AddDocumentLabel, h, FailFast]
  · simp [WithLabel, recording_FindLabelByName, h, FailFast]

theorem WithoutLabel_failsFast (l : String) :
    CreateOptionFailsFast noExemption (fun _ => WithoutLabel l) := by
  intro σ id idx s
  rcases h : idx.FindLabelByName l s with ⟨⟨o, _ | e⟩, s1⟩
  · simp [WithoutLabel, recording_FindLabelByName, recording_RemoveDocumentLabel, h, FailFast]
  · simp [WithoutLabel, recording_FindLabelByName, h, FailFast]

theorem TokenAuthorized_failsFast (t : Authorization) :
    CreateOptionFailsFast noExemption (fun _ => Authorized (Authorizer.token t)) := by
  intro σ id idx s
  rcases Bool.eq_false_or_eq_true t.IsActive with hact | hact
  · rcases h : idx.GetDocumentsAccessors id s with ⟨⟨oids, _ | e⟩, s1⟩
    · cases hsc : tokenAuthorizedScan id oids t.Permissions <;>
        simp [Authorized, TokenAuthorized, hact, recording_GetDocumentsAccessors, h, hsc,
          FailFast]
    · simp [Authorized, TokenAuthorized, hact, recording_GetDocumentsAccessors, h, FailFast]
  · simp [Authorized, TokenAuthorized, hact, FailFast]

theorem AmbientAuthorized_failsFast (u : ID) :
    CreateOptionFailsFast membershipExempt (fun _ => Authorized (Authorizer.ambient u)) := by
  intro σ id idx s
  rcases h : idx.GetDocumentsAccessors id s with ⟨⟨oids, _ | e⟩, s1⟩
  · obtain ⟨T, hT, hm⟩ := isAccessorOfSome_recording idx (Authorizer.ambient u).GetUserID oids s1
      [{ method := "GetDocumentsAccessors", err := none }]
    have hF : ∀ err, FailFast membershipExempt
        ([{ method := "GetDocumentsAccessors", err := none }] ++ T) err := by
      intro err
      exact FailFast_cons_ok _ _ T err rfl
        (FailFast_of_exempt _ T err (fun r hr => by simp [membershipExempt, hm r hr]))
    rcases hi : isAccessorOfSome (recording idx) (Authorizer.ambient u).GetUserID oids
      (s1, [{ method := "GetDocumentsAccessors", err := none }]) with ⟨_ | _, s2, L2⟩
    · rw [hi] at hT
      simp only at hT
      subst hT
      simp only [Authorized, recording_GetDocumentsAccessors, h, List.nil_append, hi]
      exact hF _
    · rw [hi] at hT
      simp only at hT
      subst hT
      simp only [Authorized, recording_GetDocumentsAccessors, h, List.nil_append, hi]
      exact hF _
  · simp [Authorized, recording_GetDocumentsAccessors, h, FailFast]

theorem AuthorizedWithOrg_failsFast (Allowed : Authorization → Permission → Bool)
    (a : Authorizer) (org : String) :
    CreateOptionFailsFast noExemption (fun _ => AuthorizedWithOrg Allowed a org) := by
  intro σ id idx s
  cases a with
  | token t =>
    rcases Bool.eq_false_or_eq_true t.IsActive with hact | hact
    · rcases h : idx.FindOrganizationByName org s with ⟨⟨o, _ | e⟩, s1⟩
      · cases hal : Allowed t (Permission.mk Action.WriteAction
            (Resource.mk ResourceType.DocumentsResourceType none (some o))) <;>
          simp [AuthorizedWithOrg, TokenAuthorizedWithOrg, hact,
            recording_FindOrganizationByName, recording_AddDocumentOwner, h, hal, FailFast]
      · simp [AuthorizedWithOrg, TokenAuthorizedWithOrg, hact,
          recording_FindOrganizationByName, h, FailFast]
    · simp [AuthorizedWithOrg, TokenAuthorizedWithOrg, hact, FailFast]
  | ambient u =>
    rcases h : idx.FindOrganizationByName org s with ⟨⟨o, _ | e⟩, s1⟩
    · rcases hi : idx.IsOrgAccessor (Authorizer.ambient u).GetUserID o s1 with ⟨_ | e, s2⟩
      · simp [AuthorizedWithOrg, recording_FindOrganizationByName, recording_IsOrgAccessor,
          recording_AddDocumentOwner, h, hi, FailFast]
      · simp [AuthorizedWithOrg, recording_FindOrganizationByName, recording_IsOrgAccessor,
          h, hi, FailFast]
    · simp [AuthorizedWithOrg, recording_FindOrganizationByName, h, FailFast]

theorem WhereOrg_failsFast (org : String) :
    FindOptionFailsFast noExemption (fun _ _ => WhereOrg org) := by
  intro σ δ idx dd s d0
  rcases h : idx.FindOrganizationByName org s with ⟨⟨o, _ | e⟩, s1⟩
  · simp [WhereOrg, recording_FindOrganizationByName, recording_GetAccessorsDocuments, h,
      FailFast]
  · simp [WhereOrg, recording_FindOrganizationByName, h, FailFast]

theorem AuthorizedWhereOrg_failsFast (Allowed : Authorization → Permission → Bool)
    (a : Authorizer) (org : String) :
    FindOptionFailsFast noExemption (fun _ _ => AuthorizedWhereOrg Allowed a org) := by
  intro σ δ idx dd s d0
  cases a with
  | token t =>
    rcases h : idx.FindOrganizationByName org s with ⟨⟨o, _ | e⟩, s1⟩
    · cases hal : Allowed t (Permission.mk Action.ReadAction
          (Resource.mk ResourceType.OrgsResourceType none (some o))) <;>
        simp [AuthorizedWhereOrg, TokenAuthorizedWhereOrg, recording_FindOrganizationByName,
          recording_GetAccessorsDocuments, h, hal, FailFast]
    · simp [AuthorizedWhereOrg, TokenAuthorizedWhereOrg, recording_FindOrganizationByName, h,
        FailFast]
  | ambient u =>
    rcases h : idx.FindOrganizationByName org s with ⟨⟨o, _ | e⟩, s1⟩
    · rcases hi : idx.IsOrgAccessor (Authorizer.ambient u).GetUserID o s1 with ⟨_ | e, s2⟩
      · simp [AuthorizedWhereOrg, recording_FindOrganizationByName, recording_IsOrgAccessor,
          recording_GetAccessorsDocuments, h, hi, FailFast]
      · simp [AuthorizedWhereOrg, recording_FindOrganizationByName, recording_IsOrgAccessor,
          h, hi, FailFast]
    · simp [AuthorizedWhereOrg, recording_FindOrganizationByName, h, FailFast]

theorem AuthorizedWhere_failsFast (a : Authorizer) :
    FindOptionFailsFast noExemption (fun _ _ => AuthorizedWhere a) := by
  intro σ δ idx dd s d0
  cases a with
  | token t =>
    rcases Bool.eq_false_or_eq_true t.IsActive with hact | hact
    · obtain ⟨T, hT, hF⟩ := tokenAuthorizedWhereScan_recording noExemption idx t.Permissions
        [] s []
      rcases hsc : tokenAuthorizedWhereScan (recording idx) t.Permissions [] (s, [])
        with ⟨_ | e, ids1, s2, L2⟩
      · rw [hsc] at hT hF
        simp only [List.nil_append] at hT hF
        subst hT
        simp only [AuthorizedWhere, AuthorizedWhereCall, TokenAuthorizedWhereCall, hact, hsc]
        exact hF
      · rw [hsc] at hT hF
        simp only [List.nil_append] at hT hF
        subst hT
        simp only [AuthorizedWhere, AuthorizedWhereCall, TokenAuthorizedWhereCall, hact, hsc]
        exact hF
    · simp [AuthorizedWhere, AuthorizedWhereCall, TokenAuthorizedWhereCall, hact, FailFast]
  | ambient u =>
    rcases h : idx.GetAccessorsDocuments "user" (Authorizer.ambient u).GetUserID s
      with ⟨⟨dids, _ | e⟩, s1⟩
    · rcases h2 : idx.UsersOrgs (Authorizer.ambient u).GetUserID s1 with ⟨⟨orgs, _ | e⟩, s2⟩
      · obtain ⟨T, hT, hF⟩ := collectOrgDocuments_recording noExemption idx orgs dids s2
          [{ method := "GetAccessorsDocuments", err := none },
           { method := "UsersOrgs", err := none }]
        rcases hc : collectOrgDocuments (recording idx) orgs dids
            (s2, [{ method := "GetAccessorsDocuments", err := none },
                  { method := "UsersOrgs", err := none }]) with ⟨_ | e, ids1, s3, L3⟩
        · rw [hc] at hT hF
          simp only at hT hF
          subst hT
          simp only [AuthorizedWhere, AuthorizedWhereCall, AmbientAuthorizedWhereCall,
            recording_GetAccessorsDocuments, recording_UsersOrgs, h, h2, List.nil_append,
            List.singleton_append, hc]
          exact FailFast_cons_ok _ { method := "GetAccessorsDocuments", err := none } _ _ rfl
            (FailFast_cons_ok _ { method := "UsersOrgs", err := none } _ _ rfl hF)
        · rw [hc] at hT hF
          simp only at hT hF
          subst hT
          simp only [AuthorizedWhere, AuthorizedWhereCall, AmbientAuthorizedWhereCall,
            recording_GetAccessorsDocuments, recording_UsersOrgs, h, h2, List.nil_append,
            List.singleton_append, hc]
          exact FailFast_cons_ok _ { method := "GetAccessorsDocuments", err := none } _ _ rfl
            (FailFast_cons_ok _ { method := "UsersOrgs", err := none } _ _ rfl hF)
      · simp [AuthorizedWhere, AuthorizedWhereCall, AmbientAuthorizedWhereCall,
          recording_GetAccessorsDocuments, recording_UsersOrgs, h, h2, FailFast]
    · simp [AuthorizedWhere, AuthorizedWhereCall, AmbientAuthorizedWhereCall,
        recording_GetAccessorsDocuments, h, FailFast]

theorem TokenAuthorizedWhereID_failsFast (t : Authorization) (d : ID) :
    FindOptionFailsFast noExemption (fun _ _ => AuthorizedWhereID (Authorizer.token t) d) := by
  intro σ δ idx dd s d0
  rcases Bool.eq_false_or_eq_true t.IsActive with hact | hact
  · rcases h : idx.GetDocumentsAccessors d s with ⟨⟨oids, _ | e⟩, s1⟩
    · cases hsc : tokenAuthorizedWhereIDScan d oids t.Permissions <;>
        simp [AuthorizedWhereID, TokenAuthorizedWhereID, hact, recording_GetDocumentsAccessors,
          h, hsc, FailFast]
    · simp [AuthorizedWhereID, TokenAuthorizedWhereID, hact, recording_GetDocumentsAccessors,
        h, FailFast]
  · simp [AuthorizedWhereID, TokenAuthorizedWhereID, hact, FailFast]

theorem AmbientAuthorizedWhereID_failsFast (u d : ID) :
    FindOptionFailsFast membershipExempt
      (fun _ _ => AuthorizedWhereID (Authorizer.ambient u) d) := by
  intro σ δ idx dd s d0
  rcases h : idx.GetDocumentsAccessors d s with ⟨⟨oids, _ | e⟩, s1⟩
  · obtain ⟨T, hT, hm⟩ := isAccessorOfSome_recording idx (Authorizer.ambient u).GetUserID oids s1
      [{ method := "GetDocumentsAccessors", err := none }]
    have hF : ∀ err, FailFast membershipExempt
        ([{ method := "GetDocumentsAccessors", err := none }] ++ T) err := by
      intro err
      exact FailFast_cons_ok _ _ T err rfl
        (FailFast_of_exempt _ T err (fun r hr => by simp [membershipExempt, hm r hr]))
    rcases hi : isAccessorOfSome (recording idx) (Authorizer.ambient u).GetUserID oids
      (s1, [{ method := "GetDocumentsAccessors", err := none }]) with ⟨_ | _, s2, L2⟩
    · rw [hi] at hT
      simp only at hT
      subst hT
      simp only [AuthorizedWhereID, recording_GetDocumentsAccessors, h, List.nil_append, hi]
      exact hF _
    · rw [hi] at hT
      simp only at hT
      subst hT
      simp only [AuthorizedWhereID, recording_GetDocumentsAccessors, h, List.nil_append, hi]
      exact hF _
  · simp [AuthorizedWhereID, recording_GetDocumentsAccessors, h, FailFast]

theorem isAccessorOfSome_refused_then_granted {σ : Type} (idx : DocumentIndex σ) (u : ID)
    (pre : List ID) (s1 s2 : σ) (h : AllRefused idx u pre s1 s2) (o : ID) (post : List ID)
    (s3 : σ) (hgrant : idx.IsOrgAccessor u o s2 = (none, s3)) :
    isAccessorOfSome idx u (pre ++ o :: post) s1 = (true, s3) := by
  induction h with
  | nil s => simp [isAccessorOfSome, hgrant]
  | cons o1 rest s s1 s2 e hcall _ _ ih =>
    simp only [List.cons_append, isAccessorOfSome, hcall]
    exact ih hgrant

theorem isAccessorOfSome_all_refused {σ : Type} (idx : DocumentIndex σ) (u : ID)
    (oids : List ID) (s1 s2 : σ) (h : AllRefused idx u oids s1 s2) :
    isAccessorOfSome idx u oids s1 = (false, s2) := by
  induction h with
  | nil s => rfl
  | cons o1 rest s s1 s2 e hcall _ _ ih =>
    simp only [isAccessorOfSome, hcall]
    exact ih

/-- Claim C16, as amended. For every create-option and find-option of
`document.go` and every index: a call on the index that returns an error is the
last call the option makes, and its error is the error the option returns. The
exception is the `IsOrgAccessor` calls that `Authorized` and `AuthorizedWhereID`
make for an identity that is not a token, one per accessor org of the document:
a call that returns an Unauthorized error moves on to the next org, the first call
that returns no error grants access, and when every org has refused with
Unauthorized the option reports Unauthorized. -/
theorem C16_options_fail_fast (Allowed : Authorization → Permission → Bool) :
    (∀ org, CreateOptionFailsFast noExemption (fun _ => WithOrg org)) ∧
    (∀ l, CreateOptionFailsFast noExemption (fun _ => WithLabel l)) ∧
    (∀ l, CreateOptionFailsFast noExemption (fun _ => WithoutLabel l)) ∧
    (∀ t, CreateOptionFailsFast noExemption (fun _ => Authorized (Authorizer.token t))) ∧
    (∀ u, CreateOptionFailsFast membershipExempt (fun _ => Authorized (Authorizer.ambient u))) ∧
    (∀ a org, CreateOptionFailsFast noExemption (fun _ => AuthorizedWithOrg Allowed a org)) ∧
    FindOptionFailsFast noExemption (fun _ _ => IncludeContent) ∧
    FindOptionFailsFast noExemption (fun _ _ => IncludeLabels) ∧
    (∀ org, FindOptionFailsFast noExemption (fun _ _ => WhereOrg org)) ∧
    (∀ a org, FindOptionFailsFast noExemption (fun _ _ => AuthorizedWhereOrg Allowed a org)) ∧
    (∀ a, FindOptionFailsFast noExemption (fun _ _ => AuthorizedWhere a)) ∧
    (∀ d, FindOptionFailsFast noExemption (fun _ _ => WhereID d)) ∧
    (∀ t d, FindOptionFailsFast noExemption
      (fun _ _ => AuthorizedWhereID (Authorizer.token t) d)) ∧
    (∀ u d, FindOptionFailsFast membershipExempt
      (fun _ _ => AuthorizedWhereID (Authorizer.ambient u) d)) ∧
    (∀ (σ δ : Type) (idx : DocumentIndex σ) (dd : DocumentDecorator δ) (u d : ID)
      (s s1 s2 s3 : σ) (d0 : δ) (pre post : List ID) (o : ID),
      idx.GetDocumentsAccessors d s = ((pre ++ o :: post, none), s1) →
      AllRefused idx u pre s1 s2 →
      idx.IsOrgAccessor u o s2 = (none, s3) →
      Authorized (Authorizer.ambient u) d idx s = (none, s3) ∧
      AuthorizedWhereID (Authorizer.ambient u) d idx dd s d0 = (([d], none), s3, d0)) ∧
    (∀ (σ δ : Type) (idx : DocumentIndex σ) (dd : DocumentDecorator δ) (u d : ID)
      (s s1 s2 : σ) (d0 : δ) (oids : List ID),
      idx.GetDocumentsAccessors d s = ((oids, none), s1) →
      AllRefused idx u oids s1 s2 →
      (∃ msg, Authorized (Authorizer.ambient u) d idx s
        = (some { Code := ErrCode.EUnauthorized, Msg := msg }, s2)) ∧
      (∃ msg, AuthorizedWhereID (Authorizer.ambient u) d idx dd s d0
        = (([], some { Code := ErrCode.EUnauthorized, Msg := msg }), s2, d0))) := by
  refine ⟨WithOrg_failsFast, WithLabel_failsFast, WithoutLabel_failsFast,
    TokenAuthorized_failsFast, AmbientAuthorized_failsFast,
    AuthorizedWithOrg_failsFast Allowed, ?_, ?_, WhereOrg_failsFast,
    AuthorizedWhereOrg_failsFast Allowed, AuthorizedWhere_failsFast, ?_,
    TokenAuthorizedWhereID_failsFast, AmbientAuthorizedWhereID_failsFast, ?_, ?_⟩
  · intro σ δ idx dd s d0
    simp [IncludeContent, FailFast]
  · intro σ δ idx dd s d0
    simp [IncludeLabels, FailFast]
  · intro d σ δ idx dd s d0
    simp [WhereID, FailFast]
  · intro σ δ idx dd u d s s1 s2 s3 d0 pre post o hacc href hgrant
    have hloop := isAccessorOfSome_refused_then_granted idx u pre s1 s2 href o post s3 hgrant
    constructor
    · simp [Authorized, hacc, Authorizer.GetUserID, hloop]
    · simp [AuthorizedWhereID, hacc, Authorizer.GetUserID, hloop]
  · intro σ δ idx dd u d s s1 s2 d0 oids hacc href
    have hloop := isAccessorOfSome_all_refused idx u oids s1 s2 href
    exact ⟨⟨"authorizer cannot access document",
      by simp [Authorized, hacc, Authorizer.GetUserID, hloop]⟩,
      ⟨"authorizer cannot access document",
      by simp [AuthorizedWhereID, hacc, Authorizer.GetUserID, hloop]⟩⟩

end influxdb

/-! ## The theorems of the second part at concrete inputs -/

namespace Examples

open influxdb kv

/-- Claim C11 fails as stated. The active token with no permission satisfies
the claim's condition for org 1, which is among the accessors of document 5, and
`AuthorizedWhereID` returns an Unauthorized error, not `[5]`. And an option value
`AuthorizedWhere(token)` whose first evaluation returned `[5]` returns `[5]` again
when it is evaluated on the store in which org 1 has lost document 5, where
`GetAccessorsDocuments("org", 1)` returns no ID. -/
theorem C11_counterexample :
    emptyToken.IsActive = true ∧
    (∀ p ∈ emptyToken.Permissions, p.Resource.Typ = ResourceType.DocumentsResourceType ∧
      p.Resource.OrgID = some 1 ∧ p.Resource.ID = none) ∧
    readIndex.GetDocumentsAccessors 5 store = (([1, 2], none), store) ∧
    AuthorizedWhereID (Authorizer.token emptyToken) 5 readIndex DocumentDecorator.asDecorator
        store readDecorator
      = (([], some { Code := ErrCode.EUnauthorized,
                     Msg := "authorization cannot access document" }), store, readDecorator) ∧
    AuthorizedWhereCall (Authorizer.token orgToken) [] readIndex store
      = (([5], none), [5], store) ∧
    readIndex.GetAccessorsDocuments "org" 1 storeDisowned = (([], none), storeDisowned) ∧
    (AuthorizedWhereCall (Authorizer.token orgToken) [5] readIndex storeDisowned).1
      = ([5], none) :=
  ⟨rfl, (by intro p hp; cases hp), rfl, rfl, rfl, rfl, rfl⟩

/-- Claim C11, as amended, at the token with a Write permission on the documents
of org 1, which owns document 5. -/
theorem C11_org_scoped_token_witness :
    orgToken.IsActive = true ∧
    writeIndex.GetDocumentsAccessors 5 store = (([1], none), store) ∧
    AuthorizedWhereID (Authorizer.token orgToken) 5 writeIndex DocumentDecorator.asDecorator
      store readDecorator = (([5], none), store, readDecorator) ∧
    orgCalls readIndex 1 orgToken.Permissions.length store = ([[5]], none, store) ∧
    AuthorizedWhere (Authorizer.token orgToken) readIndex DocumentDecorator.asDecorator
      store readDecorator = (([5], none), store, readDecorator) :=
  have hperms : ∀ p ∈ orgToken.Permissions,
      p.Resource.Typ = ResourceType.DocumentsResourceType ∧
      p.Resource.OrgID = some 1 ∧ p.Resource.ID = none := by
    intro p hp
    simp only [orgToken, List.mem_singleton] at hp
    subst hp
    exact ⟨rfl, rfl, rfl⟩
  ⟨rfl, rfl,
    ((C11_org_scoped_token orgToken 1 5 [1] writeIndex DocumentDecorator.asDecorator store store
      readDecorator rfl hperms rfl).2.1 (by decide) (by decide)).1,
    rfl,
    (C11_org_scoped_token orgToken 1 5 [1, 2] readIndex DocumentDecorator.asDecorator store
      store readDecorator rfl hperms rfl).2.2.1⟩

/-- Claim C12 at its failing input. The org name `acme` resolves to org 1. The
active token that is allowed the permission with action Read, type Documents and
OrgID 1 gets an Unauthorized error and no IDs, although
`GetAccessorsDocuments("org", 1)` returns `[5]`; the active token that is not
allowed that permission, and is allowed the one of type Orgs, gets `[5]`. -/
theorem C12_orgs_permission_checked :
    (readIndex.FindOrganizationByName "acme" store).1 = (1, none) ∧
    docsReaderToken.IsActive = true ∧
    allowed docsReaderToken readOrgDocuments = true ∧
    AuthorizedWhereOrg allowed (Authorizer.token docsReaderToken) "acme" readIndex
        DocumentDecorator.asDecorator store readDecorator
      = (([], some { Code := ErrCode.EUnauthorized,
                     Msg := "authorizer cannot access documents" }), store, readDecorator) ∧
    (readIndex.GetAccessorsDocuments "org" 1 store).1 = ([5], none) ∧
    orgReaderToken.IsActive = true ∧
    allowed orgReaderToken readOrgDocuments = false ∧
    AuthorizedWhereOrg allowed (Authorizer.token orgReaderToken) "acme" readIndex
        DocumentDecorator.asDecorator store readDecorator
      = (([5], none), store, readDecorator) :=
  ⟨rfl, rfl, by decide, rfl, rfl, rfl, by decide, rfl⟩

/-- Claim C13 at the token with a Write permission on the documents of org 1: the
option returns what `AddDocumentOwner(6, "org", 1)` returns. -/
theorem C13_authorizedWithOrg_gate_witness :
    AuthorizedWithOrg allowed (Authorizer.token orgToken) "acme" 6 writeIndex store
      = writeIndex.AddDocumentOwner 6 "org" 1 store :=
  (C13_authorizedWithOrg_gate allowed 10 orgToken "acme" 6 writeIndex store).2.2.2.2.2.2.1
    rfl 1 store rfl (by decide)

/-- Claim C14 at an update of document 5 gated by `Authorized` for the token with
a Write permission on the documents of org 1, which owns the document. -/
theorem C14_update_document_witness :
    (UpdateDocument codec "ns" updatedDoc [Authorized (Authorizer.token orgToken)] store).1 = none ∧
    ∃ txo k vm vd,
      runCreateOptions writeIndex updatedDoc.ID [Authorized (Authorizer.token orgToken)] store
        = (none, txo) ∧
      codec.encodeID updatedDoc.ID = .ok k ∧ codec.marshalMeta updatedDoc.Meta = .ok vm ∧
      codec.marshalData updatedDoc.Data = .ok vd ∧
      (UpdateDocument codec "ns" updatedDoc [Authorized (Authorizer.token orgToken)] store).2.Get
        (pathJoin "ns" documentMetaBucket) k = .ok vm :=
  have h := (C14_update_document codec "ns" updatedDoc store).1
    [Authorized (Authorizer.token orgToken)]
    (UpdateDocument codec "ns" updatedDoc [Authorized (Authorizer.token orgToken)] store).2 rfl
  match h with
  | ⟨txo, k, vm, vd, h1, h2, h3, h4, h5, _⟩ => ⟨rfl, txo, k, vm, vd, h1, h2, h3, h4, h5⟩

/-- Claim C15 at a delete whose options are `WhereID(5)` and `IncludeContent`:
nothing is deleted. -/
theorem C15_decorator_flags_witness :
    ∃ msg, DeleteDocuments codec "ns" ([WhereID 5] ++ IncludeContent :: []) store
      = (some { Code := ErrCode.EInternal, Msg := msg }, store) :=
  ((C15_decorator_flags codec "ns" deleteDecorator store).2.2 [WhereID 5] [] [5] store
    deleteDecorator rfl rfl).1

/-- Claim C16 fails as stated. With user 10 a member of org 2 only, the call
`IsOrgAccessor(10, 1)` returns an Unauthorized error and `Authorized` goes on to
org 2 and returns no error. On the index whose `IsOrgAccessor` fails for org 1
with an Internal error, `Authorized` and `AuthorizedWhereID` go on to org 2: they
succeed when org 2 grants access and report Unauthorized, not the Internal error,
when it refuses. -/
theorem C16_counterexample :
    (readIndex.GetDocumentsAccessors 5 storeMemberOfSecond).1 = ([1, 2], none) ∧
    (readIndex.IsOrgAccessor 10 1 storeMemberOfSecond).1
      = some { Code := ErrCode.EUnauthorized, Msg := "user is not org member" } ∧
    (Authorized (Authorizer.ambient 10) 5 readIndex storeMemberOfSecond).1 = none ∧
    ((faultyIndex true).GetDocumentsAccessors 5 store).1 = ([1, 2], none) ∧
    ((faultyIndex true).IsOrgAccessor 10 1 store).1 = some internalFailure ∧
    (Authorized (Authorizer.ambient 10) 5 (faultyIndex true) store).1 = none ∧
    (AuthorizedWhereID (Authorizer.ambient 10) 5 (faultyIndex true)
      DocumentDecorator.asDecorator store readDecorator).1 = ([5], none) ∧
    ((faultyIndex false).IsOrgAccessor 10 1 store).1 = some internalFailure ∧
    (Authorized (Authorizer.ambient 10) 5 (faultyIndex false) store).1
      = some { Code := ErrCode.EUnauthorized, Msg := "authorizer cannot access document" } ∧
    (AuthorizedWhereID (Authorizer.ambient 10) 5 (faultyIndex false)
      DocumentDecorator.asDecorator store readDecorator).1
      = ([], some { Code := ErrCode.EUnauthorized,
                    Msg := "authorizer cannot access document" }) :=
  ⟨rfl, rfl, rfl, rfl, rfl, rfl, rfl, rfl, rfl, rfl⟩

/-- Claim C16, as amended, at `WithOrg` with a name that does not resolve: the one
call made is the failing one, and its error is returned. -/
theorem C16_options_fail_fast_witness :
    FailFast noExemption
      (WithOrg "nosuch" 6 (recording writeIndex) (store, [])).2.2
      (WithOrg "nosuch" 6 (recording writeIndex) (store, [])).1 ∧
    (WithOrg "nosuch" 6 (recording writeIndex) (store, [])).1 ≠ none :=
  ⟨(C16_options_fail_fast allowed).1 "nosuch" Tx 6 writeIndex store, by decide⟩

/-- Claim C17 at the token with a Write permission on the documents of org 1. -/
theorem C17_token_listing_witness :
    orgToken.IsActive = true ∧
    AuthorizedWhere (Authorizer.token orgToken) readIndex DocumentDecorator.asDecorator store
      readDecorator
      = (((orgToken.Permissions.map (permissionDocuments readIndex store)).flatten, none),
          store, readDecorator) ∧
    (orgToken.Permissions.map (permissionDocuments readIndex store)).flatten = [5] :=
  ⟨rfl, (C17_token_listing orgToken rfl readIndex DocumentDecorator.asDecorator store
    readDecorator).2.1
    (by
      intro p hp _ o ho
      simp only [orgToken, List.mem_singleton] at hp
      subst hp
      simp only [Option.some.injEq] at ho
      subst ho
      exact ⟨rfl, rfl⟩), rfl⟩

/-- Claim C18 at user 10 and org 1 on the example store: the Member edge grants
access on a read-only index and not on a writable one. -/
theorem C18_isOrgAccessor_witness :
    (readIndex.IsOrgAccessor 10 1 store).1 = none ∧
    (writeIndex.IsOrgAccessor 10 1 store).1 ≠ none :=
  ⟨(C18_isOrgAccessor 10 1 store).1.mpr
    ⟨_, List.mem_cons_of_mem _ (List.mem_cons_of_mem _ (List.mem_singleton_self _)),
      rfl, rfl, rfl, Or.inr rfl⟩, by decide⟩

/-- Claim C19 fails as stated: the call `RemoveDocumentOwner(5, "org", 2)` on a
writable index removes the Member-role edge of org 2. -/
theorem C19_counterexample :
    ownerEdge 1 5 ∈ store.urms ∧ memberEdge 2 5 ∈ store.urms ∧
    (writeIndex.RemoveDocumentOwner 5 "org" 2 store).1 = none ∧
    memberEdge 2 5 ∉ (writeIndex.RemoveDocumentOwner 5 "org" 2 store).2.urms := by
  refine ⟨by decide, by decide, rfl, by decide⟩

/-- Claim C19, as amended, at document 5 of the example store, owned by org 1 and
with a Member edge from org 2. -/
theorem C19_accessors_by_mode_witness :
    ownerEdge 1 5 ∈ store.urms ∧ memberEdge 2 5 ∈ store.urms ∧
    (∀ x, x ∈ (readIndex.GetDocumentsAccessors 5 store).1.1 ↔ x = 1 ∨ x = 2) ∧
    (∀ x, x ∈ (writeIndex.GetDocumentsAccessors 5 store).1.1 ↔ x = 1) ∧
    memberEdge 2 5 ∈ (WithoutOwners 5 writeIndex store).2.urms :=
  have h := C19_accessors_by_mode store 5 1 2 (by decide) (by decide) (by decide) (by decide)
  ⟨by decide, by decide, h.2.1, h.2.2.2.1, h.2.2.2.2.2.2⟩

/-- Claim C20 at the example store, whose Meta bucket holds the one record of
document 5. -/
theorem C20_find_without_options_witness :
    lookupBucket store.buckets (pathJoin "ns" documentMetaBucket) = some [([5], [1, 97, 49])] ∧
    FindDocuments codec "ns" [] store
      = ([{ ID := 5, Meta := meta5, Data := none, Labels := [] }], none) ∧
    List.Forall₂ (RecordOf codec) [([5], [1, 97, 49])]
      [{ ID := 5, Meta := meta5, Data := none, Labels := [] }] :=
  ⟨rfl, rfl, (C20_find_without_options codec "ns" store [([5], [1, 97, 49])] rfl
    (by decide)).1 _ rfl⟩

end Examples


/-! ## A second evaluation of `AuthorizedWhere` -/

namespace influxdb

theorem collectOrgDocuments_append {σ : Type} (idx : DocumentIndex σ) (orgs : List ID) :
    ∀ (ids : List ID) (s : σ),
      collectOrgDocuments idx orgs ids s
        = ((collectOrgDocuments idx orgs [] s).1,
            ids ++ (collectOrgDocuments idx orgs [] s).2.1,
            (collectOrgDocuments idx orgs [] s).2.2) := by
  induction orgs with
  | nil =>
    intro ids s
    simp [collectOrgDocuments]
  | cons o rest ih =>
    intro ids s
    rcases h : idx.GetAccessorsDocuments "org" o s with ⟨⟨dids, _ | e⟩, s1⟩
    · simp only [collectOrgDocuments, h, List.nil_append]
      rw [ih (ids ++ dids) s1, ih dids s1]
      simp
    · simp [collectOrgDocuments, h]

theorem tokenAuthorizedWhereScan_append {σ : Type} (idx : DocumentIndex σ)
    (ps : List Permission) :
    ∀ (ids : List ID) (s : σ),
      tokenAuthorizedWhereScan idx ps ids s
        = ((tokenAuthorizedWhereScan idx ps [] s).1,
            ids ++ (tokenAuthorizedWhereScan idx ps [] s).2.1,
            (tokenAuthorizedWhereScan idx ps [] s).2.2) := by
  induction ps with
  | nil =>
    intro ids s
    simp [tokenAuthorizedWhereScan]
  | cons p ps ih =>
    intro ids s
    cases hty : p.Resource.Typ with
    | DocumentsResourceType =>
      cases horg : p.Resource.OrgID with
      | none =>
        cases hid : p.Resource.ID with
        | none =>
          simp only [tokenAuthorizedWhereScan, hty, horg, hid]
          exact ih ids s
        | some i =>
          simp only [tokenAuthorizedWhereScan, hty, horg, hid, List.nil_append]
          rw [ih (ids ++ [i]) s, ih [i] s]
          simp
      | some o =>
        rcases h : idx.GetAccessorsDocuments "org" o s with ⟨⟨dids, _ | e⟩, s1⟩
        · cases hid : p.Resource.ID with
          | none =>
            simp only [tokenAuthorizedWhereScan, hty, horg, hid, h, List.nil_append]
            rw [ih (ids ++ dids) s1, ih dids s1]
            simp
          | some i =>
            simp only [tokenAuthorizedWhereScan, hty, horg, hid, h, List.nil_append]
            rw [ih (ids ++ dids ++ [i]) s1, ih (dids ++ [i]) s1]
            simp
        · simp [tokenAuthorizedWhereScan, hty, horg, h]
    | OrgsResourceType =>
      simp only [tokenAuthorizedWhereScan, hty]
      exact ih ids s
    | Other n =>
      simp only [tokenAuthorizedWhereScan, hty]
      exact ih ids s

/-- A call of the closure of `AuthorizedWhere(a)` that starts with the captured
slice `ids` returns, when it succeeds, `ids` followed by what the call of a fresh
option value returns, and leaves that list in the captured slice. -/
theorem AuthorizedWhereCall_append {σ : Type} (a : Authorizer) (idx : DocumentIndex σ)
    (s s1 : σ) (l c : List ID)
    (h : AuthorizedWhereCall a [] idx s = ((l, none), c, s1)) (ids : List ID) :
    c = l ∧ AuthorizedWhereCall a ids idx s = ((ids ++ l, none), ids ++ l, s1) := by
  cases a with
  | token t =>
    simp only [AuthorizedWhereCall, TokenAuthorizedWhereCall] at h ⊢
    rcases Bool.eq_false_or_eq_true t.IsActive with ha | ha
    · simp only [ha, Bool.not_true, Bool.false_eq_true, if_false] at h ⊢
      rw [tokenAuthorizedWhereScan_append idx t.Permissions ids s]
      rcases hs : tokenAuthorizedWhereScan idx t.Permissions [] s with ⟨_ | e, l1, s2⟩
      · simp only [hs, Prod.mk.injEq, and_true, true_and] at h
        obtain ⟨h1, h2, h3⟩ := h
        subst h1
        subst h2
        subst h3
        exact ⟨rfl, rfl⟩
      · simp [hs] at h
    · simp [ha] at h
  | ambient u =>
    simp only [AuthorizedWhereCall, AmbientAuthorizedWhereCall] at h ⊢
    rcases h1 : idx.GetAccessorsDocuments "user" (Authorizer.ambient u).GetUserID s
      with ⟨⟨dids, _ | e⟩, s2⟩
    · simp only [h1, List.nil_append] at h ⊢
      rcases h2 : idx.UsersOrgs (Authorizer.ambient u).GetUserID s2 with ⟨⟨orgIDs, _ | e⟩, s3⟩
      · simp only [h2] at h ⊢
        rw [collectOrgDocuments_append idx orgIDs (ids ++ dids) s3]
        rw [collectOrgDocuments_append idx orgIDs dids s3] at h
        rcases hs : collectOrgDocuments idx orgIDs [] s3 with ⟨_ | e, l1, s4⟩
        · simp only [hs, Prod.mk.injEq, and_true, true_and] at h
          obtain ⟨h3, h4, h5⟩ := h
          subst h3
          subst h4
          subst h5
          exact ⟨rfl, by simp⟩
        · simp [hs] at h
      · simp [h2] at h
    · simp [h1] at h

/-- The second evaluation of one option value `AuthorizedWhere(a)` on an index
whose state the first evaluation has left as it was: when the first evaluation
returns the list `l`, the second returns `l` followed by `l`; the two results are
the same only when `l` is empty. -/
theorem AuthorizedWhere_second_evaluation {σ : Type} (a : Authorizer) (idx : DocumentIndex σ)
    (s : σ) (l c : List ID)
    (h : AuthorizedWhereCall a [] idx s = ((l, none), c, s)) :
    AuthorizedWhereTwice a idx s = ((l, none), (l ++ l, none)) ∧
    ((AuthorizedWhereTwice a idx s).2 = (AuthorizedWhereTwice a idx s).1 ↔ l = []) := by
  obtain ⟨hc, hcall⟩ := AuthorizedWhereCall_append a idx s s l c h l
  have htwice : AuthorizedWhereTwice a idx s = ((l, none), (l ++ l, none)) := by
    simp only [AuthorizedWhereTwice, h, hc, hcall]
  refine ⟨htwice, ?_⟩
  rw [htwice]
  simp

end influxdb


/-! ## `DeleteDocuments` and `FindDocuments` at the ends of the option list -/

namespace kv

open influxdb

/-- Claim C22. `DeleteDocuments` with no options returns no error and the store
afterwards is the store before the call: every Meta record, every Data record and
every ownership edge is still there. More generally, when the options resolve to
no IDs, the store afterwards is the store the options left. `FindDocuments` with
no options takes the other path: it returns what `findDocuments` lists. -/
theorem C22_delete_without_options (c : Codec) (ns : String) (tx : Tx) :
    DeleteDocuments c ns [] tx = (none, tx) ∧
    (∀ id, findDocumentMetaByID c (DeleteDocuments c ns [] tx).2 ns id
        = findDocumentMetaByID c tx ns id ∧
      findDocumentDataByID c (DeleteDocuments c ns [] tx).2 ns id
        = findDocumentDataByID c tx ns id) ∧
    (DeleteDocuments c ns [] tx).2.urms = tx.urms ∧
    (∀ (opts : List (DocumentFindOptions Tx DocumentDecorator)) (tx1 : Tx)
      (d1 : DocumentDecorator),
      runFindOptions writeIndex DocumentDecorator.asDecorator opts [] tx deleteDecorator
        = (([], none), tx1, d1) →
      DeleteDocuments c ns opts tx = (none, tx1)) ∧
    FindDocuments c ns [] tx
      = (match findDocuments c tx ns [] with
         | .error err => ([], some err)
         | .ok ds => (ds, none)) := by
  have h0 : DeleteDocuments c ns [] tx = (none, tx) := by
    simp [DeleteDocuments, Update, runFindOptions, deleteLoop]
  refine ⟨h0, ?_, ?_, ?_, ?_⟩
  · intro id
    rw [h0]
    exact ⟨rfl, rfl⟩
  · rw [h0]
  · intro opts tx1 d1 h
    unfold writeIndex deleteDecorator at h
    simp [DeleteDocuments, Update, h, deleteLoop]
  · unfold FindDocuments View
    cases h : findDocuments c tx ns [] with
    | error e => simp [h]
    | ok ds => simp [h]

theorem runFindOptions_decorators (idx : influxdb.DocumentIndex Tx)
    (opts : List (DocumentFindOptions Tx DocumentDecorator))
    (hdec : ∀ o ∈ opts, o = IncludeContent ∨ o = IncludeLabels) :
    ∀ (ids : List ID) (tx : Tx) (d : DocumentDecorator), d.writable = false →
      ∃ d1, runFindOptions idx DocumentDecorator.asDecorator opts ids tx d
          = ((ids, none), tx, d1) ∧ d1.writable = false := by
  induction opts with
  | nil =>
    intro ids tx d hw
    exact ⟨d, rfl, hw⟩
  | cons o rest ih =>
    intro ids tx d hw
    have hrest : ∀ o ∈ rest, o = IncludeContent ∨ o = IncludeLabels :=
      fun o1 h1 => hdec o1 (List.mem_cons_of_mem _ h1)
    rcases hdec o (List.mem_cons_self _ _) with ho | ho
    · subst ho
      obtain ⟨d1, h1, h2⟩ := ih hrest ids tx { d with data := true } hw
      refine ⟨d1, ?_, h2⟩
      simp only [runFindOptions, IncludeContent, DocumentDecorator.asDecorator,
        DocumentDecorator.IncludeData, hw, Bool.false_eq_true, if_false, List.append_nil]
      simp only [DocumentDecorator.asDecorator, hw] at h1
      exact h1
    · subst ho
      obtain ⟨d1, h1, h2⟩ := ih hrest ids tx { d with labels := true } hw
      refine ⟨d1, ?_, h2⟩
      simp only [runFindOptions, IncludeLabels, DocumentDecorator.asDecorator,
        DocumentDecorator.IncludeLabels, hw, Bool.false_eq_true, if_false, List.append_nil]
      simp only [DocumentDecorator.asDecorator, hw] at h1
      exact h1

/-- Claim C24. `FindDocuments` with a non-empty option list made only of
`IncludeContent` and `IncludeLabels` returns no error and no documents, whatever
the store holds: those options contribute no IDs, and the listing of every
document is the path of the empty option list only. -/
theorem C24_find_decorators_only (c : Codec) (ns : String) (tx : Tx)
    (opts : List (DocumentFindOptions Tx DocumentDecorator)) (hne : opts ≠ [])
    (hdec : ∀ o ∈ opts, o = IncludeContent ∨ o = IncludeLabels) :
    FindDocuments c ns opts tx = ([], none) := by
  have hlen : ¬ opts.length = 0 := by
    intro h
    exact hne (List.length_eq_zero.mp h)
  obtain ⟨d1, h1, -⟩ := runFindOptions_decorators readIndex opts hdec [] tx
    { data := false, labels := false, accessors := false, writable := false } rfl
  unfold readIndex at h1
  unfold FindDocuments View
  simp only [hlen, if_false, h1, findDocumentsByID, findDocumentsByIDLoop]
  cases d1.data <;> cases d1.labels <;> simp [hydrateData, hydrateLabels]

end kv


/-! ## `DeleteDocuments` on an ID that comes twice -/

namespace kv

open influxdb

theorem entriesGet_entriesDelete_some (es : List (Bytes × Bytes)) (k1 k v : Bytes)
    (h : entriesGet (entriesDelete es k1) k = some v) : entriesGet es k = some v := by
  induction es with
  | nil => simp [entriesDelete, entriesGet] at h
  | cons e es ih =>
    obtain ⟨k2, v2⟩ := e
    unfold entriesDelete at h
    by_cases h1 : k2 = k1
    · simp only [h1, if_true] at h
      by_cases h3 : k2 = k
      · rw [← h1, h3, entriesGet_entriesDelete_same] at h
        cases h
      · simp only [entriesGet, h3, if_false]
        exact ih h
    · simp only [h1, if_false, entriesGet] at h ⊢
      by_cases h3 : k2 = k
      · simp only [h3, if_true] at h ⊢
        exact h
      · simp only [h3, if_false] at h ⊢
        exact ih h

/-- A successful `deleteAtID` adds no record: what the store returns afterwards,
it returned before. -/
theorem deleteAtID_get_of_get (c : Codec) (tx tx1 : Tx) (bucket : String) (id1 : ID)
    (h : deleteAtID c tx bucket id1 = (none, tx1)) (b : String) (k v : Bytes)
    (hg : tx1.Get b k = .ok v) : tx.Get b k = .ok v := by
  obtain ⟨k1, es, -, hl, htx⟩ := deleteAtID_ok c tx tx1 bucket id1 h
  subst htx
  unfold Tx.Get at hg ⊢
  by_cases hb : bucket = b
  · subst hb
    simp only [lookupBucket_replaceBucket_same _ _ _ _ hl] at hg
    rw [hl]
    cases h2 : entriesGet (entriesDelete es k1) k with
    | none => simp [h2] at hg
    | some v1 =>
      simp only [h2, Except.ok.injEq] at hg
      subst hg
      simp only [entriesGet_entriesDelete_some es k1 k v1 h2]
  · simp only [lookupBucket_replaceBucket_ne _ _ _ _ hb] at hg
    exact hg

theorem findByID_of_get {α : Type} (c : Codec) (unmarshal : Bytes → Except Error α)
    (tx tx1 : Tx) (bucket : String) (id : ID) (x : α)
    (hget : ∀ k v, tx1.Get bucket k = .ok v → tx.Get bucket k = .ok v)
    (h : findByID c unmarshal tx1 bucket id = .ok x) :
    findByID c unmarshal tx bucket id = .ok x := by
  unfold findByID at h ⊢
  cases hb : tx1.Bucket bucket with
  | error e => simp [hb] at h
  | ok b =>
    obtain ⟨hbn, -⟩ := Tx.Bucket_ok tx1 bucket b hb
    subst hbn
    cases hk : c.encodeID id with
    | error e => simp [hb, hk] at h
    | ok k =>
      cases hg : tx1.Get b k with
      | error e => simp [hb, hk, hg] at h
      | ok v =>
        simp only [hb, hk, hg] at h
        have hg2 := hget k v hg
        have hb2 : tx.Bucket b = .ok b := by
          unfold Tx.Get at hg2
          cases hl : lookupBucket tx.buckets b with
          | none => simp [hl] at hg2
          | some es => exact Tx.Bucket_of_lookup tx b es hl
        simp only [hb2, hk, hg2]
        exact h

theorem findDocumentMetaByID_buckets (c : Codec) (tx tx1 : Tx) (ns : String) (id : ID)
    (h : tx1.buckets = tx.buckets) :
    findDocumentMetaByID c tx1 ns id = findDocumentMetaByID c tx ns id := by
  simp only [findDocumentMetaByID, findByID, Tx.Bucket, Tx.Get, h]

/-- A successful `deleteDocument` adds no record. -/
theorem deleteDocument_get_of_get (c : Codec) (tx tx1 : Tx) (ns : String) (id1 : ID)
    (h : deleteDocument c tx ns id1 = (none, tx1)) (b : String) (k v : Bytes)
    (hg : tx1.Get b k = .ok v) : tx.Get b k = .ok v := by
  unfold deleteDocument at h
  cases hf : findDocumentMetaByID c tx ns id1 with
  | error e => simp [hf] at h
  | ok m =>
    rcases hdm : deleteDocumentMeta c tx ns id1 with ⟨_ | e1, txm⟩
    · rcases hdd : deleteDocumentData c txm ns id1 with ⟨_ | e2, txd⟩
      · simp only [hf, hdm, hdd, Prod.mk.injEq, true_and] at h
        subst h
        exact deleteAtID_get_of_get c tx txm _ id1 hdm b k v
          (deleteAtID_get_of_get c txm txd _ id1 hdd b k v hg)
      · simp [hf, hdm, hdd] at h
    · simp [hf, hdm] at h

/-- A successful `deleteDocument` has found the Meta record of the document. -/
theorem deleteDocument_found (c : Codec) (tx tx1 : Tx) (ns : String) (id : ID)
    (h : deleteDocument c tx ns id = (none, tx1)) :
    ∃ m, findDocumentMetaByID c tx ns id = .ok m := by
  unfold deleteDocument at h
  cases hf : findDocumentMetaByID c tx ns id with
  | error e => simp [hf] at h
  | ok m => exact ⟨m, rfl⟩

/-- The loop of `DeleteDocuments` fails when it holds an ID whose Meta lookup
fails: no pass of the loop writes a Meta record. -/
theorem deleteLoop_missing (c : Codec) (ns : String) (id : ID) (ids : List ID) :
    ∀ tx : Tx, id ∈ ids → (∀ m, findDocumentMetaByID c tx ns id ≠ .ok m) →
      ∃ e, (deleteLoop c ns writeIndex ids tx).1 = some e := by
  induction ids with
  | nil =>
    intro tx hmem
    cases hmem
  | cons id1 rest ih =>
    intro tx hmem hno
    have hw := WithoutOwners_writeIndex id1 tx
    generalize hres : WithoutOwners id1 writeIndex tx = res at hw
    subst hw
    have hnow : ∀ m, findDocumentMetaByID c
        { tx with urms := (tx.urms.filter
          (fun m => !(decide (m.ResourceID = id1) &&
            (writeIndex.GetDocumentsAccessors id1 tx).1.1.contains m.UserID))) } ns id
          ≠ .ok m := by
      intro m hm
      exact hno m ((findDocumentMetaByID_buckets c tx _ ns id (by rfl)).symm.trans hm)
    simp only [deleteLoop, hres]
    rcases hd : deleteDocument c { tx with urms := (tx.urms.filter
          (fun m => !(decide (m.ResourceID = id1) &&
            (writeIndex.GetDocumentsAccessors id1 tx).1.1.contains m.UserID))) } ns id1
      with ⟨_ | e, tx2⟩
    · have hno2 : ∀ m, findDocumentMetaByID c tx2 ns id ≠ .ok m := by
        intro m hm
        exact hnow m (findByID_of_get c c.unmarshalMeta _ tx2 _ id m
          (fun k v => deleteDocument_get_of_get c _ tx2 ns id1 hd _ k v) hm)
      have hne : id1 ≠ id := by
        intro heq
        subst heq
        obtain ⟨m, hf⟩ := deleteDocument_found c _ tx2 ns id1 hd
        exact hnow m hf
      have hmem2 : id ∈ rest := by
        rcases List.mem_cons.mp hmem with h1 | h1
        · exact absurd h1.symm hne
        · exact h1
      exact ih tx2 hmem2 hno2
    · exact ⟨e, rfl⟩

/-- The loop of `DeleteDocuments` fails when an ID comes twice in its list. -/
theorem deleteLoop_twice (c : Codec) (ns : String) (id : ID) (ids : List ID) :
    ∀ tx : Tx, 2 ≤ ids.count id → ∃ e, (deleteLoop c ns writeIndex ids tx).1 = some e := by
  induction ids with
  | nil =>
    intro tx h
    simp at h
  | cons id1 rest ih =>
    intro tx hcount
    have hw := WithoutOwners_writeIndex id1 tx
    generalize hres : WithoutOwners id1 writeIndex tx = res at hw
    subst hw
    simp only [deleteLoop, hres]
    rcases hd : deleteDocument c { tx with urms := (tx.urms.filter
          (fun m => !(decide (m.ResourceID = id1) &&
            (writeIndex.GetDocumentsAccessors id1 tx).1.1.contains m.UserID))) } ns id1
      with ⟨_ | e, tx2⟩
    · by_cases heq : id1 = id
      · subst heq
        obtain ⟨-, -, -, k, em, hk, hl, hg⟩ := deleteDocument_ok c _ tx2 ns id1 hd
        have hmem : id1 ∈ rest := by
          rw [List.count_cons_self] at hcount
          exact List.count_pos_iff.mp (by omega)
        refine deleteLoop_missing c ns id1 rest tx2 hmem ?_
        intro m hm
        unfold findDocumentMetaByID at hm
        rw [findByID_of_no_entry c c.unmarshalMeta tx2 _ id1 k em hk hl hg] at hm
        cases hm
      · rw [List.count_cons_of_ne (fun h => heq h.symm)] at hcount
        exact ih tx2 hcount
    · exact ⟨e, rfl⟩

/-- A document with a Meta record in a store that has the Data bucket of the
namespace can be deleted. -/
theorem deleteDocument_of_stored (c : Codec) (tx : Tx) (ns : String) (id : ID)
    (m : DocumentMeta) (ed : List (Bytes × Bytes))
    (hm : findDocumentMetaByID c tx ns id = .ok m)
    (hd : lookupBucket tx.buckets (pathJoin ns documentDataBucket) = some ed) :
    ∃ tx1, deleteDocument c tx ns id = (none, tx1) := by
  have hm0 := hm
  unfold findDocumentMetaByID findByID at hm
  cases hb : tx.Bucket (pathJoin ns documentMetaBucket) with
  | error e => simp [hb] at hm
  | ok b =>
    obtain ⟨-, em, hl⟩ := Tx.Bucket_ok tx _ b hb
    cases hk : c.encodeID id with
    | error e => simp [hb, hk] at hm
    | ok k =>
      have hd2 : lookupBucket (replaceBucket tx.buckets (pathJoin ns documentMetaBucket)
          (entriesDelete em k)) (pathJoin ns documentDataBucket) = some ed := by
        rw [lookupBucket_replaceBucket_ne _ _ _ _ (bucket_names_ne ns)]
        exact hd
      have h1 : (deleteDocument c tx ns id).1 = none := by
        simp only [deleteDocument, hm0, deleteDocumentMeta, deleteDocumentData, deleteAtID, hk,
          Tx.Bucket, hl, Tx.Delete, hd2]
      exact ⟨(deleteDocument c tx ns id).2, Prod.ext h1 rfl⟩

/-- Claim C23. `DeleteDocuments` called with options that resolve to a list in
which `id` comes twice, such as `WhereID(id), WhereID(id)`, returns an error and
the store afterwards is the store before the call, so the document and its
ownership edges are still there. For a document that has a Meta record, in a
store that has the Data bucket of the namespace, the first pass for `id` deletes
the document, the Meta lookup of the second pass finds nothing, and the error is
the not-found error of the store. -/
theorem C23_delete_twice (c : Codec) (ns : String) (id : ID) (tx : Tx) :
    (∀ (opts : List (DocumentFindOptions Tx DocumentDecorator)) (ids : List ID) (tx1 : Tx)
      (d1 : DocumentDecorator),
      runFindOptions writeIndex DocumentDecorator.asDecorator opts [] tx deleteDecorator
        = ((ids, none), tx1, d1) →
      2 ≤ ids.count id → ∃ e, DeleteDocuments c ns opts tx = (some e, tx)) ∧
    (∃ e, DeleteDocuments c ns [WhereID id, WhereID id] tx = (some e, tx)) ∧
    (∀ (m : DocumentMeta) (ed : List (Bytes × Bytes)),
      findDocumentMetaByID c tx ns id = .ok m →
      lookupBucket tx.buckets (pathJoin ns documentDataBucket) = some ed →
      (∃ tx2, deleteDocument c (WithoutOwners id writeIndex tx).2 ns id = (none, tx2) ∧
        findDocumentMetaByID c (WithoutOwners id writeIndex tx2).2 ns id
          = .error ErrKeyNotFound) ∧
      DeleteDocuments c ns [WhereID id, WhereID id] tx = (some ErrKeyNotFound, tx) ∧
      findDocumentMetaByID c (DeleteDocuments c ns [WhereID id, WhereID id] tx).2 ns id
        = .ok m ∧
      (DeleteDocuments c ns [WhereID id, WhereID id] tx).2.urms = tx.urms) := by
  have hgen : ∀ (opts : List (DocumentFindOptions Tx DocumentDecorator)) (ids : List ID)
      (tx1 : Tx) (d1 : DocumentDecorator),
      runFindOptions writeIndex DocumentDecorator.asDecorator opts [] tx deleteDecorator
        = ((ids, none), tx1, d1) →
      2 ≤ ids.count id → ∃ e, DeleteDocuments c ns opts tx = (some e, tx) := by
    intro opts ids tx1 d1 h hcount
    obtain ⟨e, he⟩ := deleteLoop_twice c ns id ids tx1 hcount
    unfold writeIndex at he
    unfold writeIndex deleteDecorator at h
    rcases hres : deleteLoop c ns (DocumentIndex.asIndex { writable := true }) ids tx1
      with ⟨e1, tx2⟩
    rw [hres] at he
    simp only at he
    subst he
    exact ⟨e, by simp only [DeleteDocuments, Update, h, hres]⟩
  refine ⟨hgen, ?_, ?_⟩
  · exact hgen [WhereID id, WhereID id] [id, id] tx deleteDecorator
      (by simp [runFindOptions, WhereID]) (by simp)
  · intro m ed hm hd
    obtain ⟨txw, hw1, hbk⟩ : ∃ txw, WithoutOwners id writeIndex tx = (none, txw) ∧
        txw.buckets = tx.buckets := ⟨_, WithoutOwners_writeIndex id tx, rfl⟩
    obtain ⟨tx2, hdel⟩ := deleteDocument_of_stored c txw ns id m ed
      (by rw [findDocumentMetaByID_buckets c tx txw ns id hbk]; exact hm)
      (by rw [hbk]; exact hd)
    obtain ⟨txw2, hw2, hbk2⟩ : ∃ txw2, WithoutOwners id writeIndex tx2 = (none, txw2) ∧
        txw2.buckets = tx2.buckets := ⟨_, WithoutOwners_writeIndex id tx2, rfl⟩
    obtain ⟨-, -, -, k, em, hk, hl, hg⟩ := deleteDocument_ok c txw tx2 ns id hdel
    have hfind2 : findDocumentMetaByID c txw2 ns id = .error ErrKeyNotFound := by
      rw [findDocumentMetaByID_buckets c tx2 txw2 ns id hbk2]
      unfold findDocumentMetaByID
      exact findByID_of_no_entry c c.unmarshalMeta tx2 _ id k em hk hl hg
    have hdel2 : deleteDocument c txw2 ns id = (some ErrKeyNotFound, txw2) := by
      simp only [deleteDocument, hfind2]
    have hD : DeleteDocuments c ns [WhereID id, WhereID id] tx = (some ErrKeyNotFound, tx) := by
      unfold writeIndex at hw1 hw2
      simp only [DeleteDocuments, Update, runFindOptions, WhereID, List.nil_append,
        List.cons_append, deleteLoop, hw1, hdel, hw2, hdel2]
    refine ⟨⟨tx2, ?_, ?_⟩, hD, ?_, ?_⟩
    · rw [hw1]
      exact hdel
    · rw [hw2]
      exact hfind2
    · rw [hD]
      exact hm
    · rw [hD]

end kv


/-! ## The theorems of the third part at concrete inputs -/

namespace Examples

open influxdb kv

/-- Claim C21 at its failing input. On the read-only index of the example store,
which no call changes, the first evaluation of the option value
`AuthorizedWhere(a)` returns `[5]` and the second evaluation of the same value
returns `[5, 5]`, for the identity of user 10 and for the active token with a
permission on the documents of org 1. -/
theorem C21_second_evaluation_doubles :
    AuthorizedWhereCall (Authorizer.ambient 10) [] readIndex store
      = (([5], none), [5], store) ∧
    AuthorizedWhereCall (Authorizer.ambient 10) [5] readIndex store
      = (([5, 5], none), [5, 5], store) ∧
    AuthorizedWhereTwice (Authorizer.ambient 10) readIndex store
      = (([5], none), ([5, 5], none)) ∧
    orgToken.IsActive = true ∧
    AuthorizedWhereCall (Authorizer.token orgToken) [] readIndex store
      = (([5], none), [5], store) ∧
    AuthorizedWhereCall (Authorizer.token orgToken) [5] readIndex store
      = (([5, 5], none), [5, 5], store) ∧
    AuthorizedWhereTwice (Authorizer.token orgToken) readIndex store
      = (([5], none), ([5, 5], none)) :=
  ⟨rfl, rfl, rfl, rfl, rfl, rfl, rfl⟩

/-- Claim C22 at the example store, which holds document 5: the delete with no
options leaves the store as it is, and the find with no options lists the
document. -/
theorem C22_delete_without_options_witness :
    DeleteDocuments codec "ns" [] store = (none, store) ∧
    FindDocuments codec "ns" [] store
      = ([{ ID := 5, Meta := meta5, Data := none, Labels := [] }], none) :=
  ⟨(C22_delete_without_options codec "ns" store).1, rfl⟩

/-- Claim C23 at document 5 of the example store. -/
theorem C23_delete_twice_witness :
    findDocumentMetaByID codec store "ns" 5 = .ok meta5 ∧
    DeleteDocuments codec "ns" [WhereID 5, WhereID 5] store = (some ErrKeyNotFound, store) :=
  ⟨rfl, ((C23_delete_twice codec "ns" 5 store).2.2 meta5 [([5], [1, 120])] rfl rfl).2.1⟩

/-- Claim C24 at the example store, which holds document 5, with the options
`IncludeContent` and `IncludeLabels`. -/
theorem C24_find_decorators_only_witness :
    ([IncludeContent, IncludeLabels] : List (DocumentFindOptions Tx DocumentDecorator)) ≠ [] ∧
    FindDocuments codec "ns" [IncludeContent, IncludeLabels] store = ([], none) ∧
    FindDocuments codec "ns" [] store
      = ([{ ID := 5, Meta := meta5, Data := none, Labels := [] }], none) :=
  ⟨List.cons_ne_nil _ _,
    C24_find_decorators_only codec "ns" store [IncludeContent, IncludeLabels]
      (List.cons_ne_nil _ _)
      (by
        intro o ho
        simp only [List.mem_cons, List.mem_singleton, List.not_mem_nil, or_false] at ho
        exact ho),
    rfl⟩

end Examples


/-! ## The invariant of the data model under the writes of the store -/

namespace kv

open influxdb

theorem MetaHasData_of_buckets (c : Codec) (ns : String) (tx tx1 : Tx)
    (h : tx1.buckets = tx.buckets) (hinv : MetaHasData c ns tx) : MetaHasData c ns tx1 := by
  intro id m hm
  rw [findDocumentMetaByID_buckets c tx tx1 ns id h] at hm
  obtain ⟨p, hp⟩ := hinv id m hm
  refine ⟨p, ?_⟩
  rw [← hp]
  simp only [findDocumentDataByID, findByID, Tx.Bucket, Tx.Get, h]

/-- Function `putDocument` keeps the invariant: it writes the Meta and the Data of
the document under one key. -/
theorem MetaHasData_putDocument (c : Codec) (ns : String) (d : Document) (tx tx1 : Tx)
    (hrt : ∀ p v, c.marshalData p = .ok v → ∃ p1, c.unmarshalData v = .ok p1)
    (h : putDocument c tx ns d = (none, tx1)) (hinv : MetaHasData c ns tx) :
    MetaHasData c ns tx1 := by
  obtain ⟨k, vm, vd, em, ed, hk, -, hmd, -, -, hld, hgd⟩ := putDocument_ok c tx tx1 ns d h
  obtain ⟨k2, vm2, vd2, hk2, -, -, hget, hbucket, -⟩ := putDocument_frame c tx tx1 ns d h
  have hkk : k2 = k := by
    rw [hk] at hk2
    exact (Except.ok.inj hk2).symm
  subst hkk
  intro id m hm
  obtain ⟨k1, es, v, hk1, -, -, -⟩ := findByID_ok_entry c c.unmarshalMeta tx1 _ id m hm
  by_cases hkeq : k1 = k2
  · subst hkeq
    obtain ⟨p1, hp1⟩ := hrt d.Data vd hmd
    refine ⟨p1, ?_⟩
    unfold findDocumentDataByID
    rw [findByID_of_entry c c.unmarshalData tx1 _ id k1 vd ed hk1 hld hgd]
    exact hp1
  · have hframe : ∀ b, ∀ k3, c.encodeID id = .ok k3 → tx1.Get b k3 = tx.Get b k3 := by
      intro b k3 hk3
      rw [hk1] at hk3
      have h3 : k3 = k1 := (Except.ok.inj hk3).symm
      subst h3
      rw [hget b k3]
      simp [hkeq]
    have hm0 : findDocumentMetaByID c tx ns id = .ok m := by
      rw [← hm]
      unfold findDocumentMetaByID
      exact (findByID_congr c c.unmarshalMeta tx tx1 _ id (hbucket _) (hframe _)).symm
    obtain ⟨p, hp⟩ := hinv id m hm0
    refine ⟨p, ?_⟩
    rw [← hp]
    unfold findDocumentDataByID
    exact findByID_congr c c.unmarshalData tx tx1 _ id (hbucket _) (hframe _)

theorem entriesGet_entriesDelete_ne (es : List (Bytes × Bytes)) (k k1 : Bytes) (h : k1 ≠ k) :
    entriesGet (entriesDelete es k) k1 = entriesGet es k1 := by
  induction es with
  | nil => simp [entriesDelete, entriesGet]
  | cons e es ih =>
    obtain ⟨k2, v2⟩ := e
    unfold entriesDelete
    by_cases h1 : k2 = k
    · have h2 : ¬ k2 = k1 := fun h3 => h (h3.symm.trans h1)
      simp only [h1, if_true, ih, entriesGet]
      rw [← h1]
      simp [h2]
    · simp only [h1, if_false, entriesGet, ih]

/-- A successful `deleteAtID` leaves every record under another key, and every
bucket, as it was. -/
theorem deleteAtID_frame (c : Codec) (tx tx1 : Tx) (bucket : String) (id : ID)
    (h : deleteAtID c tx bucket id = (none, tx1)) :
    ∃ k, c.encodeID id = .ok k ∧
      (∀ b1 k1, k1 ≠ k → tx1.Get b1 k1 = tx.Get b1 k1) ∧
      (∀ b1, tx1.Bucket b1 = tx.Bucket b1) := by
  obtain ⟨k, es, hk, hl, htx⟩ := deleteAtID_ok c tx tx1 bucket id h
  subst htx
  refine ⟨k, hk, ?_, fun b1 => Tx.Bucket_after_put tx bucket es _ hl b1⟩
  intro b1 k1 hne
  unfold Tx.Get
  by_cases hb : bucket = b1
  · subst hb
    simp only [lookupBucket_replaceBucket_same _ _ _ _ hl, hl,
      entriesGet_entriesDelete_ne es k k1 hne]
  · simp only [lookupBucket_replaceBucket_ne _ _ _ _ hb]

/-- Function `deleteDocument` keeps the invariant: it removes the Meta and the
Data of the document, stored under one key. -/
theorem MetaHasData_deleteDocument (c : Codec) (ns : String) (id : ID) (tx tx1 : Tx)
    (h : deleteDocument c tx ns id = (none, tx1)) (hinv : MetaHasData c ns tx) :
    MetaHasData c ns tx1 := by
  obtain ⟨-, -, -, k, em, hk, hl, hg⟩ := deleteDocument_ok c tx tx1 ns id h
  have hframe : (∀ b1 k1, k1 ≠ k → tx1.Get b1 k1 = tx.Get b1 k1) ∧
      (∀ b1, tx1.Bucket b1 = tx.Bucket b1) := by
    unfold deleteDocument at h
    cases hf : findDocumentMetaByID c tx ns id with
    | error e => simp [hf] at h
    | ok m =>
      rcases hdm : deleteDocumentMeta c tx ns id with ⟨_ | e1, txm⟩
      · rcases hdd : deleteDocumentData c txm ns id with ⟨_ | e2, txd⟩
        · simp only [hf, hdm, hdd, Prod.mk.injEq, true_and] at h
          subst h
          obtain ⟨ka, hka, hga, hba⟩ := deleteAtID_frame c tx txm _ id hdm
          obtain ⟨kb, hkb, hgb, hbb⟩ := deleteAtID_frame c txm txd _ id hdd
          have h1 : ka = k := by
            rw [hk] at hka
            exact (Except.ok.inj hka).symm
          have h2 : kb = k := by
            rw [hk] at hkb
            exact (Except.ok.inj hkb).symm
          subst h1
          subst h2
          exact ⟨fun b1 k1 hne => (hgb b1 k1 hne).trans (hga b1 k1 hne),
            fun b1 => (hbb b1).trans (hba b1)⟩
        · simp [hf, hdm, hdd] at h
      · simp [hf, hdm] at h
  obtain ⟨hget, hbucket⟩ := hframe
  intro id1 m hm
  obtain ⟨k1, es, v, hk1, hl1, hg1, -⟩ := findByID_ok_entry c c.unmarshalMeta tx1 _ id1 m hm
  have hkne : k1 ≠ k := by
    intro heq
    subst heq
    rw [hl] at hl1
    have hes : em = es := Option.some.inj hl1
    subst hes
    rw [hg] at hg1
    cases hg1
  have hfr : ∀ b, ∀ k3, c.encodeID id1 = .ok k3 → tx1.Get b k3 = tx.Get b k3 := by
    intro b k3 hk3
    rw [hk1] at hk3
    have h3 : k3 = k1 := (Except.ok.inj hk3).symm
    subst h3
    exact hget b k3 hkne
  have hm0 : findDocumentMetaByID c tx ns id1 = .ok m := by
    rw [← hm]
    unfold findDocumentMetaByID
    exact (findByID_congr c c.unmarshalMeta tx tx1 _ id1 (hbucket _) (hfr _)).symm
  obtain ⟨p, hp⟩ := hinv id1 m hm0
  refine ⟨p, ?_⟩
  rw [← hp]
  unfold findDocumentDataByID
  exact findByID_congr c c.unmarshalData tx tx1 _ id1 (hbucket _) (hfr _)

theorem MetaHasData_deleteLoop (c : Codec) (ns : String) (ids : List ID) :
    ∀ tx tx1 : Tx, deleteLoop c ns writeIndex ids tx = (none, tx1) →
      MetaHasData c ns tx → MetaHasData c ns tx1 := by
  induction ids with
  | nil =>
    intro tx tx1 h hinv
    simp only [deleteLoop, Prod.mk.injEq, true_and] at h
    subst h
    exact hinv
  | cons id rest ih =>
    intro tx tx1 h hinv
    obtain ⟨txw, hw, hbk⟩ : ∃ txw, WithoutOwners id writeIndex tx = (none, txw) ∧
        txw.buckets = tx.buckets := ⟨_, WithoutOwners_writeIndex id tx, rfl⟩
    simp only [deleteLoop, hw] at h
    rcases hd : deleteDocument c txw ns id with ⟨_ | e, tx2⟩
    · simp only [hd] at h
      exact ih tx2 tx1 h (MetaHasData_deleteDocument c ns id txw tx2 hd
        (MetaHasData_of_buckets c ns tx txw hbk hinv))
    · simp [hd] at h

theorem runFindOptions_keep_buckets (idx : influxdb.DocumentIndex Tx)
    (dd : influxdb.DocumentDecorator DocumentDecorator)
    (opts : List (DocumentFindOptions Tx DocumentDecorator))
    (hopts : ∀ o ∈ opts, ∀ tx2 d2, (o idx dd tx2 d2).2.1.buckets = tx2.buckets) :
    ∀ (ids : List ID) (tx : Tx) (d : DocumentDecorator),
      (runFindOptions idx dd opts ids tx d).2.1.buckets = tx.buckets := by
  induction opts with
  | nil =>
    intro ids tx d
    rfl
  | cons o rest ih =>
    intro ids tx d
    have ho := hopts o (List.mem_cons_self _ _) tx d
    have hrest := fun o1 h1 => hopts o1 (List.mem_cons_of_mem _ h1)
    rcases hr : o idx dd tx d with ⟨⟨is, _ | e⟩, tx1, d1⟩
    · simp only [runFindOptions, hr]
      rw [hr] at ho
      rw [ih hrest (ids ++ is) tx1 d1]
      exact ho
    · simp only [runFindOptions, hr]
      rw [hr] at ho
      exact ho

/-- The invariant of the data model, every ID with a Meta record has a Data
record, holds after `CreateDocument`, `UpdateDocument` and `DeleteDocuments` when
it held before, for a codec that can decode the payloads it encodes and options
that leave the buckets as they are, as the options of `document.go` do. -/
theorem MetaHasData_preserved (c : Codec) (ns : String) (tx : Tx)
    (hrt : ∀ p v, c.marshalData p = .ok v → ∃ p1, c.unmarshalData v = .ok p1)
    (hinv : MetaHasData c ns tx) :
    (∀ (newID : ID) (d : Document) (opts : List (DocumentCreateOptions Tx)),
      (∀ o ∈ opts, ∀ tx2, (o newID writeIndex tx2).2.buckets = tx2.buckets) →
      MetaHasData c ns (CreateDocument c newID ns d opts tx).2) ∧
    (∀ (d : Document) (opts : List (DocumentCreateOptions Tx)),
      (∀ o ∈ opts, ∀ tx2, (o d.ID writeIndex tx2).2.buckets = tx2.buckets) →
      MetaHasData c ns (UpdateDocument c ns d opts tx).2) ∧
    (∀ (opts : List (DocumentFindOptions Tx DocumentDecorator)),
      (∀ o ∈ opts, ∀ tx2 d2,
        (o writeIndex DocumentDecorator.asDecorator tx2 d2).2.1.buckets = tx2.buckets) →
      MetaHasData c ns (DeleteDocuments c ns opts tx).2) := by
  refine ⟨?_, ?_, ?_⟩
  · intro newID d opts hopts
    unfold CreateDocument Update createDocument
    rcases hp : putDocument c tx ns { d with ID := newID } with ⟨_ | e1, txp⟩
    · have hinvp := MetaHasData_putDocument c ns _ tx txp hrt hp hinv
      have hb := runCreateOptions_keep_buckets writeIndex newID opts hopts txp
      unfold writeIndex at hb
      rcases hr : runCreateOptions (DocumentIndex.asIndex { writable := true }) newID opts txp
        with ⟨_ | e2, txo⟩
      · simp only [hp, hr]
        rw [hr] at hb
        exact MetaHasData_of_buckets c ns txp txo hb hinvp
      · simp only [hp, hr]
        exact hinv
    · simp only [hp]
      exact hinv
  · intro d opts hopts
    unfold UpdateDocument Update updateDocument
    have hb := runCreateOptions_keep_buckets writeIndex d.ID opts hopts tx
    unfold writeIndex at hb
    rcases hr : runCreateOptions (DocumentIndex.asIndex { writable := true }) d.ID opts tx
      with ⟨_ | e2, txo⟩
    · rw [hr] at hb
      have hinvo := MetaHasData_of_buckets c ns tx txo hb hinv
      rcases hp : putDocument c txo ns d with ⟨_ | e1, txp⟩
      · simp only [hr, hp]
        exact MetaHasData_putDocument c ns d txo txp hrt hp hinvo
      · simp only [hr, hp]
        exact hinv
    · simp only [hr]
      exact hinv
  · intro opts hopts
    unfold DeleteDocuments Update
    have hb := runFindOptions_keep_buckets writeIndex DocumentDecorator.asDecorator opts hopts
      [] tx deleteDecorator
    unfold writeIndex deleteDecorator at hb
    rcases hr : runFindOptions (DocumentIndex.asIndex { writable := true })
        DocumentDecorator.asDecorator opts [] tx
        { data := false, labels := false, accessors := false, writable := true }
      with ⟨⟨ids, _ | e⟩, tx1, d1⟩
    · rw [hr] at hb
      have hinv1 := MetaHasData_of_buckets c ns tx tx1 hb hinv
      rcases hl : deleteLoop c ns (DocumentIndex.asIndex { writable := true }) ids tx1
        with ⟨_ | e, tx2⟩
      · simp only [hr, hl]
        exact MetaHasData_deleteLoop c ns ids tx1 tx2 hl hinv1
      · simp only [hr, hl]
        exact hinv
    · simp only [hr]
      exact hinv

end kv
